import Mathlib

/-!
# QtJsonSerializer: converter resolution and the gadget (record) converter

A shallow embedding of `src/jsonserializer/qjsonserializer.cpp` and
`src/jsonserializer/typeconverters/qjsongadgetconverter.cpp`.

* Exceptions become `Except QJsonException _`.
* The Qt meta-type system (`QMetaType`, `QMetaObject`, `QMetaProperty`, `QMetaEnum`) is an
  external library: the parts the code queries are the fields of `QMetaType` and of the
  meta-object structures below; `QMetaEnum` follows Qt's implementation on 32-bit `int`.
* A JSON number is a rational; the kind `QJsonValue::Undefined`, of a value or as the default
  argument of `findConverter`, is `none`.
* A `const char *` is a C string: `qUtf8Printable` cuts a text at its first NUL character.
* The serializer state is passed explicitly (`QJsonSerializerPrivate`) and every call runs
  alone; `findConverterWithLocks` is `findConverter` with the calls it makes on its two
  `QReadWriteLock`s, as a sequence of events.
* The facade `QJsonSerializer` bundles that state with the factory list, the properties of the
  instance and what it calls outside the two files: `QJsonValue::fromVariant` and the virtual
  methods of the converters.  `serializeVariant` and `deserializeVariant` give the result of a
  call; the state the call leaves is that of `findConverter`.
-/

namespace QtJsonSerializer

/-! ## JSON document model -/

/-- The kinds of `QJsonValue::Type` a JSON value can have. -/
inductive JsonType
  | Null | Bool | Double | String | Array | Object
  deriving DecidableEq, Repr

/-- A `QJsonValue`; an object is its member list in iteration order, and `undefined` is the
value of kind `QJsonValue::Undefined`, which no array and no object holds. -/
inductive QJsonValue
  | undefined
  | null
  | bool (b : Bool)
  | double (d : Rat)
  | string (s : String)
  | array (xs : List QJsonValue)
  | object (members : List (String × QJsonValue))

/-- A `QJsonObject`: the members in iteration order. -/
abbrev QJsonObject := List (String × QJsonValue)

namespace QJsonValue

/-- The kind of a value: `QJsonValue::type()`; `none` is `QJsonValue::Undefined`. -/
def type : QJsonValue → Option JsonType
  | undefined => none
  | null => some .Null
  | bool _ => some .Bool
  | double _ => some .Double
  | string _ => some .String
  | array _ => some .Array
  | object _ => some .Object

/-- Test for JSON null: `QJsonValue::isNull()`. -/
def isNull : QJsonValue → Bool
  | null => true
  | _ => false

/-- Test for a JSON string: `QJsonValue::isString()`. -/
def isString : QJsonValue → Bool
  | string _ => true
  | _ => false

/-- Test for a JSON object: `QJsonValue::isObject()`. -/
def isObject : QJsonValue → Bool
  | object _ => true
  | _ => false

/-- The conversion `QJsonValue::toObject()`: the empty object for every value that is not an object. -/
def toObject : QJsonValue → QJsonObject
  | object members => members
  | _ => []

/-- The conversion `QJsonValue::toString()`: the empty string for every value that is not a string. -/
def toString : QJsonValue → String
  | string s => s
  | _ => ""

/-- The conversion `QJsonValue::toDouble()`: zero for every value that is not a number. -/
def toDouble : QJsonValue → Rat
  | double d => d
  | _ => 0

end QJsonValue

namespace QJsonObject

/-- Membership test `QJsonObject::contains(key)`. -/
def contains (o : QJsonObject) (key : String) : Bool :=
  o.any (fun m => m.1 == key)

/-- The assignment `jsonObject[key] = value` of a value that is not `Undefined`: replaces the
value of an existing key in place, otherwise inserts the new member in front of the first greater
key (members are kept sorted). -/
def insert : QJsonObject → String → QJsonValue → QJsonObject
  | [], key, value => [(key, value)]
  | (k, v) :: rest, key, value =>
    if k = key then (key, value) :: rest
    else if key.toList < k.toList then (key, value) :: (k, v) :: rest
    else (k, v) :: insert rest key value

/-- The removal `QJsonObject::remove(key)`. -/
def remove (o : QJsonObject) (key : String) : QJsonObject :=
  o.filter (fun m => !(m.1 == key))

/-- The assignment `jsonObject[key] = value` of any value: assigning `Undefined` removes the
key. -/
def assign (o : QJsonObject) (key : String) : QJsonValue → QJsonObject
  | .undefined => o.remove key
  | value => o.insert key value

/-- The keys of an object, in iteration order. -/
def keys (o : QJsonObject) : List String := o.map Prod.fst

end QJsonObject

/-! ## Dynamic values -/

/-- A `QVariant`.  A gadget (value record) carries its property values, one slot per property
index; a gadget pointer carries `none` for `nullptr`; `num` holds a value of an integral type,
`other` a value of any other type, the payload `0` being its default-constructed value. -/
inductive QVariant
  | invalid
  | num (typeId : Nat) (n : Int)
  | str (s : String)
  | json (j : QJsonValue)
  | gadget (typeId : Nat) (fields : List QVariant)
  | gadgetPtr (typeId : Nat) (target : Option (List QVariant))
  | other (typeId : Nat) (payload : Nat)
  | bool (b : Bool)
  | double (d : Rat)
  | list (xs : List QVariant)
  | map (members : List (String × QVariant))

/-- Meta-type ids of `QMetaType::Type` used by the code. -/
def QMetaType.UnknownType : Nat := 0
/-- The id `QMetaType::Bool`. -/
def QMetaType.Bool : Nat := 1
/-- The id `QMetaType::Int`. -/
def QMetaType.Int : Nat := 2
/-- The id `QMetaType::Double`. -/
def QMetaType.Double : Nat := 6
/-- The id `QMetaType::QVariantMap`. -/
def QMetaType.QVariantMap : Nat := 8
/-- The id `QMetaType::QVariantList`. -/
def QMetaType.QVariantList : Nat := 9
/-- The id `QMetaType::QString`. -/
def QMetaType.QString : Nat := 10
/-- The id `QMetaType::QJsonValue`. -/
def QMetaType.QJsonValue : Nat := 45

namespace QVariant

/-- The type id of the held value: `QVariant::userType()`. -/
def userType : QVariant → Nat
  | invalid => QMetaType.UnknownType
  | num t _ => t
  | str _ => QMetaType.QString
  | json _ => QMetaType.QJsonValue
  | gadget t _ => t
  | gadgetPtr t _ => t
  | other t _ => t
  | bool _ => QMetaType.Bool
  | double _ => QMetaType.Double
  | list _ => QMetaType.QVariantList
  | map _ => QMetaType.QVariantMap

/-- The conversion `QVariant::toInt()`: the payload of an integral value.  The code calls it on
enum values and on narrow integers, which are integral; the other values are given `0`. -/
def toInt : QVariant → Int
  | num _ n => n
  | _ => 0

end QVariant

/-! ## Exceptions -/

/-- The two exception classes thrown by the serializer, with their message. -/
inductive QJsonException
  | serialization (what : String)
  | deserialization (what : String)
  deriving DecidableEq, Repr

/-- Whether an exception is a `QJsonDeserializationException`. -/
def QJsonException.isDeserialization : QJsonException → Bool
  | .deserialization _ => true
  | .serialization _ => false

/-! ## Meta-objects -/

/-- The macro `qUtf8Printable(text)`: the UTF-8 form of the text as a C string, which ends at
the first NUL character of the text. -/
def qUtf8Printable (text : String) : String :=
  String.mk (text.toList.takeWhile (fun c => c != '\x00'))

/-- A `QMetaEnum`: flag-ness, the declared keys with their values, in declaration order, and
the name of the class that declares the enum, by which a key can be qualified. -/
structure QMetaEnum where
  isFlag : Bool
  keys : List (String × Int)
  scope : String

/-- A `QMetaProperty` as far as the converters query it. -/
structure QMetaProperty where
  name : String
  isStored : Bool
  isEnumType : Bool
  enumerator : QMetaEnum
  userType : Nat
  /-- What `QMetaProperty::writeOnGadget(gadget, value)` stores: the value the property holds
  after the call, `none` when the call returns false and stores nothing (a property declared
  without `WRITE` or `MEMBER`, a value Qt cannot convert to the type of the property). -/
  write : QVariant → Option QVariant

/-- A `QMetaClassInfo` entry. -/
structure QMetaClassInfo where
  name : String
  value : String

/-- A `QMetaObject`: class name, properties in index order, class infos in index order. -/
structure QMetaObject where
  className : String
  properties : List QMetaProperty
  classInfos : List QMetaClassInfo

/-- Search of `QMetaObject::indexOfProperty` among the properties from index `i` on: Qt walks
from the last property down to the first, so a match at a higher index wins. -/
def indexOfPropertyFrom (name : String) : List QMetaProperty → Nat → Option (Nat × QMetaProperty)
  | [], _ => none
  | p :: rest, i =>
    match indexOfPropertyFrom name rest (i + 1) with
    | some found => some found
    | none => if p.name = name then some (i, p) else none

/-- The lookup `QMetaObject::indexOfProperty` followed by `property(index)`; `none` stands for the
index `-1`. -/
def QMetaObject.indexOfProperty (mo : QMetaObject) (name : String) : Option (Nat × QMetaProperty) :=
  indexOfPropertyFrom name mo.properties 0

/-- The static functions of `QMetaType` the gadget converter calls. -/
structure QMetaType where
  /-- The lookup `QMetaType::metaObjectForType`; `none` is the null pointer. -/
  metaObjectForType : Nat → Option QMetaObject
  /-- The test `QMetaType::typeFlags(t).testFlag(QMetaType::PointerToGadget)`. -/
  isPointerToGadget : Nat → Bool
  /-- The name `QMetaType::typeName`. -/
  typeName : Nat → String
  /-- The lookup `QMetaType::type(name)`; `QMetaType.UnknownType` when the name is not registered. -/
  type : String → Nat
  /-- Default construction (`QMetaType::create`, `QVariant{type, nullptr}`): the property values of
  a fresh instance, `none` when no instance can be made. -/
  create : Nat → Option (List QVariant)
  /-- The conversion `QVariant::convert` between two different type ids. -/
  convert : QVariant → Nat → Option QVariant

/-- The call `QVariant::convert(targetTypeId)`: a value that already has the target type is kept. -/
def QVariant.convert (mt : QMetaType) (v : QVariant) (targetTypeId : Nat) : Option QVariant :=
  if v.userType = targetTypeId then some v else mt.convert v targetTypeId

/-- The accessor `QMetaProperty::readOnGadget` for the property with index `i`: a gadget is
modelled as one storage slot per property, and reading returns the slot. -/
def readOnGadget (i : Nat) (gadget : List QVariant) : QVariant := gadget.getD i .invalid

/-- The call `property.writeOnGadget(gadget, value)` for the property with index `i`: a
successful write replaces the slot and leaves the other slots alone, a failed one changes
nothing; the code ignores the result of the call (line 131). -/
def writeOnGadget (property : QMetaProperty) (i : Nat) (gadget : List QVariant)
    (value : QVariant) : List QVariant :=
  match property.write value with
  | some stored => gadget.set i stored
  | none => gadget

/-! ## The serialization helper seen by a converter -/

/-- The flag set `QJsonSerializer::ValidationFlags`. -/
structure ValidationFlags where
  allProperties : Bool
  noExtraProperties : Bool

/-- The interface `QJsonTypeConverter::SerializationHelper`: the serializer properties the gadget
converter reads with `getProperty`, and the two subtype callbacks. -/
structure SerializationHelper where
  validationFlags : ValidationFlags
  serializeClassInfo : Bool
  classInfoKeyPrefix : String
  classInfoKeySuffix : String
  serializeSubtype : QMetaProperty → QVariant → Except QJsonException QJsonValue
  deserializeSubtype : QMetaProperty → QJsonValue → Except QJsonException QVariant

/-! ## A `QSet` of property names -/

/-- Insertion `QSet::insert`. -/
def QSet.insert (s : List String) (name : String) : List String :=
  if name ∈ s then s else s ++ [name]

/-- Removal `QSet::remove`. -/
def QSet.remove (s : List String) (name : String) : List String :=
  s.filter (fun n => n != name)

/-! ## QJsonGadgetConverter -/

namespace QJsonGadgetConverter

/-- The list `QJsonGadgetConverter::jsonTypes()`. -/
def jsonTypes : List JsonType := [.Object, .Null]

/-- The property loop of `serialize` (lines 52-56), `i` being the index of the first property of
the list. -/
def serializeProperties (helper : SerializationHelper) (gadget : List QVariant) :
    List QMetaProperty → Nat → QJsonObject → Except QJsonException QJsonObject
  | [], _, jsonObject => .ok jsonObject
  | property :: rest, i, jsonObject =>
    if property.isStored then
      match helper.serializeSubtype property (readOnGadget i gadget) with
      | .error e => .error e
      | .ok j => serializeProperties helper gadget rest (i + 1) (jsonObject.assign property.name j)
    else serializeProperties helper gadget rest (i + 1) jsonObject

/-- The class-info loop of `serialize` (lines 63-73). -/
def serializeClassInfos (keyPrefix keySuffix typeName : String) :
    List QMetaClassInfo → QJsonObject → Except QJsonException QJsonObject
  | [], jsonObject => .ok jsonObject
  | clInfo :: rest, jsonObject =>
    let key := keyPrefix ++ clInfo.name ++ keySuffix
    if jsonObject.contains key then
      .error (.serialization ("classInfo key name \"" ++ key ++
        "\" override property of gadget class " ++ typeName))
    else serializeClassInfos keyPrefix keySuffix typeName rest (jsonObject.insert key (.string clInfo.value))

/-- The body of `serialize` from line 50 on, for a gadget that is not null. -/
def serializeGadget (mt : QMetaType) (helper : SerializationHelper) (propertyType : Nat)
    (metaObject : QMetaObject) (gadget : List QVariant) : Except QJsonException QJsonValue :=
  match serializeProperties helper gadget metaObject.properties 0 [] with
  | .error e => .error e
  | .ok jsonObject =>
    if helper.serializeClassInfo && decide (metaObject.classInfos.length > 0) then
      match serializeClassInfos helper.classInfoKeyPrefix helper.classInfoKeySuffix
          (mt.typeName propertyType) metaObject.classInfos jsonObject with
      | .error e => .error e
      | .ok withInfo => .ok (.object withInfo)
    else .ok (.object jsonObject)

/-- The method `QJsonGadgetConverter::serialize`. -/
def serialize (mt : QMetaType) (helper : SerializationHelper) (propertyType : Nat)
    (value : QVariant) : Except QJsonException QJsonValue :=
  match mt.metaObjectForType propertyType with
  | none => .error (.serialization ("Unable to get metaobject for type " ++ mt.typeName propertyType))
  | some metaObject =>
    let isPtr := mt.isPointerToGadget propertyType
    match value.convert mt propertyType with
    | none => .error (.serialization ("Data is not of the required gadget type " ++ mt.typeName propertyType))
    | some gValue =>
      if isPtr then
        match gValue with
        | .gadgetPtr _ none => .ok .null
        | .gadgetPtr _ (some gadget) => serializeGadget mt helper propertyType metaObject gadget
        | _ => .error (.serialization ("Unable to get address of gadget " ++ mt.typeName propertyType))
      else
        match gValue with
        | .gadget _ gadget => serializeGadget mt helper propertyType metaObject gadget
        | _ => .error (.serialization ("Unable to get address of gadget " ++ mt.typeName propertyType))

/-- The loop of `deserialize` that collects the required properties (lines 118-122). -/
def collectRequired : List QMetaProperty → List String → List String
  | [], reqProps => reqProps
  | property :: rest, reqProps =>
    collectRequired rest (if property.isStored then QSet.insert reqProps property.name else reqProps)

/-- The loop of `deserialize` over the members of the JSON object (lines 126-138); the state is
the gadget and the set of required properties not yet seen. -/
def deserializeProperties (helper : SerializationHelper) (metaObject : QMetaObject) :
    QJsonObject → List QVariant → List String → Except QJsonException (List QVariant × List String)
  | [], gadget, reqProps => .ok (gadget, reqProps)
  | (key, value) :: rest, gadget, reqProps =>
    match metaObject.indexOfProperty (qUtf8Printable key) with
    | some (propIndex, property) =>
      match helper.deserializeSubtype property value with
      | .error e => .error e
      | .ok subValue =>
        deserializeProperties helper metaObject rest
          (writeOnGadget property propIndex gadget subValue) (QSet.remove reqProps property.name)
    | none =>
      if helper.validationFlags.noExtraProperties then
        .error (.deserialization ("Found extra property " ++ key ++ " but extra properties are not allowed"))
      else deserializeProperties helper metaObject rest gadget reqProps

/-- The message of the exception thrown when required properties are missing (lines 142-145). -/
def missingMessage (metaObject : QMetaObject) (reqProps : List String) : String :=
  "Not all properties for " ++ metaObject.className ++
    " are present in the json object. Missing properties: " ++ ", ".intercalate reqProps

/-- The body of `deserialize` from line 112 on, for a freshly constructed gadget. -/
def deserializeGadget (helper : SerializationHelper) (metaObject : QMetaObject)
    (value : QJsonValue) (gadget : List QVariant) : Except QJsonException (List QVariant) :=
  let jsonObject := value.toObject
  let validationFlags := helper.validationFlags
  let reqProps := if validationFlags.allProperties then collectRequired metaObject.properties [] else []
  match deserializeProperties helper metaObject jsonObject gadget reqProps with
  | .error e => .error e
  | .ok (gadget, reqProps) =>
    if validationFlags.allProperties && !reqProps.isEmpty then
      .error (.deserialization (missingMessage metaObject reqProps))
    else .ok gadget

/-- The message of the exception thrown when no instance can be constructed (lines 107-109). -/
def constructMessage (mt : QMetaType) (propertyType : Nat) : String :=
  "Failed to construct gadget of type " ++ mt.typeName propertyType ++
    ". Does is have a default constructor?"

/-- The method `QJsonGadgetConverter::deserialize`. -/
def deserialize (mt : QMetaType) (helper : SerializationHelper) (propertyType : Nat)
    (value : QJsonValue) : Except QJsonException QVariant :=
  let isPtr := mt.isPointerToGadget propertyType
  match mt.metaObjectForType propertyType with
  | none => .error (.deserialization ("Unable to get metaobject for gadget type" ++ mt.typeName propertyType))
  | some metaObject =>
    if isPtr then
      if value.isNull then .ok (.gadgetPtr propertyType none)
      else
        let gadgetType := mt.type metaObject.className
        if gadgetType = QMetaType.UnknownType then
          .error (.deserialization ("Unable to get type of gadget from gadget-pointer type" ++
            mt.typeName propertyType))
        else
          match mt.create gadgetType with
          | none => .error (.deserialization (constructMessage mt propertyType))
          | some gadget =>
            match deserializeGadget helper metaObject value gadget with
            | .error e => .error e
            | .ok gadget => .ok (.gadgetPtr propertyType (some gadget))
    else
      if value.isNull then .ok .invalid
      else
        match mt.create propertyType with
        | none => .error (.deserialization (constructMessage mt propertyType))
        | some gadget =>
          match deserializeGadget helper metaObject value gadget with
          | .error e => .error e
          | .ok gadget => .ok (.gadget propertyType gadget)

end QJsonGadgetConverter

/-- The instance `QJsonGadgetConverter::deserialize` constructs for a JSON value that is not
null (lines 94-104); `none` when one of the exceptions of lines 96 and 107 is thrown instead. -/
def QJsonGadgetConverter.construct (mt : QMetaType) (propertyType : Nat)
    (metaObject : QMetaObject) : Option (List QVariant) :=
  if mt.isPointerToGadget propertyType then
    if mt.type metaObject.className = QMetaType.UnknownType then none
    else mt.create (mt.type metaObject.className)
  else mt.create propertyType

/-- The `QVariant` that holds a gadget of record type `propertyType`: by pointer for a
pointer-to-gadget type, by value otherwise. -/
def QJsonGadgetConverter.wrap (mt : QMetaType) (propertyType : Nat) (gadget : List QVariant) :
    QVariant :=
  if mt.isPointerToGadget propertyType then .gadgetPtr propertyType (some gadget)
  else .gadget propertyType gadget

/-- The stored property names of a meta-object that are not keys of a JSON object. -/
def missingStored (mo : QMetaObject) (o : QJsonObject) : List String :=
  (mo.properties.filter (fun p => p.isStored && decide (p.name ∉ o.keys))).map (fun p => p.name)

/-! ## Converter resolution (`qjsonserializer.cpp`) -/

/-- A `QJsonTypeConverter` as far as resolution queries it; `id` stands for the identity of the
instance behind the shared pointer. -/
structure QJsonTypeConverter where
  id : Nat
  priority : Int
  canConvert : Nat → Bool
  jsonTypes : List JsonType

/-- A `QJsonTypeConverterFactory`; `createConverter` is `none` when it returns a null pointer. -/
structure QJsonTypeConverterFactory where
  priority : Int
  canConvert : Nat → Bool
  jsonTypes : List JsonType
  createConverter : Option QJsonTypeConverter

/-- The members of `QJsonSerializerPrivate` that resolution reads and writes; a cache (`QHash`)
maps a type id to the converter stored for it. -/
structure QJsonSerializerPrivate where
  typeConverters : List QJsonTypeConverter
  typeConverterSerCache : Nat → Option QJsonTypeConverter
  typeConverterDeserCache : Nat → Option QJsonTypeConverter

/-- The state of a freshly constructed serializer: no converter, empty caches. -/
def QJsonSerializerPrivate.initial : QJsonSerializerPrivate :=
  { typeConverters := [], typeConverterSerCache := fun _ => none,
    typeConverterDeserCache := fun _ => none }

/-- Insertion `QHash::insert`. -/
def cacheInsert (cache : Nat → Option QJsonTypeConverter) (propertyType : Nat)
    (converter : QJsonTypeConverter) : Nat → Option QJsonTypeConverter :=
  fun t => if t = propertyType then some converter else cache t

/-- The insertion loop of `addJsonTypeConverter` (lines 140-149): in front of the first converter
whose priority is not above that of the new one, else at the end. -/
def insertConverter (converter : QJsonTypeConverter) :
    List QJsonTypeConverter → List QJsonTypeConverter
  | [] => [converter]
  | c :: rest =>
    if c.priority ≤ converter.priority then converter :: c :: rest
    else c :: insertConverter converter rest

/-- The method `QJsonSerializer::addJsonTypeConverter`. -/
def addJsonTypeConverter (d : QJsonSerializerPrivate) (converter : QJsonTypeConverter) :
    QJsonSerializerPrivate :=
  { typeConverters := insertConverter converter d.typeConverters
    typeConverterSerCache := fun _ => none
    typeConverterDeserCache := fun _ => none }

/-- The test `isSerialization || x->jsonTypes().contains(valueType)` of `findConverter`;
`valueType = none` is the default argument `QJsonValue::Undefined`, the serialize direction. -/
def acceptsKind (jsonTypes : List JsonType) : Option JsonType → Bool
  | none => true
  | some valueType => jsonTypes.contains valueType

/-- What a call of `findConverter` returns and leaves behind: the converter (`none` is the null
pointer), the serializer data after the call, and the indices, in call order, of the factories
whose `createConverter` was called. -/
structure FindResult where
  converter : Option QJsonTypeConverter
  state : QJsonSerializerPrivate
  created : List Nat

/-- The insertion into the cache of the direction served (lines 554-557 and 576-579). -/
def cacheConverter (d : QJsonSerializerPrivate) (propertyType : Nat)
    (valueType : Option JsonType) (converter : QJsonTypeConverter) : QJsonSerializerPrivate :=
  match valueType with
  | none => { d with typeConverterSerCache := cacheInsert d.typeConverterSerCache propertyType converter }
  | some _ => { d with typeConverterDeserCache := cacheInsert d.typeConverterDeserCache propertyType converter }

/-- The third step of `findConverter` (lines 563-583): the factories from index `idx` on. -/
def findInFactories (d : QJsonSerializerPrivate) (propertyType : Nat)
    (valueType : Option JsonType) : List QJsonTypeConverterFactory → Nat → FindResult
  | [], _ => { converter := none, state := d, created := [] }
  | factory :: rest, idx =>
    if acceptsKind factory.jsonTypes valueType && factory.canConvert propertyType then
      match factory.createConverter with
      | some converter =>
        { converter := some converter
          state := cacheConverter { d with typeConverters := d.typeConverters ++ [converter] }
            propertyType valueType converter
          created := [idx] }
      | none =>
        let r := findInFactories d propertyType valueType rest (idx + 1)
        { r with created := idx :: r.created }
    else findInFactories d propertyType valueType rest (idx + 1)

/-- The cache lookup of `findConverter` (lines 534-541). -/
def cachedConverter (d : QJsonSerializerPrivate) (propertyType : Nat) :
    Option JsonType → Option QJsonTypeConverter
  | none => d.typeConverterSerCache propertyType
  | some valueType =>
    match d.typeConverterDeserCache propertyType with
    | some c => if c.jsonTypes.contains valueType then some c else none
    | none => none

/-- The method `QJsonSerializerPrivate::findConverter`, with the process-wide factory list as
an argument. -/
def findConverter (d : QJsonSerializerPrivate)
    (typeConverterFactories : List QJsonTypeConverterFactory) (propertyType : Nat)
    (valueType : Option JsonType) : FindResult :=
  match cachedConverter d propertyType valueType with
  | some c => { converter := some c, state := d, created := [] }
  | none =>
    match d.typeConverters.find?
        (fun converter => acceptsKind converter.jsonTypes valueType && converter.canConvert propertyType) with
    | some converter =>
      { converter := some converter
        state := cacheConverter d propertyType valueType converter
        created := [] }
    | none => findInFactories d propertyType valueType typeConverterFactories 0

/-- An operation on a serializer in a sequential run. -/
inductive Operation
  | add (converter : QJsonTypeConverter)
  | find (propertyType : Nat) (valueType : Option JsonType)

/-- The serializer data after an operation. -/
def Operation.apply (typeConverterFactories : List QJsonTypeConverterFactory)
    (d : QJsonSerializerPrivate) : Operation → QJsonSerializerPrivate
  | .add converter => addJsonTypeConverter d converter
  | .find propertyType valueType => (findConverter d typeConverterFactories propertyType valueType).state

/-- The serializer data after a sequence of operations. -/
def runOperations (typeConverterFactories : List QJsonTypeConverterFactory)
    (d : QJsonSerializerPrivate) (ops : List Operation) : QJsonSerializerPrivate :=
  ops.foldl (Operation.apply typeConverterFactories) d

/-- Whether an operation, run after `findConverter` has resolved `propertyType` with
`valueType`, leaves room for the claim of cache correctness: it is a resolution, and if it
resolves the same type in the deserialize direction while `valueType` is a JSON kind, it does so
with the same JSON kind. -/
def keepsResolution (propertyType : Nat) (valueType : Option JsonType) : Operation → Bool
  | .add _ => false
  | .find t vt => decide (t ≠ propertyType) || vt.isNone || valueType.isNone || decide (vt = valueType)

/-- The calls of `createConverter` in a sequential run, in call order: the index of the factory
and the type being resolved. -/
def createLog (typeConverterFactories : List QJsonTypeConverterFactory) :
    QJsonSerializerPrivate → List Operation → List (Nat × Nat)
  | _, [] => []
  | d, .add converter :: ops => createLog typeConverterFactories (addJsonTypeConverter d converter) ops
  | d, .find propertyType valueType :: ops =>
    (findConverter d typeConverterFactories propertyType valueType).created.map
        (fun i => (i, propertyType)) ++
      createLog typeConverterFactories
        (findConverter d typeConverterFactories propertyType valueType).state ops

/-- The invariant behind the special case of C2, for a converter `a` that no factory creates:
once `a` is in the list, some occurrence of `a` has only converters of at least its priority in
front of it, and the serialize cache entry of `t`, if any, is the first converter of the list
that converts `t`. -/
def PairInvariant (a : QJsonTypeConverter) (t : Nat) (d : QJsonSerializerPrivate) : Prop :=
  a ∈ d.typeConverters →
    (∃ l1 l2, d.typeConverters = l1 ++ a :: l2 ∧ ∀ c ∈ l1, a.priority ≤ c.priority) ∧
    ∀ c, d.typeConverterSerCache t = some c →
      d.typeConverters.find? (fun c => c.canConvert t) = some c

/-! ### Example converters -/

/-- Example type ids. -/
def typeT : Nat := 2000
/-- A second example type id. -/
def typeU : Nat := 2001

/-- Converter `A`: priority 10, converts `typeT`, accepts JSON objects. -/
def converterA : QJsonTypeConverter :=
  { id := 1, priority := 10, canConvert := fun t => t == typeT, jsonTypes := [.Object] }

/-- Converter `B`: priority 5, converts `typeT`, accepts JSON objects and strings. -/
def converterB : QJsonTypeConverter :=
  { id := 2, priority := 5, canConvert := fun t => t == typeT, jsonTypes := [.Object, .String] }

/-- Converter `F`: priority 10, converts `typeT` and `typeU`; made by `factoryF`. -/
def converterF : QJsonTypeConverter :=
  { id := 3, priority := 10, canConvert := fun t => t == typeT || t == typeU,
    jsonTypes := [.Object] }

/-- A factory that agrees with the converter `F` it creates. -/
def factoryF : QJsonTypeConverterFactory :=
  { priority := 10, canConvert := fun t => t == typeT || t == typeU, jsonTypes := [.Object],
    createConverter := some converterF }

/-- A factory for `typeU` whose `createConverter` returns a null pointer. -/
def factoryNull : QJsonTypeConverterFactory :=
  { priority := 0, canConvert := fun t => t == typeU, jsonTypes := [.Object],
    createConverter := none }

/-! ## Enumerations (`QMetaEnum`, `serializeEnum`, `deserializeEnum`) -/

/-- The range of the C++ type `int`. -/
def isInt32 (n : Int) : Prop := -2147483648 ≤ n ∧ n ≤ 2147483647

instance (n : Int) : Decidable (isInt32 n) := by unfold isInt32; infer_instance

/-- The 32-bit pattern of an `int`: its value modulo `2^32`. -/
def toUInt32 (x : Int) : Nat := (x % 4294967296).toNat

/-- The `int` with a given 32-bit pattern (two's complement). -/
def toInt32 (n : Nat) : Int := if n < 2147483648 then (n : Int) else (n : Int) - 4294967296

/-- The operator `a & b` on `int`. -/
def and32 (a b : Int) : Int := toInt32 (toUInt32 a &&& toUInt32 b)

/-- The operator `a | b` on `int`. -/
def or32 (a b : Int) : Int := toInt32 (toUInt32 a ||| toUInt32 b)

/-- The operator `~a` on `int`. -/
def not32 (a : Int) : Int := toInt32 (4294967295 ^^^ toUInt32 a)

/-- The conversion `QJsonValue::toInt()`: the number when it is whole and in the range of `int`
(`int(dbl) == dbl`), the default value `0` otherwise and for every value that is not a
number. -/
def QJsonValue.toInt : QJsonValue → Int
  | .double d => if d.den = 1 ∧ isInt32 d.num then d.num else 0
  | _ => 0

/-- The fractional part `std::modf` returns: the number minus its integral part, truncated
towards zero. -/
def modf (d : Rat) : Rat := d - ((Int.tdiv d.num d.den : Int) : Rat)

/-- The characters `QString::trimmed` strips. -/
def isSpace (c : Char) : Bool :=
  c == ' ' || c == '\t' || c == '\n' || c == '\r' || c == '\x0b' || c == '\x0c'

/-- The stripping `QString::trimmed`, on the characters of a string. -/
def trimmed (s : List Char) : List Char :=
  ((s.dropWhile isSpace).reverse.dropWhile isSpace).reverse

/-- The splitting `QString::split(sep)` with empty parts kept, on the characters of a string:
the empty string has one part, the empty one. -/
def splitOn (sep : Char) : List Char → List (List Char)
  | [] => [[]]
  | c :: rest =>
    if c = sep then [] :: splitOn sep rest
    else
      match splitOn sep rest with
      | [] => [[c]]
      | part :: parts => (c :: part) :: parts

/-- The parsing of a qualified key in `keyToValue` and `keysToValue`: the pointer walks from the
end of the text down to the last `:` past the first character; when the character before it is
a `:` too, the scope is the text before the two and the key the text after them, else there is
no scope and the key is the whole text. -/
def splitScope (key : List Char) : List Char × List Char :=
  match key.reverse.dropWhile (fun c => c != ':') with
  | _ :: before :: scope =>
    if before = ':' then (scope.reverse, (key.reverse.takeWhile (fun c => c != ':')).reverse)
    else ([], key)
  | _ => ([], key)

namespace QMetaEnum

/-- The lookup `QMetaEnum::valueToKey`: the first key, in declaration order, with that value;
`none` is the null pointer. -/
def valueToKey (e : QMetaEnum) (value : Int) : Option String :=
  match e.keys.find? (fun k => k.2 == value) with
  | some k => some k.1
  | none => none

/-- The loop of `keysToValue` over the declared keys, from the last to the first, comparing the
names with `strcmp`. -/
def lookupName (e : QMetaEnum) (name : String) : Option Int :=
  match e.keys.reverse.find? (fun k => k.1 == name) with
  | some k => some k.2
  | none => none

/-- The key search of `keyToValue` and `keysToValue` on a C string: the key is the text after the
last `::`, the scope the text before it, none for a text without `::`; a scope that is not empty
has to be the name of the class of the enum. -/
def findKey (e : QMetaEnum) (key : String) : Option Int :=
  let (scope, name) := splitScope key.toList
  if scope = [] ∨ scope = e.scope.toList then e.lookupName (String.mk name) else none

/-- The lookup `QMetaEnum::keyToValue(key, &ok)`: the value and `ok`; `-1` and `false` for an
unknown key. -/
def keyToValue (e : QMetaEnum) (key : String) : Int × Bool :=
  match e.findKey key with
  | some v => (v, true)
  | none => (-1, false)

/-- The loop of `QMetaEnum::valueToKeys` over the keys in the order Qt visits them (last
declared first): `v` is what is left of the value, `keys` the text built so far, to which a
selected key is prepended. -/
def valueToKeysLoop (value : Int) : List (String × Int) → Int → String → String
  | [], _, keys => keys
  | (name, k) :: rest, v, keys =>
    if (k ≠ 0 ∧ and32 v k = k) ∨ k = value then
      valueToKeysLoop value rest (and32 v (not32 k))
        (if keys.isEmpty then name else name ++ "|" ++ keys)
    else valueToKeysLoop value rest v keys

/-- The conversion `QMetaEnum::valueToKeys`. -/
def valueToKeys (e : QMetaEnum) (value : Int) : String :=
  valueToKeysLoop value e.keys.reverse value ""

/-- The loop of `QMetaEnum::keysToValue` over the parts of the text. -/
def keysToValueLoop (e : QMetaEnum) : List (List Char) → Int × Bool → Int × Bool
  | [], acc => acc
  | part :: parts, (value, ok) =>
    match e.findKey (String.mk (trimmed part)) with
    | some k => keysToValueLoop e parts (or32 value k, ok)
    | none => keysToValueLoop e parts (or32 value (-1), false)

/-- The conversion `QMetaEnum::keysToValue(keys, &ok)`: the value and `ok`. -/
def keysToValue (e : QMetaEnum) (keys : String) : Int × Bool :=
  keysToValueLoop e (splitOn '|' keys.toList) (0, true)

end QMetaEnum

/-- The method `QJsonSerializer::serializeEnum`; `enumAsString` is `d->enumAsString`. -/
def serializeEnum (enumAsString : Bool) (metaEnum : QMetaEnum) (value : QVariant) : QJsonValue :=
  if enumAsString then
    if metaEnum.isFlag then .string (metaEnum.valueToKeys value.toInt)
    else .string ((metaEnum.valueToKey value.toInt).getD "")
  else .double value.toInt

/-- The method `QJsonSerializer::deserializeEnum`. -/
def deserializeEnum (metaEnum : QMetaEnum) (value : QJsonValue) : Except QJsonException QVariant :=
  if value.isString then
    let (result, ok) :=
      if metaEnum.isFlag then metaEnum.keysToValue (qUtf8Printable value.toString)
      else metaEnum.keyToValue (qUtf8Printable value.toString)
    if ok then .ok (.num QMetaType.Int result)
    else if metaEnum.isFlag && value.toString.isEmpty then .ok (.num QMetaType.Int 0)
    else .error (.deserialization ("Invalid value for enum type found: " ++ value.toString))
  else
    let intValue := value.toInt
    if modf value.toDouble ≠ 0 then
      .error (.deserialization ("Invalid value (double) for enum type found: " ++
        toString value.toDouble))
    else if !metaEnum.isFlag && (metaEnum.valueToKey intValue).isNone then
      .error (.deserialization ("Invalid integer value. Not a valid enum element: " ++
        toString intValue))
    else .ok (.num QMetaType.Int intValue)

/-- The keys the loop of `valueToKeys` selects, in the order it visits them. -/
def selectedKeys (value : Int) : List (String × Int) → Int → List (String × Int)
  | [], _ => []
  | (name, k) :: rest, v =>
    if (k ≠ 0 ∧ and32 v k = k) ∨ k = value then
      (name, k) :: selectedKeys value rest (and32 v (not32 k))
    else selectedKeys value rest v

/-- Key names joined with `|`. -/
def joinKeys : List String → String
  | [] => ""
  | [name] => name
  | name :: next :: rest => name ++ "|" ++ joinKeys (next :: rest)

/-- The characters of a C++ identifier. -/
def isIdentifierChar (c : Char) : Bool :=
  c.isAlphanum || c == '_'

/-- An enum as the C++ compiler and `moc` produce it: key names pairwise distinct, not empty and
made of identifier characters, values in the range of `int`. -/
def QMetaEnum.WellFormed (e : QMetaEnum) : Prop :=
  (e.keys.map Prod.fst).Nodup ∧
  ∀ k ∈ e.keys, k.1 ≠ "" ∧ (∀ c ∈ k.1.toList, isIdentifierChar c = true) ∧ isInt32 k.2

instance (e : QMetaEnum) : Decidable e.WellFormed := by unfold QMetaEnum.WellFormed; infer_instance

/-- The values an enum can represent: for a flags enum the bitwise unions of declared keys whose
value is a single bit (the empty union is `0`), otherwise the declared values. -/
def QMetaEnum.Represents (e : QMetaEnum) (v : Int) : Prop :=
  if e.isFlag then
    ∃ S : List (String × Int), (∀ s ∈ S, s ∈ e.keys ∧ ∃ i, i < 32 ∧ toUInt32 s.2 = 2 ^ i) ∧
      v = S.foldl (fun acc s => or32 acc s.2) 0
  else ∃ k ∈ e.keys, k.2 = v

/-- The spellings of a key name: the name itself, the name qualified by the class of the enum
(`Scope::Key`), and the name after an empty scope (`::Key`). -/
def QMetaEnum.Spells (e : QMetaEnum) (text : List Char) (name : String) : Prop :=
  text = name.toList ∨ text = ':' :: ':' :: name.toList ∨
    text = e.scope.toList ++ ':' :: ':' :: name.toList

instance (e : QMetaEnum) (text : List Char) (name : String) : Decidable (e.Spells text name) := by
  unfold QMetaEnum.Spells; infer_instance

/-- A recognized key: a text that spells the name of a declared key. -/
def QMetaEnum.IsKey (e : QMetaEnum) (text : List Char) : Prop :=
  ∃ k ∈ e.keys, e.Spells text k.1

instance (e : QMetaEnum) (text : List Char) : Decidable (e.IsKey text) := by
  unfold QMetaEnum.IsKey; infer_instance

/-- A recognized text: for a flags enum a combination of keys, each part between two `|`
being a recognized key once the white space around it is stripped; otherwise a recognized
key. -/
def QMetaEnum.Recognizes (e : QMetaEnum) (text : String) : Prop :=
  if e.isFlag then ∀ part ∈ splitOn '|' text.toList, e.IsKey (trimmed part)
  else e.IsKey text.toList

instance (e : QMetaEnum) (text : String) : Decidable (e.Recognizes text) := by
  unfold QMetaEnum.Recognizes; infer_instance

/-- The value a recognized text stands for: for a flags enum the bitwise union of the values of
the keys its parts spell, otherwise the value of the key it spells. -/
def QMetaEnum.StandsFor (e : QMetaEnum) (text : String) (value : Int) : Prop :=
  if e.isFlag then
    ∃ sel : List (String × Int),
      List.Forall₂ (fun part k => k ∈ e.keys ∧ e.Spells (trimmed part) k.1)
        (splitOn '|' text.toList) sel ∧
      value = sel.foldl (fun acc k => or32 acc k.2) 0
  else ∃ k ∈ e.keys, e.Spells text.toList k.1 ∧ value = k.2

/-- The flags enum `{Read = 1, Write = 2}`. -/
def accessFlags : QMetaEnum :=
  { isFlag := true, keys := [("Read", 1), ("Write", 2)], scope := "File" }

/-- The enum `{Red = 0, Green = 1, Blue = 5}`, not a flags enum. -/
def colorEnum : QMetaEnum :=
  { isFlag := false, keys := [("Red", 0), ("Green", 1), ("Blue", 5)], scope := "Palette" }

/-! ## Example meta-type registry

A gadget class `Point` with two stored `int` properties `a` and `b`, registered by value
(type id 1000) and by pointer (1001); and a pointer type (1002) whose class `Ghost` has a
meta-object but is not itself registered under its class name. -/

/-- An enumerator for properties that are not enum-typed. -/
def noEnum : QMetaEnum := { isFlag := false, keys := [], scope := "" }

/-- The write of an `int` property with a `WRITE` function: a value of type `int` is stored,
another value is refused. -/
def writeInt (value : QVariant) : Option QVariant :=
  if value.userType = QMetaType.Int then some value else none

/-- A stored `int` property. -/
def intProperty (name : String) : QMetaProperty :=
  { name := name, isStored := true, isEnumType := false, enumerator := noEnum,
    userType := QMetaType.Int, write := writeInt }

/-- Meta-object of the gadget class `Point`. -/
def pointMeta : QMetaObject :=
  { className := "Point", properties := [intProperty "a", intProperty "b"], classInfos := [] }

/-- Meta-object of the gadget class `Ghost`. -/
def ghostMeta : QMetaObject :=
  { className := "Ghost", properties := [intProperty "a"], classInfos := [] }

/-- The example registry. -/
def exampleTypes : QMetaType :=
  { metaObjectForType := fun t =>
      if t = 1000 ∨ t = 1001 then some pointMeta else if t = 1002 then some ghostMeta else none
    isPointerToGadget := fun t => t == 1001 || t == 1002
    typeName := fun t =>
      if t = 1000 then "Point" else if t = 1001 then "Point*" else if t = 1002 then "Ghost*" else ""
    type := fun name => if name = "Point" then 1000 else QMetaType.UnknownType
    create := fun t => if t = 1000 then some [.num QMetaType.Int 0, .num QMetaType.Int 0] else none
    convert := fun _ _ => none }

/-- A helper whose subtype callbacks write an integer as a JSON number and read a whole JSON
number back as an integer. -/
def exampleHelper (flags : ValidationFlags) : SerializationHelper :=
  { validationFlags := flags
    serializeClassInfo := false
    classInfoKeyPrefix := ""
    classInfoKeySuffix := ""
    serializeSubtype := fun _ v => .ok (.double v.toInt)
    deserializeSubtype := fun _ j =>
      match j with
      | .double d => if d.den = 1 then .ok (.num QMetaType.Int d.num)
                     else .error (.deserialization "not a whole number")
      | _ => .error (.deserialization "not a number") }

/-- No validation flag set. -/
def noValidation : ValidationFlags := { allProperties := false, noExtraProperties := false }

/-! ## The facade (`qjsonserializer.cpp`): values without a converter, subtypes -/

/-- The id `QMetaType::QDate`. -/
def QMetaType.QDate : Nat := 14
/-- The id `QMetaType::QTime`. -/
def QMetaType.QTime : Nat := 15
/-- The id `QMetaType::QDateTime`. -/
def QMetaType.QDateTime : Nat := 16
/-- The id `QMetaType::QUrl`. -/
def QMetaType.QUrl : Nat := 17
/-- The id `QMetaType::Short` (`qint16`). -/
def QMetaType.Short : Nat := 33
/-- The id `QMetaType::Char` (plain `char`). -/
def QMetaType.Char : Nat := 34
/-- The id `QMetaType::UShort` (`quint16`). -/
def QMetaType.UShort : Nat := 36
/-- The id `QMetaType::UChar` (`quint8`). -/
def QMetaType.UChar : Nat := 37
/-- The id `QMetaType::SChar` (`qint8`). -/
def QMetaType.SChar : Nat := 40
/-- The id `QMetaType::Nullptr`. -/
def QMetaType.Nullptr : Nat := 51
/-- The id `QMetaType::User`, the first id of a user type. -/
def QMetaType.User : Nat := 1024

/-- The test `QVariant::isValid()`. -/
def QVariant.isValid (v : QVariant) : Bool := v.userType != QMetaType.UnknownType

/-- The id `QVariant::type()`: the type id, every user type being reported as
`QMetaType::User`. -/
def QVariant.type (v : QVariant) : Nat :=
  if v.userType < QMetaType.User then v.userType else QMetaType.User

/-- The conversion `QVariant::toJsonValue()` of a value of type `QJsonValue`. -/
def QVariant.toJsonValue : QVariant → QJsonValue
  | .json j => j
  | _ => .null

/-- The name `QVariant::typeName()`; `none` is the null pointer an invalid value has. -/
def QVariant.typeName (mt : QMetaType) (v : QVariant) : Option String :=
  if v.userType = QMetaType.UnknownType then none else some (mt.typeName v.userType)

/-- The value `QVariant{typeId, nullptr}`: a default-constructed value of the type.  For the
built-in type `QString` it is the null string; for the other types the registry says whether the
type is a pointer to a gadget or a gadget. -/
def QVariant.ofType (mt : QMetaType) (typeId : Nat) : QVariant :=
  if typeId = QMetaType.QString then .str ""
  else if mt.isPointerToGadget typeId then .gadgetPtr typeId none
  else
    match mt.create typeId with
    | some fields => .gadget typeId fields
    | none => .other typeId 0

mutual
/-- The conversion `QJsonValue::toVariant()`: null gives a `nullptr` value, a number a `double`,
an array a list and an object a map. -/
def QJsonValue.toVariant : QJsonValue → QVariant
  | .undefined => .invalid
  | .null => .other QMetaType.Nullptr 0
  | .bool b => .bool b
  | .double d => .double d
  | .string s => .str s
  | .array xs => .list (QJsonValue.toVariantList xs)
  | .object members => .map (QJsonValue.toVariantMap members)
/-- The conversion `QJsonArray::toVariantList()`. -/
def QJsonValue.toVariantList : List QJsonValue → List QVariant
  | [] => []
  | x :: xs => x.toVariant :: QJsonValue.toVariantList xs
/-- The conversion `QJsonObject::toVariantMap()`. -/
def QJsonValue.toVariantMap : List (String × QJsonValue) → List (String × QVariant)
  | [] => []
  | (k, x) :: rest => (k, x.toVariant) :: QJsonValue.toVariantMap rest
end

/-- A `QJsonSerializer` with what its methods read: the private data resolution works on, the
process-wide factory list, the properties of the instance, the meta-type registry, the function
`QJsonValue::fromVariant` of Qt, and the virtual methods `serialize` and `deserialize` of the
converters, as functions of the converter called. -/
structure QJsonSerializer where
  d : QJsonSerializerPrivate
  typeConverterFactories : List QJsonTypeConverterFactory
  allowNull : Bool
  enumAsString : Bool
  validationFlags : ValidationFlags
  serializeClassInfo : Bool
  classInfoKeyPrefix : String
  classInfoKeySuffix : String
  metaTypes : QMetaType
  fromVariant : QVariant → QJsonValue
  converterSerialize : QJsonTypeConverter → Nat → QVariant → Except QJsonException QJsonValue
  converterDeserialize : QJsonTypeConverter → Nat → QJsonValue → Except QJsonException QVariant

/-- The table `nullTypes` of `serializeValue` (lines 330-336); `none` is the default
`QJsonValue::Undefined` of the lookup. -/
def nullTypes (typeId : Nat) : Option JsonType :=
  if typeId = QMetaType.Nullptr then some .Null
  else if typeId = QMetaType.QDate then some .String
  else if typeId = QMetaType.QTime then some .String
  else if typeId = QMetaType.QDateTime then some .String
  else if typeId = QMetaType.QUrl then some .String
  else none

namespace QJsonSerializer

/-- The method `QJsonSerializer::serializeValue`. -/
def serializeValue (s : QJsonSerializer) (propertyType : Nat) (value : QVariant) :
    Except QJsonException QJsonValue :=
  if !value.isValid then .ok .null
  else if value.userType = QMetaType.QJsonValue then .ok value.toJsonValue
  else if value.type = QMetaType.SChar ∨ value.type = QMetaType.UChar ∨
      value.type = QMetaType.Short ∨ value.type = QMetaType.UShort then
    .ok (.double value.toInt)
  else
    let json := s.fromVariant value
    if json.isNull then
      let typeMapping :=
        match nullTypes propertyType with
        | some mapping => some mapping
        | none => nullTypes value.userType
      match typeMapping with
      | some .Null => .ok .null
      | some .Bool => .ok (.bool false)
      | some .Double => .ok (.double 0)
      | some .String => .ok (.string "")
      | some .Array => .ok (.array [])
      | some .Object => .ok (.object [])
      | none =>
        .error (.serialization ("Failed to convert type " ++
          (value.typeName s.metaTypes).getD "" ++ " to a JSON representation"))
    else .ok json

/-- The method `QJsonSerializer::deserializeValue`; the empty `QDate()`, `QTime()` and
`QDateTime()` are the default-constructed values of their types. -/
def deserializeValue (propertyType : Nat) (value : QJsonValue) : QVariant :=
  if propertyType = QMetaType.QDate then
    if value.toString.isEmpty then .other QMetaType.QDate 0 else value.toVariant
  else if propertyType = QMetaType.QTime then
    if value.toString.isEmpty then .other QMetaType.QTime 0 else value.toVariant
  else if propertyType = QMetaType.QDateTime then
    if value.toString.isEmpty then .other QMetaType.QDateTime 0 else value.toVariant
  else value.toVariant

/-- The method `QJsonSerializer::serializeVariant`: the result of the call.  The call leaves
the private data as `findConverter` leaves it. -/
def serializeVariant (s : QJsonSerializer) (propertyType : Nat) (value : QVariant) :
    Except QJsonException QJsonValue :=
  match (findConverter s.d s.typeConverterFactories propertyType none).converter with
  | none => s.serializeValue propertyType value
  | some converter => s.converterSerialize converter propertyType value

/-- The first step of `deserializeVariant` (lines 278-283): the value obtained from the
resolved converter, or from `deserializeValue` when none resolves. -/
def deserializedVariant (s : QJsonSerializer) (propertyType : Nat) (value : QJsonValue) :
    Except QJsonException QVariant :=
  match (findConverter s.d s.typeConverterFactories propertyType value.type).converter with
  | none => .ok (deserializeValue propertyType value)
  | some converter => s.converterDeserialize converter propertyType value

/-- The message of the exception `deserializeVariant` throws (lines 296-300). -/
def convertMessage (s : QJsonSerializer) (vType : Option String) (propertyType : Nat) : String :=
  "Failed to convert deserialized variant of type " ++ vType.getD "<unknown>" ++
    " to property type " ++ s.metaTypes.typeName propertyType ++
    ". Make shure to register converters with the QJsonSerializer::register* methods"

/-- The method `QJsonSerializer::deserializeVariant`: the result of the call. -/
def deserializeVariant (s : QJsonSerializer) (propertyType : Nat) (value : QJsonValue) :
    Except QJsonException QVariant :=
  match s.deserializedVariant propertyType value with
  | .error e => .error e
  | .ok variant =>
    if propertyType ≠ QMetaType.UnknownType then
      let vType := variant.typeName s.metaTypes
      let allowConvert := !(propertyType == QMetaType.QString && value.isNull)
      match (if allowConvert then variant.convert s.metaTypes propertyType else none) with
      | some converted => .ok converted
      | none =>
        if s.allowNull && value.isNull then .ok (QVariant.ofType s.metaTypes propertyType)
        else .error (.deserialization (s.convertMessage vType propertyType))
    else .ok variant

/-- The method `QJsonSerializer::serializeSubtype(QMetaProperty, ...)`. -/
def serializeSubtype (s : QJsonSerializer) (property : QMetaProperty) (value : QVariant) :
    Except QJsonException QJsonValue :=
  if property.isEnumType then .ok (serializeEnum s.enumAsString property.enumerator value)
  else s.serializeVariant property.userType value

/-- The method `QJsonSerializer::deserializeSubtype(QMetaProperty, ...)`. -/
def deserializeSubtype (s : QJsonSerializer) (property : QMetaProperty) (value : QJsonValue) :
    Except QJsonException QVariant :=
  if property.isEnumType then deserializeEnum property.enumerator value
  else s.deserializeVariant property.userType value

/-- The serializer as the `SerializationHelper` it passes to a converter (`this`). -/
def helper (s : QJsonSerializer) : SerializationHelper :=
  { validationFlags := s.validationFlags
    serializeClassInfo := s.serializeClassInfo
    classInfoKeyPrefix := s.classInfoKeyPrefix
    classInfoKeySuffix := s.classInfoKeySuffix
    serializeSubtype := s.serializeSubtype
    deserializeSubtype := s.deserializeSubtype }

/-- The static method `QJsonSerializer::addJsonTypeConverterFactory`: the factory goes to the
end of the process-wide list; nothing else is written. -/
def addJsonTypeConverterFactory (s : QJsonSerializer) (factory : QJsonTypeConverterFactory) :
    QJsonSerializer :=
  { s with typeConverterFactories := s.typeConverterFactories ++ [factory] }

end QJsonSerializer

/-- The order the specification names for the converter list: descending priority. -/
def SortedByPriority (l : List QJsonTypeConverter) : Prop :=
  l.Pairwise (fun a b => b.priority ≤ a.priority)

instance (l : List QJsonTypeConverter) : Decidable (SortedByPriority l) := by
  unfold SortedByPriority; infer_instance

/-! ### Example serializers -/

mutual
/-- A stand-in for `QJsonValue::fromVariant` of Qt on the values of the examples: booleans,
numbers, strings, JSON values, lists and maps go to their JSON form, a narrow integer to the
string of one character the comment of line 317 speaks of, and a value with an empty string form
(a null pointer, a null date) to JSON null. -/
def exampleFromVariant : QVariant → QJsonValue
  | .invalid => .null
  | .bool b => .bool b
  | .double d => .double d
  | .str s => .string s
  | .json j => j
  | .num t n =>
    if t = QMetaType.SChar ∨ t = QMetaType.UChar ∨ t = QMetaType.Short ∨ t = QMetaType.UShort ∨
        t = QMetaType.Char then
      .string (String.singleton (Char.ofNat n.toNat))
    else .double n
  | .list xs => .array (exampleFromVariantList xs)
  | .map members => .object (exampleFromVariantMap members)
  | .gadget _ _ => .null
  | .gadgetPtr _ _ => .null
  | .other _ _ => .null
/-- The stand-in on the elements of a list. -/
def exampleFromVariantList : List QVariant → List QJsonValue
  | [] => []
  | x :: xs => exampleFromVariant x :: exampleFromVariantList xs
/-- The stand-in on the members of a map. -/
def exampleFromVariantMap : List (String × QVariant) → List (String × QJsonValue)
  | [] => []
  | (k, x) :: rest => (k, exampleFromVariant x) :: exampleFromVariantMap rest
end

/-- A serializer with no converter and no factory, over the example registry. -/
def exampleSerializer : QJsonSerializer :=
  { d := QJsonSerializerPrivate.initial
    typeConverterFactories := []
    allowNull := false
    enumAsString := false
    validationFlags := noValidation
    serializeClassInfo := false
    classInfoKeyPrefix := ""
    classInfoKeySuffix := ""
    metaTypes := exampleTypes
    fromVariant := exampleFromVariant
    converterSerialize := fun _ _ _ => .error (.serialization "not an example converter")
    converterDeserialize := fun _ _ _ => .error (.deserialization "not an example converter") }

/-- A serializer that has resolved `typeT` once, with converter `A` registered: its
serialize-direction cache holds `A` for `typeT`. -/
def resolvedSerializer : QJsonSerializer :=
  { exampleSerializer with
    d := runOperations [] QJsonSerializerPrivate.initial [.add converterA, .find typeT none] }

/-- The types the switch of `serializeValue` (lines 318-326) writes as numbers: `qint8`,
`quint8`, `qint16` and `quint16`. -/
def isNarrowInteger (typeId : Nat) : Prop :=
  typeId = QMetaType.SChar ∨ typeId = QMetaType.UChar ∨ typeId = QMetaType.Short ∨
    typeId = QMetaType.UShort

instance (typeId : Nat) : Decidable (isNarrowInteger typeId) := by
  unfold isNarrowInteger; infer_instance

/-- The type whose entry of `nullTypes` `serializeValue` uses (lines 338-340): the property
type when it has an entry, else the type of the value. -/
def nullTypeOf (propertyType : Nat) (value : QVariant) : Nat :=
  if (nullTypes propertyType).isSome then propertyType else value.userType

/-- The example registry with the conversion of Qt from a `nullptr` value to a `QString`: the
null string. -/
def nullToStringTypes : QMetaType :=
  { exampleTypes with
    convert := fun v t =>
      if v.userType = QMetaType.Nullptr ∧ t = QMetaType.QString then some (.str "") else none }

/-- The example serializer over the registry `nullToStringTypes`. -/
def nullToStringSerializer : QJsonSerializer :=
  { exampleSerializer with metaTypes := nullToStringTypes }

/-- The lookup `QJsonObject::value(key)`: the value of the member with that key; `none` is
`QJsonValue::Undefined`, the key being absent. -/
def QJsonObject.value (o : QJsonObject) (key : String) : Option QJsonValue :=
  (o.find? (fun m => m.1 == key)).map Prod.snd

/-- The key the class-info loop of `serialize` derives from an annotation (line 65). -/
def QJsonGadgetConverter.classInfoKey (keyPrefix keySuffix : String) (clInfo : QMetaClassInfo) :
    String :=
  keyPrefix ++ clInfo.name ++ keySuffix

/-- Meta-object of a gadget class `Holder` with one stored property `inner` of the type 3000,
for which the examples register no converter. -/
def holderMeta : QMetaObject :=
  { className := "Holder"
    properties := [{ name := "inner", isStored := true, isEnumType := false, enumerator := noEnum,
                     userType := 3000, write := fun v => some v }]
    classInfos := [] }

/-- Meta-object of a gadget class `Shadow` that declares the stored `int` property `a` twice, as
a class that redeclares a property of its base class does. -/
def shadowMeta : QMetaObject :=
  { className := "Shadow", properties := [intProperty "a", intProperty "a"], classInfos := [] }

/-- Meta-object of a gadget class `Tagged` with the stored `int` property `a` and the class
infos `version = "1"` and `a = "x"`. -/
def taggedMeta : QMetaObject :=
  { className := "Tagged", properties := [intProperty "a"],
    classInfos := [{ name := "version", value := "1" }, { name := "a", value := "x" }] }

/-- The example registry with the gadget types `Holder` (1003), `Shadow` (1004) and `Tagged`
(1005). -/
def recordTypes : QMetaType :=
  { exampleTypes with
    metaObjectForType := fun t =>
      if t = 1003 then some holderMeta
      else if t = 1004 then some shadowMeta
      else if t = 1005 then some taggedMeta
      else exampleTypes.metaObjectForType t }

/-- The example serializer with class-info serialization enabled and a key prefix. -/
def classInfoSerializer (keyPrefix : String) : QJsonSerializer :=
  { exampleSerializer with serializeClassInfo := true, classInfoKeyPrefix := keyPrefix }

/-- The example serializer over the registry `nullToStringTypes`, with `allowDefaultNull`
enabled. -/
def allowNullSerializer : QJsonSerializer :=
  { nullToStringSerializer with allowNull := true }

/-! ## The locks of `findConverter` -/

/-- The two `QReadWriteLock`s `findConverter` takes: the lock of the instance and the lock of
the process-wide factory list. -/
inductive Lock
  | typeConverterLock
  | factoryLock
  deriving DecidableEq, Repr

/-- A call of a `QReadWriteLock` method, made by a locker or by its destructor. -/
inductive LockEvent
  | lockForRead (lock : Lock)
  | lockForWrite (lock : Lock)
  | unlock (lock : Lock)
  deriving DecidableEq, Repr

/-- The third step of `findConverter` (lines 564-586) with its lock calls, the read lockers
`tLocker` and `fLocker` being locked on entry.  A factory that creates a converter is followed by
`fLocker.unlock()`, `tLocker.unlock()`, the write locker `wtLocker` (lines 571-573) and, at the
return, the destructor of `wtLocker`; when no factory does, the destructors of `fLocker` and
`tLocker` run at the return of line 586. -/
def findInFactoriesWithLocks (d : QJsonSerializerPrivate) (propertyType : Nat)
    (valueType : Option JsonType) :
    List QJsonTypeConverterFactory → Nat → FindResult × List LockEvent
  | [], _ =>
    ({ converter := none, state := d, created := [] },
      [.unlock .factoryLock, .unlock .typeConverterLock])
  | factory :: rest, idx =>
    if acceptsKind factory.jsonTypes valueType && factory.canConvert propertyType then
      match factory.createConverter with
      | some converter =>
        ({ converter := some converter
           state := cacheConverter { d with typeConverters := d.typeConverters ++ [converter] }
             propertyType valueType converter
           created := [idx] },
          [.unlock .factoryLock, .unlock .typeConverterLock, .lockForWrite .typeConverterLock,
            .unlock .typeConverterLock])
      | none =>
        let r := findInFactoriesWithLocks d propertyType valueType rest (idx + 1)
        ({ r.1 with created := idx :: r.1.created }, r.2)
    else findInFactoriesWithLocks d propertyType valueType rest (idx + 1)

/-- The method `QJsonSerializerPrivate::findConverter` with its lock calls, in call order: the
read locker `tLocker` of line 531; at the return of a cached converter its destructor; on a match
in the converter list `tLocker.unlock()`, the write locker `wtLocker` (lines 551-552) and its
destructor; else the read locker `fLocker` of line 563 and the third step. -/
def findConverterWithLocks (d : QJsonSerializerPrivate)
    (typeConverterFactories : List QJsonTypeConverterFactory) (propertyType : Nat)
    (valueType : Option JsonType) : FindResult × List LockEvent :=
  let r : FindResult × List LockEvent :=
    match cachedConverter d propertyType valueType with
    | some c => ({ converter := some c, state := d, created := [] }, [.unlock .typeConverterLock])
    | none =>
      match d.typeConverters.find?
          (fun converter => acceptsKind converter.jsonTypes valueType && converter.canConvert propertyType) with
      | some converter =>
        ({ converter := some converter
           state := cacheConverter d propertyType valueType converter
           created := [] },
          [.unlock .typeConverterLock, .lockForWrite .typeConverterLock,
            .unlock .typeConverterLock])
      | none =>
        let r := findInFactoriesWithLocks d propertyType valueType typeConverterFactories 0
        (r.1, .lockForRead .factoryLock :: r.2)
  (r.1, .lockForRead .typeConverterLock :: r.2)

/-- The locks one call holds: those it holds for reading and those it holds for writing. -/
structure HeldLocks where
  reads : List Lock
  writes : List Lock

/-- The locks held after a lock call: `unlock` releases the lock, held for writing or for
reading. -/
def HeldLocks.step (held : HeldLocks) : LockEvent → HeldLocks
  | .lockForRead lock => { held with reads := lock :: held.reads }
  | .lockForWrite lock => { held with writes := lock :: held.writes }
  | .unlock lock =>
    if lock ∈ held.writes then { held with writes := held.writes.erase lock }
    else { held with reads := held.reads.erase lock }

/-- The locks a call holds after a sequence of lock calls, none being held at the start. -/
def heldAfter (events : List LockEvent) : HeldLocks :=
  events.foldl HeldLocks.step { reads := [], writes := [] }

/-- The check that, from the locks `held` on, every `lockForWrite` of a sequence of lock calls
is on the lock of the instance and is made while no lock is held for reading. -/
def upgradesAfterRelease (held : HeldLocks) : List LockEvent → Bool
  | [] => true
  | event :: rest =>
    (match event with
      | .lockForWrite lock => decide (lock = .typeConverterLock) && held.reads.isEmpty
      | _ => true) &&
    upgradesAfterRelease (held.step event) rest

/-- Meta-object of a gadget class `Mixed` with the stored `int` property `a` and the `int`
property `c`, declared `STORED false`. -/
def mixedMeta : QMetaObject :=
  { className := "Mixed"
    properties := [intProperty "a",
      { name := "c", isStored := false, isEnumType := false, enumerator := noEnum,
        userType := QMetaType.Int, write := writeInt }]
    classInfos := [] }

/-- The example registry with the gadget type `Mixed` (1006). -/
def mixedTypes : QMetaType :=
  { exampleTypes with
    metaObjectForType := fun t =>
      if t = 1006 then some mixedMeta else exampleTypes.metaObjectForType t
    create := fun t =>
      if t = 1006 then some [.num QMetaType.Int 0, .num QMetaType.Int 0]
      else exampleTypes.create t }

/-- Both validation flags set. -/
def fullValidation : ValidationFlags := { allProperties := true, noExtraProperties := true }

/-- Meta-object of a gadget class `Constant` with the stored `int` property `a`, declared with
`READ` only: `writeOnGadget` stores nothing. -/
def constantMeta : QMetaObject :=
  { className := "Constant"
    properties := [{ name := "a", isStored := true, isEnumType := false, enumerator := noEnum,
                     userType := QMetaType.Int, write := fun _ => none }]
    classInfos := [] }

/-- The example registry with the gadget type `Constant` (1007). -/
def constantTypes : QMetaType :=
  { exampleTypes with
    metaObjectForType := fun t =>
      if t = 1007 then some constantMeta else exampleTypes.metaObjectForType t
    create := fun t =>
      if t = 1007 then some [.num QMetaType.Int 0] else exampleTypes.create t }

/-- A helper whose `serializeSubtype` returns `Undefined` for every value and whose
`deserializeSubtype` reads the integer 5 from every JSON value. -/
def undefinedHelper : SerializationHelper :=
  { validationFlags := noValidation
    serializeClassInfo := false
    classInfoKeyPrefix := ""
    classInfoKeySuffix := ""
    serializeSubtype := fun _ _ => .ok .undefined
    deserializeSubtype := fun _ _ => .ok (.num QMetaType.Int 5) }

/-- Meta-object of a gadget class `Computed` with the stored `int` property `a` and the `int`
property `c` declared with `STORED false` and `READ` only: `writeOnGadget` stores nothing for
it. -/
def computedMeta : QMetaObject :=
  { className := "Computed"
    properties := [intProperty "a",
      { name := "c", isStored := false, isEnumType := false, enumerator := noEnum,
        userType := QMetaType.Int, write := fun _ => none }]
    classInfos := [] }

/-- The example registry with the gadget type `Computed` (1009). -/
def computedTypes : QMetaType :=
  { exampleTypes with
    metaObjectForType := fun t =>
      if t = 1009 then some computedMeta else exampleTypes.metaObjectForType t
    create := fun t =>
      if t = 1009 then some [.num QMetaType.Int 0, .num QMetaType.Int 0]
      else exampleTypes.create t }

/-- Meta-object of a gadget class `Carrier` with the stored `int` property `a` and the stored
property `payload` of type `QJsonValue`. -/
def carrierMeta : QMetaObject :=
  { className := "Carrier"
    properties := [intProperty "a",
      { name := "payload", isStored := true, isEnumType := false, enumerator := noEnum,
        userType := QMetaType.QJsonValue, write := fun v => some v }]
    classInfos := [] }

/-- The registry `recordTypes` with the gadget type `Carrier` (1008). -/
def carrierTypes : QMetaType :=
  { recordTypes with
    metaObjectForType := fun t =>
      if t = 1008 then some carrierMeta else recordTypes.metaObjectForType t }

/-! # Theorems -/

/-! ## Lemmas on property lookup -/

theorem indexOfPropertyFrom_eq_none (name : String) (l : List QMetaProperty) (i : Nat) :
    indexOfPropertyFrom name l i = none ↔ ∀ p ∈ l, p.name ≠ name := by
  induction l generalizing i with
  | nil => simp [indexOfPropertyFrom]
  | cons p rest ih =>
    simp only [indexOfPropertyFrom, List.mem_cons, forall_eq_or_imp]
    cases h : indexOfPropertyFrom name rest (i + 1) with
    | some found =>
      have := (ih (i + 1)).not.mp (by simp [h])
      simp only [reduceCtorEq, false_iff, not_and]
      intro _ hall
      exact this hall
    | none =>
      have := (ih (i + 1)).mp h
      by_cases hp : p.name = name
      · simp [hp]
      · simpa [hp] using this

theorem indexOfPropertyFrom_some (name : String) (l : List QMetaProperty) (i k : Nat)
    (p : QMetaProperty) (h : indexOfPropertyFrom name l i = some (k, p)) :
    i ≤ k ∧ l[k - i]? = some p ∧ p.name = name := by
  induction l generalizing i with
  | nil => simp [indexOfPropertyFrom] at h
  | cons q rest ih =>
    simp only [indexOfPropertyFrom] at h
    cases h' : indexOfPropertyFrom name rest (i + 1) with
    | some found =>
      rw [h'] at h
      simp only [Option.some.injEq] at h
      subst h
      obtain ⟨h1, h2, h3⟩ := ih (i + 1) h'
      refine ⟨by omega, ?_, h3⟩
      have : k - i = (k - (i + 1)) + 1 := by omega
      rw [this, List.getElem?_cons_succ]
      exact h2
    | none =>
      rw [h'] at h
      by_cases hq : q.name = name
      · simp only [hq, if_true, Option.some.injEq, Prod.mk.injEq] at h
        obtain ⟨rfl, rfl⟩ := h
        simp [hq]
      · simp [hq] at h

theorem indexOfPropertyFrom_nodup (l : List QMetaProperty) (i m : Nat) (p : QMetaProperty)
    (hnd : (l.map (fun q => q.name)).Nodup) (hp : l[m]? = some p) :
    indexOfPropertyFrom p.name l i = some (i + m, p) := by
  induction l generalizing i m with
  | nil => simp at hp
  | cons q rest ih =>
    simp only [List.map_cons, List.nodup_cons, List.mem_map, not_exists, not_and] at hnd
    cases m with
    | zero =>
      simp only [List.getElem?_cons_zero, Option.some.injEq] at hp
      subst hp
      have hnone : indexOfPropertyFrom q.name rest (i + 1) = none :=
        (indexOfPropertyFrom_eq_none _ _ _).mpr (fun r hr => hnd.1 r hr)
      simp [indexOfPropertyFrom, hnone]
    | succ m =>
      simp only [List.getElem?_cons_succ] at hp
      have := ih (i + 1) m hnd.2 hp
      simp only [indexOfPropertyFrom, this]
      congr 2
      omega

/-! ## C9: the null pointer to a record -/

/-- C9: for every pointer-to-record type `t` (a type with the `PointerToGadget` flag and a
meta-object) and every helper configuration, `serialize` maps the null pointer of type `t` to
JSON `Null`, `deserialize` maps `Null` to the null pointer of type `t` without error, and so
serializing and then deserializing the null pointer gives the null pointer back. -/
theorem null_pointer_round_trip (mt : QMetaType) (helper : SerializationHelper) (t : Nat)
    (hptr : mt.isPointerToGadget t = true) (hmo : (mt.metaObjectForType t).isSome = true) :
    QJsonGadgetConverter.serialize mt helper t (.gadgetPtr t none) = .ok .null ∧
    QJsonGadgetConverter.deserialize mt helper t .null = .ok (.gadgetPtr t none) ∧
    (QJsonGadgetConverter.serialize mt helper t (.gadgetPtr t none) >>=
      QJsonGadgetConverter.deserialize mt helper t) = .ok (.gadgetPtr t none) := by
  obtain ⟨mo, hmo⟩ := Option.isSome_iff_exists.mp hmo
  have hs : QJsonGadgetConverter.serialize mt helper t (.gadgetPtr t none) = .ok .null := by
    simp [QJsonGadgetConverter.serialize, hmo, hptr, QVariant.convert, QVariant.userType]
  have hd : QJsonGadgetConverter.deserialize mt helper t .null = .ok (.gadgetPtr t none) := by
    simp [QJsonGadgetConverter.deserialize, hmo, hptr, QJsonValue.isNull]
  refine ⟨hs, hd, ?_⟩
  rw [hs]
  exact hd

/-- Witness for C9: the pointer type 1001 of the example registry, with both validation flags
set. -/
theorem null_pointer_round_trip_witness :
    QJsonGadgetConverter.serialize exampleTypes
        (exampleHelper { allProperties := true, noExtraProperties := true }) 1001
        (.gadgetPtr 1001 none) = .ok .null ∧
    QJsonGadgetConverter.deserialize exampleTypes
        (exampleHelper { allProperties := true, noExtraProperties := true }) 1001 .null
      = .ok (.gadgetPtr 1001 none) ∧
    (QJsonGadgetConverter.serialize exampleTypes
        (exampleHelper { allProperties := true, noExtraProperties := true }) 1001
        (.gadgetPtr 1001 none) >>=
      QJsonGadgetConverter.deserialize exampleTypes
        (exampleHelper { allProperties := true, noExtraProperties := true }) 1001)
      = .ok (.gadgetPtr 1001 none) :=
  null_pointer_round_trip exampleTypes _ 1001 (by decide) (by decide)

/-! ## C10: JSON values that are not objects -/

/-- C10 as stated fails: for the value record type 1000 of the example registry, `deserialize`
of the JSON string `"x"` (not an object, not `Null`) returns the default-constructed record, and
`deserialize` of `Null` returns an invalid `QVariant`; neither is an error. -/
theorem deserialize_non_object_counterexample :
    (exampleTypes.metaObjectForType 1000).isSome = true ∧
    exampleTypes.isPointerToGadget 1000 = false ∧
    (QJsonValue.string "x").isObject = false ∧
    QJsonGadgetConverter.deserialize exampleTypes (exampleHelper noValidation) 1000 (.string "x")
      = .ok (.gadget 1000 [.num QMetaType.Int 0, .num QMetaType.Int 0]) ∧
    QJsonGadgetConverter.deserialize exampleTypes (exampleHelper noValidation) 1000 .null
      = .ok .invalid :=
  ⟨rfl, rfl, rfl, rfl, rfl⟩

/-- C10, amended: `deserialize` has no check that the JSON value is an object.  For a record
type `t` and a value `j` that is not an object: if `j` is `Null` the result is the null pointer
when `t` is a pointer-to-record type and an invalid `QVariant` otherwise, in both cases without
error; if `j` is not `Null` the result is exactly that of deserializing the empty object.  The
converter announces only the kinds `Object` and `Null` in `jsonTypes`. -/
theorem deserialize_non_object (mt : QMetaType) (helper : SerializationHelper) (t : Nat)
    (j : QJsonValue) (hmo : (mt.metaObjectForType t).isSome = true) (hj : j.isObject = false) :
    (j.isNull = true →
      QJsonGadgetConverter.deserialize mt helper t j =
        .ok (if mt.isPointerToGadget t then .gadgetPtr t none else .invalid)) ∧
    (j.isNull = false →
      QJsonGadgetConverter.deserialize mt helper t j =
        QJsonGadgetConverter.deserialize mt helper t (.object [])) ∧
    QJsonGadgetConverter.jsonTypes = [.Object, .Null] := by
  obtain ⟨mo, hmo⟩ := Option.isSome_iff_exists.mp hmo
  refine ⟨?_, ?_, rfl⟩
  · intro hn
    cases hp : mt.isPointerToGadget t <;>
      simp [QJsonGadgetConverter.deserialize, hmo, hn, hp]
  · intro hn
    cases j <;>
      simp_all [QJsonGadgetConverter.deserialize, QJsonGadgetConverter.deserializeGadget,
        QJsonValue.isObject, QJsonValue.isNull, QJsonValue.toObject]

/-- Witness for the amended C10: the JSON number 7 and the value record type 1000. -/
theorem deserialize_non_object_witness :
    ((QJsonValue.double 7).isNull = true →
      QJsonGadgetConverter.deserialize exampleTypes (exampleHelper noValidation) 1000 (.double 7) =
        .ok (if exampleTypes.isPointerToGadget 1000 then .gadgetPtr 1000 none else .invalid)) ∧
    ((QJsonValue.double 7).isNull = false →
      QJsonGadgetConverter.deserialize exampleTypes (exampleHelper noValidation) 1000 (.double 7) =
        QJsonGadgetConverter.deserialize exampleTypes (exampleHelper noValidation) 1000 (.object [])) ∧
    QJsonGadgetConverter.jsonTypes = [.Object, .Null] :=
  deserialize_non_object exampleTypes (exampleHelper noValidation) 1000 (.double 7) rfl rfl

/-! ## Lemmas on the set of required properties -/

theorem qset_mem_insert (s : List String) (name n : String) :
    n ∈ QSet.insert s name ↔ n ∈ s ∨ n = name := by
  by_cases h : name ∈ s
  · simp only [QSet.insert, h, if_true]
    constructor
    · exact Or.inl
    · rintro (h' | rfl)
      · exact h'
      · exact h
  · simp [QSet.insert, h]

theorem qset_nodup_insert (s : List String) (name : String) (hs : s.Nodup) :
    (QSet.insert s name).Nodup := by
  by_cases h : name ∈ s
  · simpa [QSet.insert, h] using hs
  · simp only [QSet.insert, h, if_false]
    rw [List.nodup_append]
    refine ⟨hs, by simp, ?_⟩
    intro a ha hb
    simp only [List.mem_singleton] at hb
    subst hb
    exact h ha

theorem qset_mem_remove (s : List String) (name n : String) :
    n ∈ QSet.remove s name ↔ n ∈ s ∧ n ≠ name := by
  simp [QSet.remove]

theorem qset_nodup_remove (s : List String) (name : String) (hs : s.Nodup) :
    (QSet.remove s name).Nodup :=
  hs.filter _

theorem mem_collectRequired (props : List QMetaProperty) (acc : List String) (n : String) :
    n ∈ QJsonGadgetConverter.collectRequired props acc ↔
      n ∈ acc ∨ ∃ p ∈ props, p.isStored = true ∧ p.name = n := by
  induction props generalizing acc with
  | nil => simp [QJsonGadgetConverter.collectRequired]
  | cons q rest ih =>
    simp only [QJsonGadgetConverter.collectRequired, ih, List.mem_cons, exists_eq_or_imp]
    by_cases hq : q.isStored = true
    · simp only [hq, if_true, qset_mem_insert, true_and]
      constructor
      · rintro ((h | h) | h)
        · exact Or.inl h
        · exact Or.inr (Or.inl h.symm)
        · exact Or.inr (Or.inr h)
      · rintro (h | h | h)
        · exact Or.inl (Or.inl h)
        · exact Or.inl (Or.inr h.symm)
        · exact Or.inr h
    · simp [hq]

theorem nodup_collectRequired (props : List QMetaProperty) (acc : List String) (h : acc.Nodup) :
    (QJsonGadgetConverter.collectRequired props acc).Nodup := by
  induction props generalizing acc with
  | nil => simpa [QJsonGadgetConverter.collectRequired] using h
  | cons q rest ih =>
    simp only [QJsonGadgetConverter.collectRequired]
    apply ih
    split
    · exact qset_nodup_insert _ _ h
    · exact h

/-! ## Lemmas on the member loop of `deserialize` -/

theorem indexOfProperty_name (mo : QMetaObject) (key : String) (i : Nat) (p : QMetaProperty)
    (h : mo.indexOfProperty key = some (i, p)) : p.name = key ∧ mo.properties[i]? = some p := by
  have := indexOfPropertyFrom_some key mo.properties 0 i p h
  simpa using ⟨this.2.2, this.2.1⟩

/-- When every known key has a value that deserializes and unknown keys are allowed or absent,
the member loop ends normally; a required name survives exactly when no known key removed it.
A key is looked up as a C string. -/
theorem deserializeProperties_ok (helper : SerializationHelper) (mo : QMetaObject)
    (o : QJsonObject) (g : List QVariant) (req : List String)
    (hknown : ∀ k j, (k, j) ∈ o → ∀ i p, mo.indexOfProperty (qUtf8Printable k) = some (i, p) →
      ∃ v, helper.deserializeSubtype p j = .ok v)
    (hextra : helper.validationFlags.noExtraProperties = false ∨
      ∀ k j, (k, j) ∈ o → mo.indexOfProperty (qUtf8Printable k) ≠ none) :
    ∃ g' req', QJsonGadgetConverter.deserializeProperties helper mo o g req = .ok (g', req') ∧
      g'.length = g.length ∧ (req.Nodup → req'.Nodup) ∧
      ∀ n, n ∈ req' ↔
        n ∈ req ∧ ¬ (n ∈ o.keys.map qUtf8Printable ∧ mo.indexOfProperty n ≠ none) := by
  induction o generalizing g req with
  | nil =>
    exact ⟨g, req, rfl, rfl, id, by simp [QJsonObject.keys]⟩
  | cons m rest ih =>
    obtain ⟨key, value⟩ := m
    have hknown' : ∀ k j, (k, j) ∈ rest → ∀ i p,
        mo.indexOfProperty (qUtf8Printable k) = some (i, p) →
        ∃ v, helper.deserializeSubtype p j = .ok v :=
      fun k j hm => hknown k j (List.mem_cons_of_mem _ hm)
    have hextra' : helper.validationFlags.noExtraProperties = false ∨
        ∀ k j, (k, j) ∈ rest → mo.indexOfProperty (qUtf8Printable k) ≠ none :=
      hextra.imp id (fun h k j hm => h k j (List.mem_cons_of_mem _ hm))
    cases hidx : mo.indexOfProperty (qUtf8Printable key) with
    | some found =>
      obtain ⟨i, p⟩ := found
      obtain ⟨v, hv⟩ := hknown key value (List.mem_cons_self _ _) i p hidx
      obtain ⟨g', req', heq, hlen, hnd, hmem⟩ :=
        ih (writeOnGadget p i g v) (QSet.remove req p.name) hknown' hextra'
      have hname := (indexOfProperty_name mo _ i p hidx).1
      refine ⟨g', req', ?_, ?_, ?_, ?_⟩
      · simp only [QJsonGadgetConverter.deserializeProperties, hidx, hv]
        exact heq
      · rw [hlen]
        unfold writeOnGadget
        cases p.write v <;> simp
      · exact fun h => hnd (qset_nodup_remove _ _ h)
      · intro n
        rw [hmem, qset_mem_remove, hname]
        simp only [QJsonObject.keys, List.map_cons, List.mem_cons]
        constructor
        · rintro ⟨⟨h1, h2⟩, h3⟩
          refine ⟨h1, ?_⟩
          rintro ⟨h4 | h4, h5⟩
          · exact h2 h4
          · exact h3 ⟨h4, h5⟩
        · rintro ⟨h1, h2⟩
          refine ⟨⟨h1, ?_⟩, ?_⟩
          · intro h3
            subst h3
            exact h2 ⟨Or.inl rfl, by simp [hidx]⟩
          · rintro ⟨h3, h4⟩
            exact h2 ⟨Or.inr h3, h4⟩
    | none =>
      have hflag : helper.validationFlags.noExtraProperties = false := by
        rcases hextra with h | h
        · exact h
        · exact absurd hidx (h key value (List.mem_cons_self _ _))
      obtain ⟨g', req', heq, hlen, hnd, hmem⟩ := ih g req hknown' hextra'
      refine ⟨g', req', ?_, hlen, hnd, ?_⟩
      · simp only [QJsonGadgetConverter.deserializeProperties, hidx, hflag]
        exact heq
      · intro n
        rw [hmem]
        simp only [QJsonObject.keys, List.map_cons, List.mem_cons]
        constructor
        · rintro ⟨h1, h2⟩
          refine ⟨h1, ?_⟩
          rintro ⟨h3 | h3, h4⟩
          · subst h3
            exact h4 hidx
          · exact h2 ⟨h3, h4⟩
        · rintro ⟨h1, h2⟩
          exact ⟨h1, fun ⟨h3, h4⟩ => h2 ⟨Or.inr h3, h4⟩⟩

/-! ## Lemmas on `deserialize` -/

theorem deserialize_of_construct (mt : QMetaType) (helper : SerializationHelper) (t : Nat)
    (mo : QMetaObject) (value : QJsonValue) (g0 : List QVariant)
    (hmo : mt.metaObjectForType t = some mo) (hnull : value.isNull = false)
    (hcons : QJsonGadgetConverter.construct mt t mo = some g0) :
    QJsonGadgetConverter.deserialize mt helper t value =
      match QJsonGadgetConverter.deserializeGadget helper mo value g0 with
      | .error e => .error e
      | .ok gadget => .ok (QJsonGadgetConverter.wrap mt t gadget) := by
  unfold QJsonGadgetConverter.construct at hcons
  unfold QJsonGadgetConverter.deserialize QJsonGadgetConverter.wrap
  cases hp : mt.isPointerToGadget t
  · simp only [hp, Bool.false_eq_true, if_false] at hcons
    simp only [hmo, hnull, hcons, Bool.false_eq_true, if_false]
  · simp only [hp, if_true] at hcons
    by_cases hu : mt.type mo.className = QMetaType.UnknownType
    · simp [hu] at hcons
    · simp only [hu, if_false] at hcons
      simp only [hmo, hnull, hcons, hu, Bool.false_eq_true, if_false, if_true]

theorem deserialize_of_not_construct (mt : QMetaType) (helper : SerializationHelper) (t : Nat)
    (mo : QMetaObject) (value : QJsonValue)
    (hmo : mt.metaObjectForType t = some mo) (hnull : value.isNull = false)
    (hcons : QJsonGadgetConverter.construct mt t mo = none) :
    QJsonGadgetConverter.deserialize mt helper t value =
      .error (.deserialization
        (if mt.isPointerToGadget t = true ∧ mt.type mo.className = QMetaType.UnknownType then
          "Unable to get type of gadget from gadget-pointer type" ++ mt.typeName t
        else QJsonGadgetConverter.constructMessage mt t)) := by
  unfold QJsonGadgetConverter.construct at hcons
  unfold QJsonGadgetConverter.deserialize
  cases hp : mt.isPointerToGadget t
  · simp only [hp, Bool.false_eq_true, if_false] at hcons
    simp [hmo, hnull, hcons]
  · simp only [hp, if_true] at hcons
    by_cases hu : mt.type mo.className = QMetaType.UnknownType
    · simp [hmo, hnull, hu]
    · simp only [hu, if_false] at hcons
      simp [hmo, hnull, hcons, hu]

theorem stored_name_known (mo : QMetaObject) (p : QMetaProperty) (hp : p ∈ mo.properties) :
    mo.indexOfProperty p.name ≠ none := by
  intro h
  exact (indexOfPropertyFrom_eq_none _ _ _).mp h p hp rfl

/-- The outcome of the body of `deserialize` under `AllProperties`, when every known key has a
value that deserializes and unknown keys are allowed or absent. -/
theorem deserializeGadget_allProperties (helper : SerializationHelper) (mo : QMetaObject)
    (o : QJsonObject) (g0 : List QVariant)
    (hall : helper.validationFlags.allProperties = true)
    (hknown : ∀ k j, (k, j) ∈ o → ∀ i p, mo.indexOfProperty (qUtf8Printable k) = some (i, p) →
      ∃ v, helper.deserializeSubtype p j = .ok v)
    (hextra : helper.validationFlags.noExtraProperties = false ∨
      ∀ k j, (k, j) ∈ o → mo.indexOfProperty (qUtf8Printable k) ≠ none) :
    ∃ g missing, missing.Nodup ∧
      (∀ n, n ∈ missing ↔ (∃ p ∈ mo.properties, p.isStored = true ∧ p.name = n) ∧ n ∉ o.keys.map qUtf8Printable) ∧
      QJsonGadgetConverter.deserializeGadget helper mo (.object o) g0 =
        if missing = [] then .ok g
        else .error (.deserialization (QJsonGadgetConverter.missingMessage mo missing)) := by
  obtain ⟨g, req', heq, -, hnd, hmem⟩ :=
    deserializeProperties_ok helper mo o g0 (QJsonGadgetConverter.collectRequired mo.properties [])
      hknown hextra
  refine ⟨g, req', hnd (nodup_collectRequired _ _ List.nodup_nil), ?_, ?_⟩
  · intro n
    rw [hmem, mem_collectRequired]
    simp only [List.not_mem_nil, false_or]
    constructor
    · rintro ⟨⟨p, hp, hs, rfl⟩, h⟩
      exact ⟨⟨p, hp, hs, rfl⟩, fun hk => h ⟨hk, stored_name_known mo p hp⟩⟩
    · rintro ⟨h1, h2⟩
      exact ⟨h1, fun h => h2 h.1⟩
  · simp only [QJsonGadgetConverter.deserializeGadget, QJsonValue.toObject, hall, if_true, heq]
    cases req' <;> simp

/-! ## C5: required properties -/

/-- C5 as stated fails: 1002 is a pointer-to-record type whose class `Ghost` is not registered
under its class name.  With `AllProperties` set and the object `{"a": 1}`, whose only key names
the only stored property and has a value that deserializes, no stored property is missing, yet
`deserialize` fails; its message is not the missing-properties message.  And for the record type
1000 with the stored properties `a` and `b`, in the object with the keys `a\0x` and `b` the
name `a` is not a key, yet `deserialize` succeeds: the key is looked up as a C string, which
ends at the NUL character. -/
theorem required_properties_counterexample :
    exampleTypes.metaObjectForType 1002 = some ghostMeta ∧
    (exampleHelper { allProperties := true, noExtraProperties := false }).deserializeSubtype
      (intProperty "a") (.double 1) = .ok (.num QMetaType.Int 1) ∧
    missingStored ghostMeta [("a", .double 1)] = [] ∧
    QJsonGadgetConverter.deserialize exampleTypes
        (exampleHelper { allProperties := true, noExtraProperties := false }) 1002
        (.object [("a", .double 1)])
      = .error (.deserialization "Unable to get type of gadget from gadget-pointer typeGhost*") ∧
    "a" ∉ QJsonObject.keys [("a\x00x", .double 1), ("b", .double 2)] ∧
    QJsonGadgetConverter.deserialize exampleTypes
        (exampleHelper { allProperties := true, noExtraProperties := false }) 1000
        (.object [("a\x00x", .double 1), ("b", .double 2)])
      = .ok (.gadget 1000 [.num QMetaType.Int 1, .num QMetaType.Int 2]) :=
  ⟨rfl, rfl, rfl, rfl, by decide, rfl⟩

/-- C5, amended: let `t` be a record type of which `deserialize` can construct an instance,
let `AllProperties` be set, and let `o` be a JSON object in which every key that names a property
has a value that deserializes, with `NoExtraProperties` unset or no unknown key in `o`, a key
counting up to its first NUL character.  Then `deserialize` fails if and only if the name of some
stored property is not a key of `o`, and in that case the exception is a deserialization
exception whose message lists, once each, exactly the names of the stored properties that are
not keys of `o`. -/
theorem required_properties (mt : QMetaType) (helper : SerializationHelper) (t : Nat)
    (mo : QMetaObject) (o : QJsonObject) (g0 : List QVariant)
    (hmo : mt.metaObjectForType t = some mo)
    (hcons : QJsonGadgetConverter.construct mt t mo = some g0)
    (hall : helper.validationFlags.allProperties = true)
    (hknown : ∀ k j, (k, j) ∈ o → ∀ i p, mo.indexOfProperty (qUtf8Printable k) = some (i, p) →
      ∃ v, helper.deserializeSubtype p j = .ok v)
    (hextra : helper.validationFlags.noExtraProperties = false ∨
      ∀ k j, (k, j) ∈ o → mo.indexOfProperty (qUtf8Printable k) ≠ none) :
    ((∃ e, QJsonGadgetConverter.deserialize mt helper t (.object o) = .error e) ↔
      ∃ p ∈ mo.properties, p.isStored = true ∧ p.name ∉ o.keys.map qUtf8Printable) ∧
    (∀ e, QJsonGadgetConverter.deserialize mt helper t (.object o) = .error e →
      ∃ missing, missing.Nodup ∧
        (∀ n, n ∈ missing ↔ (∃ p ∈ mo.properties, p.isStored = true ∧ p.name = n) ∧ n ∉ o.keys.map qUtf8Printable) ∧
        e = .deserialization (QJsonGadgetConverter.missingMessage mo missing)) := by
  obtain ⟨g, missing, hnd, hmem, heq⟩ :=
    deserializeGadget_allProperties helper mo o g0 hall hknown hextra
  have hd := deserialize_of_construct mt helper t mo (.object o) g0 hmo rfl hcons
  rw [heq] at hd
  by_cases hm : missing = []
  · simp only [hm, if_true] at hd
    subst hm
    constructor
    · constructor
      · rintro ⟨e, he⟩
        rw [hd] at he
        exact absurd he (by simp)
      · rintro ⟨p, hp, hs, hk⟩
        exact absurd ((hmem p.name).mpr ⟨⟨p, hp, hs, rfl⟩, hk⟩) (List.not_mem_nil _)
    · intro e he
      rw [hd] at he
      exact absurd he (by simp)
  · simp only [hm, if_false] at hd
    constructor
    · constructor
      · intro _
        obtain ⟨n, hn⟩ := List.exists_mem_of_ne_nil _ hm
        obtain ⟨⟨p, hp, hs, rfl⟩, hk⟩ := (hmem n).mp hn
        exact ⟨p, hp, hs, hk⟩
      · intro _
        exact ⟨_, hd⟩
    · intro e he
      rw [hd] at he
      exact ⟨missing, hnd, hmem, (Except.error.inj he).symm⟩

/-- Witness for the amended C5: the record type 1000 (properties `a` and `b`, both stored) and
the object `{"a": 1}`. -/
theorem required_properties_witness :
    ((∃ e, QJsonGadgetConverter.deserialize exampleTypes
        (exampleHelper { allProperties := true, noExtraProperties := false }) 1000
        (.object [("a", .double 1)]) = .error e) ↔
      ∃ p ∈ pointMeta.properties, p.isStored = true ∧
        p.name ∉ (QJsonObject.keys [("a", .double 1)]).map qUtf8Printable) ∧
    (∀ e, QJsonGadgetConverter.deserialize exampleTypes
        (exampleHelper { allProperties := true, noExtraProperties := false }) 1000
        (.object [("a", .double 1)]) = .error e →
      ∃ missing, missing.Nodup ∧
        (∀ n, n ∈ missing ↔ (∃ p ∈ pointMeta.properties, p.isStored = true ∧ p.name = n) ∧
          n ∉ (QJsonObject.keys [("a", .double 1)]).map qUtf8Printable) ∧
        e = .deserialization (QJsonGadgetConverter.missingMessage pointMeta missing)) :=
  required_properties exampleTypes (exampleHelper { allProperties := true, noExtraProperties := false })
    1000 pointMeta [("a", .double 1)] [.num QMetaType.Int 0, .num QMetaType.Int 0] rfl rfl rfl
    (by
      intro k j hm i p _
      simp only [List.mem_singleton, Prod.mk.injEq] at hm
      obtain ⟨-, rfl⟩ := hm
      exact ⟨_, rfl⟩)
    (Or.inl rfl)

/-- The two examples of C5: for the record type 1000 with the stored properties `a` and `b` and
`AllProperties` set, `{"a": 1}` fails with a message naming `b`, and `{"a": 1, "b": 2}` gives the
record with `a = 1` and `b = 2`. -/
theorem required_properties_examples :
    QJsonGadgetConverter.deserialize exampleTypes
        (exampleHelper { allProperties := true, noExtraProperties := false }) 1000
        (.object [("a", .double 1)])
      = .error (.deserialization
          "Not all properties for Point are present in the json object. Missing properties: b") ∧
    QJsonGadgetConverter.deserialize exampleTypes
        (exampleHelper { allProperties := true, noExtraProperties := false }) 1000
        (.object [("a", .double 1), ("b", .double 2)])
      = .ok (.gadget 1000 [.num QMetaType.Int 1, .num QMetaType.Int 2]) :=
  ⟨rfl, rfl⟩

/-! ## C6: extra properties -/

/-- The message of the exception thrown for an unknown key (lines 134-136). -/
theorem deserializeProperties_extra (helper : SerializationHelper) (mo : QMetaObject)
    (o : QJsonObject) (g : List QVariant) (req : List String)
    (hflag : helper.validationFlags.noExtraProperties = true)
    (hunknown : ∃ k ∈ o.keys, mo.indexOfProperty (qUtf8Printable k) = none)
    (hknown : ∀ k j, (k, j) ∈ o → ∀ i p, mo.indexOfProperty (qUtf8Printable k) = some (i, p) →
      ∃ v, helper.deserializeSubtype p j = .ok v) :
    ∃ k ∈ o.keys, mo.indexOfProperty (qUtf8Printable k) = none ∧
      QJsonGadgetConverter.deserializeProperties helper mo o g req =
        .error (.deserialization
          ("Found extra property " ++ k ++ " but extra properties are not allowed")) := by
  induction o generalizing g req with
  | nil =>
    obtain ⟨k, hk, -⟩ := hunknown
    simp [QJsonObject.keys] at hk
  | cons m rest ih =>
    obtain ⟨key, value⟩ := m
    cases hidx : mo.indexOfProperty (qUtf8Printable key) with
    | none =>
      refine ⟨key, by simp [QJsonObject.keys], hidx, ?_⟩
      simp only [QJsonGadgetConverter.deserializeProperties, hidx, hflag, if_true]
    | some found =>
      obtain ⟨i, p⟩ := found
      obtain ⟨v, hv⟩ := hknown key value (List.mem_cons_self _ _) i p hidx
      have hunknown' : ∃ k ∈ QJsonObject.keys rest, mo.indexOfProperty (qUtf8Printable k) = none := by
        obtain ⟨k, hk, hn⟩ := hunknown
        simp only [QJsonObject.keys, List.map_cons, List.mem_cons] at hk
        rcases hk with rfl | hk
        · rw [hidx] at hn
          exact absurd hn (by simp)
        · exact ⟨k, hk, hn⟩
      obtain ⟨k, hk, hn, heq⟩ := ih (writeOnGadget p i g v) (QSet.remove req p.name) hunknown'
        (fun k j hm => hknown k j (List.mem_cons_of_mem _ hm))
      refine ⟨k, ?_, hn, ?_⟩
      · simp only [QJsonObject.keys, List.map_cons, List.mem_cons]
        exact Or.inr hk
      · simp only [QJsonGadgetConverter.deserializeProperties, hidx, hv]
        exact heq

theorem deserializeProperties_filter (helper : SerializationHelper) (mo : QMetaObject)
    (o : QJsonObject) (g : List QVariant) (req : List String)
    (hflag : helper.validationFlags.noExtraProperties = false) :
    QJsonGadgetConverter.deserializeProperties helper mo o g req =
      QJsonGadgetConverter.deserializeProperties helper mo
        (o.filter (fun m => (mo.indexOfProperty (qUtf8Printable m.1)).isSome)) g req := by
  induction o generalizing g req with
  | nil => rfl
  | cons m rest ih =>
    obtain ⟨key, value⟩ := m
    cases hidx : mo.indexOfProperty (qUtf8Printable key) with
    | none =>
      simp only [QJsonGadgetConverter.deserializeProperties, hidx, hflag, List.filter_cons,
        Option.isSome_none, Bool.false_eq_true, if_false]
      exact ih g req
    | some found =>
      obtain ⟨i, p⟩ := found
      simp only [List.filter_cons, hidx, Option.isSome_some, if_true,
        QJsonGadgetConverter.deserializeProperties]
      cases helper.deserializeSubtype p value with
      | error e => rfl
      | ok v => exact ih _ _

/-- C6 as stated fails: for the pointer-to-record type 1002, whose class is not registered under
its class name, with `NoExtraProperties` set and the object `{"a": 1, "c": 3}` (the key `c` names
no property, the value of `a` deserializes), `deserialize` fails with a message that names no
key of the object.  And for the record type 1000 with the properties `a` and `b`, the key
`a\0x` is the name of no property, yet with `NoExtraProperties` set the object with that key
deserializes, its value written to `a`: the key is looked up as a C string, which ends at the
NUL character. -/
theorem extra_properties_counterexample :
    exampleTypes.metaObjectForType 1002 = some ghostMeta ∧
    ghostMeta.indexOfProperty "c" = none ∧
    (exampleHelper { allProperties := false, noExtraProperties := true }).deserializeSubtype
      (intProperty "a") (.double 1) = .ok (.num QMetaType.Int 1) ∧
    QJsonGadgetConverter.deserialize exampleTypes
        (exampleHelper { allProperties := false, noExtraProperties := true }) 1002
        (.object [("a", .double 1), ("c", .double 3)])
      = .error (.deserialization "Unable to get type of gadget from gadget-pointer typeGhost*") ∧
    pointMeta.indexOfProperty "a\x00x" = none ∧
    QJsonGadgetConverter.deserialize exampleTypes
        (exampleHelper { allProperties := false, noExtraProperties := true }) 1000
        (.object [("a\x00x", .double 1)])
      = .ok (.gadget 1000 [.num QMetaType.Int 1, .num QMetaType.Int 0]) :=
  ⟨rfl, rfl, rfl, rfl, rfl, rfl⟩

/-- C6, amended: let `o` be a JSON object and `t` a record type, a key of `o` naming the
property whose name is the key up to its first NUL character.  With `NoExtraProperties` set, if
`deserialize` can construct an instance of `t`, `o` has a key that names no property, and every
key that names a property has a value that deserializes, then `deserialize` fails with a
deserialization exception whose message names a key of `o` that names no property.  With
`NoExtraProperties` unset the result, value or exception, is that of deserializing `o` with every
key that names no property removed. -/
theorem extra_properties (mt : QMetaType) (helper : SerializationHelper) (t : Nat)
    (mo : QMetaObject) (o : QJsonObject) (hmo : mt.metaObjectForType t = some mo) :
    (helper.validationFlags.noExtraProperties = true →
      (QJsonGadgetConverter.construct mt t mo).isSome = true →
      (∃ k ∈ o.keys, mo.indexOfProperty (qUtf8Printable k) = none) →
      (∀ k j, (k, j) ∈ o → ∀ i p, mo.indexOfProperty (qUtf8Printable k) = some (i, p) →
        ∃ v, helper.deserializeSubtype p j = .ok v) →
      ∃ k ∈ o.keys, mo.indexOfProperty (qUtf8Printable k) = none ∧
        QJsonGadgetConverter.deserialize mt helper t (.object o) =
          .error (.deserialization
            ("Found extra property " ++ k ++ " but extra properties are not allowed"))) ∧
    (helper.validationFlags.noExtraProperties = false →
      QJsonGadgetConverter.deserialize mt helper t (.object o) =
        QJsonGadgetConverter.deserialize mt helper t
          (.object (o.filter (fun m => (mo.indexOfProperty (qUtf8Printable m.1)).isSome)))) := by
  constructor
  · intro hflag hcons hunknown hknown
    obtain ⟨g0, hg0⟩ := Option.isSome_iff_exists.mp hcons
    obtain ⟨k, hk, hn, heq⟩ := deserializeProperties_extra helper mo o g0
      (if helper.validationFlags.allProperties then
        QJsonGadgetConverter.collectRequired mo.properties [] else []) hflag hunknown hknown
    refine ⟨k, hk, hn, ?_⟩
    rw [deserialize_of_construct mt helper t mo (.object o) g0 hmo rfl hg0]
    simp only [QJsonGadgetConverter.deserializeGadget, QJsonValue.toObject, heq]
  · intro hflag
    unfold QJsonGadgetConverter.deserialize QJsonGadgetConverter.deserializeGadget
    simp only [hmo, QJsonValue.isNull, QJsonValue.toObject]
    simp only [← deserializeProperties_filter helper mo o _ _ hflag]

/-- Witness for the amended C6, first part: the record type 1000 and `{"a": 1, "b": 2, "c": 3}`
with `NoExtraProperties` set; second part: the same object with the flag unset. -/
theorem extra_properties_witness :
    (∃ k ∈ QJsonObject.keys [("a", .double 1), ("b", .double 2), ("c", .double 3)],
      pointMeta.indexOfProperty (qUtf8Printable k) = none ∧
      QJsonGadgetConverter.deserialize exampleTypes
          (exampleHelper { allProperties := false, noExtraProperties := true }) 1000
          (.object [("a", .double 1), ("b", .double 2), ("c", .double 3)]) =
        .error (.deserialization
          ("Found extra property " ++ k ++ " but extra properties are not allowed"))) ∧
    QJsonGadgetConverter.deserialize exampleTypes (exampleHelper noValidation) 1000
        (.object [("a", .double 1), ("b", .double 2), ("c", .double 3)]) =
      QJsonGadgetConverter.deserialize exampleTypes (exampleHelper noValidation) 1000
        (.object (List.filter (fun m => (pointMeta.indexOfProperty (qUtf8Printable m.1)).isSome)
          [("a", .double 1), ("b", .double 2), ("c", .double 3)])) :=
  ⟨(extra_properties exampleTypes (exampleHelper { allProperties := false, noExtraProperties := true })
      1000 pointMeta [("a", .double 1), ("b", .double 2), ("c", .double 3)] rfl).1 rfl rfl
      ⟨"c", by decide, rfl⟩
      (by
        intro k j hm i p _
        simp only [List.mem_cons, Prod.mk.injEq, List.mem_singleton, List.not_mem_nil,
          or_false] at hm
        rcases hm with ⟨-, rfl⟩ | ⟨-, rfl⟩ | ⟨-, rfl⟩ <;> exact ⟨_, rfl⟩),
    (extra_properties exampleTypes (exampleHelper noValidation)
      1000 pointMeta [("a", .double 1), ("b", .double 2), ("c", .double 3)] rfl).2 rfl⟩

/-- The example of C6: for the record type 1000 with the properties `a` and `b`, the object
`{"a": 1, "b": 2, "c": 3}` fails naming `c` when `NoExtraProperties` is set, and gives the record
with `a = 1` and `b = 2` when it is not. -/
theorem extra_properties_examples :
    QJsonGadgetConverter.deserialize exampleTypes
        (exampleHelper { allProperties := false, noExtraProperties := true }) 1000
        (.object [("a", .double 1), ("b", .double 2), ("c", .double 3)])
      = .error (.deserialization "Found extra property c but extra properties are not allowed") ∧
    QJsonGadgetConverter.deserialize exampleTypes (exampleHelper noValidation) 1000
        (.object [("a", .double 1), ("b", .double 2), ("c", .double 3)])
      = .ok (.gadget 1000 [.num QMetaType.Int 1, .num QMetaType.Int 2]) :=
  ⟨rfl, rfl⟩

/-! ## Lemmas on JSON objects and the property loop of `serialize` -/

theorem jsonObject_mem_keys_insert (o : QJsonObject) (key : String) (value : QJsonValue)
    (k : String) : k ∈ (o.insert key value).keys ↔ k = key ∨ k ∈ o.keys := by
  induction o with
  | nil => simp [QJsonObject.insert, QJsonObject.keys]
  | cons m rest ih =>
    obtain ⟨k0, v0⟩ := m
    simp only [QJsonObject.insert]
    by_cases h1 : k0 = key
    · subst h1
      simp [QJsonObject.keys]
    · simp only [h1, if_false]
      by_cases h2 : key.toList < k0.toList
      · simp only [h2, if_true, QJsonObject.keys, List.map_cons, List.mem_cons]
      · simp only [h2, if_false]
        simp only [QJsonObject.keys, List.map_cons, List.mem_cons] at ih ⊢
        rw [ih]
        tauto

theorem jsonObject_mem_insert (o : QJsonObject) (key : String) (value : QJsonValue)
    (k : String) (j : QJsonValue) (h : (k, j) ∈ o.insert key value) :
    (k = key ∧ j = value) ∨ (k, j) ∈ o := by
  induction o with
  | nil => simpa [QJsonObject.insert] using h
  | cons m rest ih =>
    obtain ⟨k0, v0⟩ := m
    simp only [QJsonObject.insert] at h
    by_cases h1 : k0 = key
    · simp only [h1, if_true, List.mem_cons, Prod.mk.injEq] at h
      rcases h with h | h
      · exact Or.inl h
      · exact Or.inr (List.mem_cons_of_mem _ h)
    · simp only [h1, if_false] at h
      by_cases h2 : key.toList < k0.toList
      · simp only [h2, if_true, List.mem_cons, Prod.mk.injEq] at h
        rcases h with h | h | h
        · exact Or.inl h
        · exact Or.inr (by simp [h])
        · exact Or.inr (by simp [h])
      · simp only [h2, if_false, List.mem_cons] at h
        rcases h with h | h
        · exact Or.inr (by simp [h])
        · rcases ih h with h | h
          · exact Or.inl h
          · exact Or.inr (List.mem_cons_of_mem _ h)

theorem jsonObject_assign (o : QJsonObject) (key : String) (value : QJsonValue)
    (h : value ≠ .undefined) : o.assign key value = o.insert key value := by
  cases value <;> first | rfl | exact absurd rfl h

/-- When every property of the list is stored and serializes to a value that is not
`Undefined`, the property loop of `serialize` ends normally; the keys of the object are the old
keys and the property names, and every new member is the serialized value of a property of that
name. -/
theorem serializeProperties_ok (helper : SerializationHelper) (fields : List QVariant)
    (props : List QMetaProperty) (i : Nat) (obj : QJsonObject)
    (h : ∀ m p, props[m]? = some p → p.isStored = true ∧
      ∃ j, helper.serializeSubtype p (readOnGadget (i + m) fields) = .ok j ∧ j ≠ .undefined) :
    ∃ obj', QJsonGadgetConverter.serializeProperties helper fields props i obj = .ok obj' ∧
      (∀ k, k ∈ obj'.keys ↔ k ∈ obj.keys ∨ ∃ p ∈ props, p.name = k) ∧
      (∀ k j, (k, j) ∈ obj' → (k, j) ∈ obj ∨ ∃ m p, props[m]? = some p ∧ p.name = k ∧
        helper.serializeSubtype p (readOnGadget (i + m) fields) = .ok j) := by
  induction props generalizing i obj with
  | nil => exact ⟨obj, rfl, by simp, fun k j hm => Or.inl hm⟩
  | cons q rest ih =>
    obtain ⟨hs, j0, hj0, hdef⟩ := h 0 q (List.getElem?_cons_zero ..)
    have hrest : ∀ m p, rest[m]? = some p → p.isStored = true ∧
        ∃ j, helper.serializeSubtype p (readOnGadget (i + 1 + m) fields) = .ok j ∧
          j ≠ .undefined := by
      intro m p hp
      have := h (m + 1) p (by simpa using hp)
      rwa [show i + (m + 1) = i + 1 + m by omega] at this
    obtain ⟨obj', heq, hkeys, hmem⟩ := ih (i + 1) (obj.insert q.name j0) hrest
    refine ⟨obj', ?_, ?_, ?_⟩
    · simp only [QJsonGadgetConverter.serializeProperties, hs, if_true]
      simp only [Nat.add_zero] at hj0
      rw [hj0]
      simp only [jsonObject_assign _ _ _ hdef]
      exact heq
    · intro k
      rw [hkeys, jsonObject_mem_keys_insert]
      simp only [List.mem_cons, exists_eq_or_imp]
      constructor
      · rintro ((h1 | h1) | h1)
        · exact Or.inr (Or.inl h1.symm)
        · exact Or.inl h1
        · exact Or.inr (Or.inr h1)
      · rintro (h1 | h1 | h1)
        · exact Or.inl (Or.inr h1)
        · exact Or.inl (Or.inl h1.symm)
        · exact Or.inr h1
    · intro k j hm
      rcases hmem k j hm with h1 | ⟨m, p, hp, hn, hj⟩
      · rcases jsonObject_mem_insert _ _ _ _ _ h1 with ⟨rfl, rfl⟩ | h2
        · exact Or.inr ⟨0, q, List.getElem?_cons_zero .., rfl, hj0⟩
        · exact Or.inl h2
      · refine Or.inr ⟨m + 1, p, by simpa using hp, hn, ?_⟩
        rwa [show i + (m + 1) = i + 1 + m by omega]

theorem getElem?_eq_readOnGadget (target : List QVariant) (m : Nat) (h : m < target.length) :
    target[m]? = some (readOnGadget m target) := by
  simp [readOnGadget, List.getD, List.getElem?_eq_getElem h]

/-- When every member of the object deserializes to the value the target record has at the
index its key names, the property there stores that value when it is written, and every slot
either holds the target value already or is named by a key, the member loop of `deserialize`
ends with the target record. -/
theorem deserializeProperties_fields (helper : SerializationHelper) (mo : QMetaObject)
    (target : List QVariant) (o : QJsonObject) (g : List QVariant) (req : List String)
    (g' : List QVariant) (req' : List String)
    (hlen : g.length = target.length)
    (hval : ∀ k j, (k, j) ∈ o → ∀ i p, mo.indexOfProperty (qUtf8Printable k) = some (i, p) →
      helper.deserializeSubtype p j = .ok (readOnGadget i target) ∧
        p.write (readOnGadget i target) = some (readOnGadget i target))
    (hinv : ∀ m, m < target.length →
      g[m]? = target[m]? ∨
        ∃ k j p, (k, j) ∈ o ∧ mo.indexOfProperty (qUtf8Printable k) = some (m, p))
    (heq : QJsonGadgetConverter.deserializeProperties helper mo o g req = .ok (g', req')) :
    g' = target := by
  induction o generalizing g req with
  | nil =>
    simp only [QJsonGadgetConverter.deserializeProperties, Except.ok.injEq, Prod.mk.injEq] at heq
    obtain ⟨rfl, -⟩ := heq
    apply List.ext_getElem?
    intro m
    by_cases hm : m < target.length
    · rcases hinv m hm with h | ⟨k, j, p, hmem, -⟩
      · exact h
      · simp at hmem
    · rw [List.getElem?_eq_none (by omega), List.getElem?_eq_none (by omega)]
  | cons mem rest ih =>
    obtain ⟨key, value⟩ := mem
    have hval' : ∀ k j, (k, j) ∈ rest → ∀ i p,
        mo.indexOfProperty (qUtf8Printable k) = some (i, p) →
        helper.deserializeSubtype p j = .ok (readOnGadget i target) ∧
          p.write (readOnGadget i target) = some (readOnGadget i target) :=
      fun k j hm => hval k j (List.mem_cons_of_mem _ hm)
    cases hidx : mo.indexOfProperty (qUtf8Printable key) with
    | some found =>
      obtain ⟨i, p⟩ := found
      obtain ⟨hv, hw⟩ := hval key value (List.mem_cons_self _ _) i p hidx
      simp only [QJsonGadgetConverter.deserializeProperties, hidx, hv] at heq
      have hset : writeOnGadget p i g (readOnGadget i target) =
          g.set i (readOnGadget i target) := by
        simp only [writeOnGadget, hw]
      rw [hset] at heq
      refine ih (g.set i (readOnGadget i target)) _ ?_ hval' ?_ heq
      · simpa using hlen
      · intro m hm
        by_cases hmi : m = i
        · subst hmi
          left
          rw [getElem?_eq_readOnGadget target m hm]
          simp [List.getElem?_set, hlen, hm]
        · rcases hinv m hm with h | ⟨k, j, p', hmem, hk⟩
          · left
            rw [← h]
            exact List.getElem?_set_ne (fun h' => hmi h'.symm)
          · simp only [List.mem_cons, Prod.mk.injEq] at hmem
            rcases hmem with ⟨rfl, rfl⟩ | hmem
            · rw [hidx] at hk
              simp only [Option.some.injEq, Prod.mk.injEq] at hk
              exact absurd hk.1.symm hmi
            · exact Or.inr ⟨k, j, p', hmem, hk⟩
    | none =>
      cases hflag : helper.validationFlags.noExtraProperties with
      | true => simp [QJsonGadgetConverter.deserializeProperties, hidx, hflag] at heq
      | false =>
        simp only [QJsonGadgetConverter.deserializeProperties, hidx, hflag, Bool.false_eq_true,
          if_false] at heq
        refine ih g req hlen hval' ?_ heq
        intro m hm
        rcases hinv m hm with h | ⟨k, j, p', hmem, hk⟩
        · exact Or.inl h
        · simp only [List.mem_cons, Prod.mk.injEq] at hmem
          rcases hmem with ⟨rfl, rfl⟩ | hmem
          · rw [hidx] at hk
            exact absurd hk (by simp)
          · exact Or.inr ⟨k, j, p', hmem, hk⟩

/-! ## C1: record round trip -/

/-- C1 as stated fails, in three ways.  The type 1002 is a pointer-to-record type whose only
property `a` is stored, and each property value round-trips through the helper, but its class
`Ghost` is not registered under its class name: `serialize` of the record with `a = 5` gives
`{"a": 5}`, and `deserialize` of that object fails.  The type 1007 has the stored property `a`
declared without `WRITE`: `serialize` of the record with `a = 5` gives `{"a": 5}`, and
`deserialize` of that object succeeds with the record that has `a = 0`, the write being refused.
And with a helper that serializes the fields of the type 1000 to `Undefined` and reads them
back, `serialize` of the record gives the empty object, the keys being removed, and
`deserialize` of it gives the record with `a = 0` and `b = 0`. -/
theorem record_round_trip_counterexample :
    exampleTypes.metaObjectForType 1002 = some ghostMeta ∧
    ghostMeta.properties.all (fun p => p.isStored) = true ∧
    ((exampleHelper noValidation).serializeSubtype (intProperty "a") (.num QMetaType.Int 5) >>=
      (exampleHelper noValidation).deserializeSubtype (intProperty "a"))
      = .ok (.num QMetaType.Int 5) ∧
    QJsonGadgetConverter.serialize exampleTypes (exampleHelper noValidation) 1002
      (.gadgetPtr 1002 (some [.num QMetaType.Int 5])) = .ok (.object [("a", .double 5)]) ∧
    QJsonGadgetConverter.deserialize exampleTypes (exampleHelper noValidation) 1002
      (.object [("a", .double 5)])
      = .error (.deserialization "Unable to get type of gadget from gadget-pointer typeGhost*") ∧
    QJsonGadgetConverter.serialize constantTypes (exampleHelper noValidation) 1007
      (.gadget 1007 [.num QMetaType.Int 5]) = .ok (.object [("a", .double 5)]) ∧
    QJsonGadgetConverter.deserialize constantTypes (exampleHelper noValidation) 1007
      (.object [("a", .double 5)]) = .ok (.gadget 1007 [.num QMetaType.Int 0]) ∧
    (undefinedHelper.serializeSubtype (intProperty "a") (.num QMetaType.Int 5) >>=
      undefinedHelper.deserializeSubtype (intProperty "a")) = .ok (.num QMetaType.Int 5) ∧
    QJsonGadgetConverter.serialize exampleTypes undefinedHelper 1000
      (.gadget 1000 [.num QMetaType.Int 5, .num QMetaType.Int 5]) = .ok (.object []) ∧
    QJsonGadgetConverter.deserialize exampleTypes undefinedHelper 1000 (.object [])
      = .ok (.gadget 1000 [.num QMetaType.Int 0, .num QMetaType.Int 0]) :=
  ⟨rfl, rfl, rfl, rfl, rfl, rfl, rfl, rfl, rfl, rfl⟩

/-- C1, amended: let `t` be a record type whose properties are all stored, have pairwise
distinct names, which are C strings, and store the value of the record when it is written to
them; let `deserialize` be able to construct an instance of `t`, and let class-info
serialization be disabled.  Let `fields` be the property values of a record of type `t`, each of
which round-trips through the helper (`serializeSubtype` succeeds with a value that is not
`Undefined`, and `deserializeSubtype` of its result gives the value back).  Then under every
validation-flag setting `serialize` of the record succeeds and `deserialize` of its result
succeeds and gives the record back; and so it is for the null pointer when `t` is a
pointer-to-record type. -/
theorem record_round_trip (mt : QMetaType) (helper : SerializationHelper) (t : Nat)
    (mo : QMetaObject) (fields g0 : List QVariant)
    (hmo : mt.metaObjectForType t = some mo)
    (hcons : QJsonGadgetConverter.construct mt t mo = some g0)
    (hg0 : g0.length = mo.properties.length)
    (hlen : fields.length = mo.properties.length)
    (hstored : ∀ p ∈ mo.properties, p.isStored = true)
    (hnames : (mo.properties.map (fun p => p.name)).Nodup)
    (hcstr : ∀ p ∈ mo.properties, qUtf8Printable p.name = p.name)
    (hwrite : ∀ i p, mo.properties[i]? = some p →
      p.write (readOnGadget i fields) = some (readOnGadget i fields))
    (hinfo : helper.serializeClassInfo = false)
    (hrt : ∀ i p, mo.properties[i]? = some p →
      ∃ j, helper.serializeSubtype p (readOnGadget i fields) = .ok j ∧ j ≠ .undefined ∧
        helper.deserializeSubtype p j = .ok (readOnGadget i fields)) :
    (∃ j, QJsonGadgetConverter.serialize mt helper t (QJsonGadgetConverter.wrap mt t fields) = .ok j ∧
      QJsonGadgetConverter.deserialize mt helper t j =
        .ok (QJsonGadgetConverter.wrap mt t fields)) ∧
    (mt.isPointerToGadget t = true →
      ∃ j, QJsonGadgetConverter.serialize mt helper t (.gadgetPtr t none) = .ok j ∧
        QJsonGadgetConverter.deserialize mt helper t j = .ok (.gadgetPtr t none)) := by
  refine ⟨?_, fun hptr => ⟨.null, ?_, ?_⟩⟩
  rotate_left
  · simp [QJsonGadgetConverter.serialize, hmo, hptr, QVariant.convert, QVariant.userType]
  · simp [QJsonGadgetConverter.deserialize, hmo, hptr, QJsonValue.isNull]
  -- the property loop of `serialize`
  obtain ⟨obj, hser, hkeys, hmem⟩ := serializeProperties_ok helper fields mo.properties 0 []
    (fun m p hp => ⟨hstored p (List.getElem?_mem hp), by
      obtain ⟨j, hj, hdef, -⟩ := hrt m p hp
      exact ⟨j, by simpa using hj, hdef⟩⟩)
  have hmem' : ∀ k j, (k, j) ∈ obj → ∃ m p, mo.properties[m]? = some p ∧ p.name = k ∧
      helper.serializeSubtype p (readOnGadget m fields) = .ok j := by
    intro k j hm
    rcases hmem k j hm with h | ⟨m, p, hp, hn, hj⟩
    · simp at h
    · exact ⟨m, p, hp, hn, by simpa using hj⟩
  have hlookup : ∀ m p, mo.properties[m]? = some p →
      mo.indexOfProperty (qUtf8Printable p.name) = some (m, p) := by
    intro m p hp
    rw [hcstr p (List.getElem?_mem hp)]
    simpa [QMetaObject.indexOfProperty] using indexOfPropertyFrom_nodup mo.properties 0 m p hnames hp
  have hval : ∀ k j, (k, j) ∈ obj → ∀ i p, mo.indexOfProperty (qUtf8Printable k) = some (i, p) →
      helper.deserializeSubtype p j = .ok (readOnGadget i fields) ∧
        p.write (readOnGadget i fields) = some (readOnGadget i fields) := by
    intro k j hm i p hidx
    obtain ⟨m, q, hq, hn, hj⟩ := hmem' k j hm
    have := hlookup m q hq
    rw [hn, hidx] at this
    simp only [Option.some.injEq, Prod.mk.injEq] at this
    obtain ⟨rfl, rfl⟩ := this
    obtain ⟨j', hj', -, hd⟩ := hrt i p hq
    rw [hj] at hj'
    cases hj'
    exact ⟨hd, hwrite i p hq⟩
  refine ⟨.object obj, ?_, ?_⟩
  · unfold QJsonGadgetConverter.serialize QJsonGadgetConverter.wrap
    cases hp : mt.isPointerToGadget t <;>
      simp [hmo, QVariant.convert, QVariant.userType, QJsonGadgetConverter.serializeGadget,
        hser, hinfo]
  · rw [deserialize_of_construct mt helper t mo (.object obj) g0 hmo rfl hcons]
    obtain ⟨g', req', heq, -, -, hreq⟩ := deserializeProperties_ok helper mo obj g0
      (if helper.validationFlags.allProperties then
        QJsonGadgetConverter.collectRequired mo.properties [] else [])
      (fun k j hm i p hidx => ⟨_, (hval k j hm i p hidx).1⟩)
      (Or.inr (fun k j hm => by
        obtain ⟨m, q, hq, hn, -⟩ := hmem' k j hm
        rw [← hn, hlookup m q hq]
        simp))
    have hfields : g' = fields := by
      refine deserializeProperties_fields helper mo fields obj g0 _ g' req' (by omega) hval ?_ heq
      intro m hm
      right
      have hm' : m < mo.properties.length := by omega
      have hp : mo.properties[m]? = some mo.properties[m] := List.getElem?_eq_getElem hm'
      have hk : mo.properties[m].name ∈ obj.keys :=
        (hkeys _).mpr (Or.inr ⟨_, List.getElem_mem hm', rfl⟩)
      simp only [QJsonObject.keys, List.mem_map, Prod.exists, exists_and_right, exists_eq_right] at hk
      obtain ⟨j, hj⟩ := hk
      exact ⟨_, j, _, hj, hlookup m _ hp⟩
    have hempty : req' = [] := by
      apply List.eq_nil_iff_forall_not_mem.mpr
      intro n hn
      obtain ⟨hin, hnot⟩ := (hreq n).mp hn
      cases hall : helper.validationFlags.allProperties with
      | false => simp [hall] at hin
      | true =>
        simp only [hall, if_true, mem_collectRequired, List.not_mem_nil, false_or] at hin
        obtain ⟨p, hp, -, rfl⟩ := hin
        refine hnot ⟨?_, stored_name_known mo p hp⟩
        exact List.mem_map.mpr ⟨p.name, (hkeys _).mpr (Or.inr ⟨p, hp, rfl⟩), hcstr p hp⟩
    subst hfields hempty
    simp [QJsonGadgetConverter.deserializeGadget, QJsonValue.toObject, heq]

/-- Witness for the amended C1: the record type 1000 with `a = 1` and `b = 2`, both validation
flags set. -/
theorem record_round_trip_witness :
    ∃ j, QJsonGadgetConverter.serialize exampleTypes
        (exampleHelper { allProperties := true, noExtraProperties := true }) 1000
        (QJsonGadgetConverter.wrap exampleTypes 1000 [.num QMetaType.Int 1, .num QMetaType.Int 2])
        = .ok j ∧
      QJsonGadgetConverter.deserialize exampleTypes
        (exampleHelper { allProperties := true, noExtraProperties := true }) 1000 j =
        .ok (QJsonGadgetConverter.wrap exampleTypes 1000
          [.num QMetaType.Int 1, .num QMetaType.Int 2]) :=
  And.left <| record_round_trip exampleTypes (exampleHelper { allProperties := true, noExtraProperties := true })
    1000 pointMeta [.num QMetaType.Int 1, .num QMetaType.Int 2]
    [.num QMetaType.Int 0, .num QMetaType.Int 0] rfl rfl rfl rfl (by decide) (by decide)
    (by decide)
    (by
      intro i p hp
      match i, hp with
      | 0, hp => cases hp; rfl
      | 1, hp => cases hp; rfl
      | n + 2, hp => simp [pointMeta] at hp)
    rfl
    (by
      intro i p hp
      match i, hp with
      | 0, hp => exact ⟨.double 1, rfl, by simp, rfl⟩
      | 1, hp => exact ⟨.double 2, rfl, by simp, rfl⟩
      | n + 2, hp => simp [pointMeta] at hp)

/-! ## Lemmas on converter resolution -/

theorem findConverter_of_cached (d : QJsonSerializerPrivate)
    (facs : List QJsonTypeConverterFactory) (t : Nat) (vt : Option JsonType)
    (c : QJsonTypeConverter) (h : cachedConverter d t vt = some c) :
    findConverter d facs t vt = { converter := some c, state := d, created := [] } := by
  simp [findConverter, h]

theorem cachedConverter_cacheConverter_self (d : QJsonSerializerPrivate) (t : Nat)
    (vt : Option JsonType) (c : QJsonTypeConverter) (hacc : acceptsKind c.jsonTypes vt = true) :
    cachedConverter (cacheConverter d t vt c) t vt = some c := by
  cases vt with
  | none => simp [cachedConverter, cacheConverter, cacheInsert]
  | some k =>
    have hmem : k ∈ c.jsonTypes := by simpa [acceptsKind] using hacc
    simp [cachedConverter, cacheConverter, cacheInsert, hmem]

theorem cachedConverter_cacheConverter_other (d : QJsonSerializerPrivate) (t t' : Nat)
    (vt vt' : Option JsonType) (c : QJsonTypeConverter) (l : List QJsonTypeConverter)
    (h : t' ≠ t ∨ vt'.isNone ≠ vt.isNone) :
    cachedConverter (cacheConverter { d with typeConverters := l } t' vt' c) t vt =
      cachedConverter d t vt := by
  have hsymm : t' ≠ t → ¬ t = t' := fun hne e => hne e.symm
  cases vt <;> cases vt' <;> simp_all [cachedConverter, cacheConverter, cacheInsert]

/-- The outcome of the factory scan. -/
theorem findInFactories_cases (d : QJsonSerializerPrivate) (t : Nat) (vt : Option JsonType)
    (facs : List QJsonTypeConverterFactory) (idx : Nat) :
    ((findInFactories d t vt facs idx).converter = none ∧
      (findInFactories d t vt facs idx).state = d) ∨
    ∃ c, (findInFactories d t vt facs idx).converter = some c ∧
      (findInFactories d t vt facs idx).state =
        cacheConverter { d with typeConverters := d.typeConverters ++ [c] } t vt c := by
  induction facs generalizing idx with
  | nil => exact Or.inl ⟨rfl, rfl⟩
  | cons f rest ih =>
    simp only [findInFactories]
    split
    · cases hc : f.createConverter with
      | some c => exact Or.inr ⟨c, rfl, rfl⟩
      | none => exact ih (idx + 1)
    · exact ih (idx + 1)

/-- The three ways `findConverter` ends: a cache hit, a hit in the converter list, or the
factory scan. -/
theorem findConverter_cases (d : QJsonSerializerPrivate) (facs : List QJsonTypeConverterFactory)
    (t : Nat) (vt : Option JsonType) :
    (∃ c, cachedConverter d t vt = some c ∧
      findConverter d facs t vt = { converter := some c, state := d, created := [] }) ∨
    (cachedConverter d t vt = none ∧ ∃ c,
      d.typeConverters.find? (fun c => acceptsKind c.jsonTypes vt && c.canConvert t) = some c ∧
      findConverter d facs t vt =
        { converter := some c, state := cacheConverter d t vt c, created := [] }) ∨
    (cachedConverter d t vt = none ∧
      d.typeConverters.find? (fun c => acceptsKind c.jsonTypes vt && c.canConvert t) = none ∧
      findConverter d facs t vt = findInFactories d t vt facs 0) := by
  unfold findConverter
  cases hc : cachedConverter d t vt with
  | some c => exact Or.inl ⟨c, rfl, rfl⟩
  | none =>
    right
    cases hf : d.typeConverters.find? (fun c => acceptsKind c.jsonTypes vt && c.canConvert t) with
    | some c => exact Or.inl ⟨rfl, c, rfl, rfl⟩
    | none => exact Or.inr ⟨rfl, rfl, rfl⟩

/-- The state after `findConverter`: unchanged, or the converter returned was cached after a
cache miss, possibly after being appended to the list. -/
theorem findConverter_state (d : QJsonSerializerPrivate) (facs : List QJsonTypeConverterFactory)
    (t : Nat) (vt : Option JsonType) :
    ((findConverter d facs t vt).state = d ∧
      (findConverter d facs t vt).converter = cachedConverter d t vt) ∨
    ∃ c l, (findConverter d facs t vt).converter = some c ∧
      cachedConverter d t vt = none ∧
      (findConverter d facs t vt).state = cacheConverter { d with typeConverters := l } t vt c := by
  rcases findConverter_cases d facs t vt with ⟨c, hc, h⟩ | ⟨hc, c, -, h⟩ | ⟨hc, -, h⟩
  · rw [h, hc]
    exact Or.inl ⟨rfl, rfl⟩
  · rw [h]
    exact Or.inr ⟨c, d.typeConverters, rfl, hc, rfl⟩
  · rw [h, hc]
    rcases findInFactories_cases d t vt facs 0 with ⟨h1, h2⟩ | ⟨c, h1, h2⟩
    · exact Or.inl ⟨h2, h1⟩
    · exact Or.inr ⟨c, _, h1, rfl, h2⟩

theorem cachedConverter_runOperations (facs : List QJsonTypeConverterFactory) (t : Nat)
    (vt : Option JsonType) (c : QJsonTypeConverter) (ops : List Operation)
    (d : QJsonSerializerPrivate) (h : cachedConverter d t vt = some c)
    (hops : ∀ op ∈ ops, keepsResolution t vt op = true) :
    cachedConverter (runOperations facs d ops) t vt = some c := by
  induction ops generalizing d with
  | nil => exact h
  | cons op rest ih =>
    simp only [runOperations, List.foldl_cons]
    refine ih _ ?_ (fun o ho => hops o (List.mem_cons_of_mem _ ho))
    have hop := hops op (List.mem_cons_self _ _)
    cases op with
    | add _ => simp [keepsResolution] at hop
    | find t' vt' =>
      simp only [Operation.apply]
      rcases findConverter_state d facs t' vt' with ⟨hs, -⟩ | ⟨c', l, -, hmiss, hs⟩
      · rw [hs]
        exact h
      · rw [hs]
        by_cases hsame : t' = t ∧ vt' = vt
        · obtain ⟨rfl, rfl⟩ := hsame
          rw [h] at hmiss
          exact absurd hmiss (by simp)
        · rw [cachedConverter_cacheConverter_other d t t' vt vt' c' l ?_]
          · exact h
          · simp only [keepsResolution, Bool.or_eq_true, decide_eq_true_eq] at hop
            by_cases ht : t' = t
            · right
              subst ht
              cases vt <;> cases vt' <;> simp_all
            · exact Or.inl ht

theorem cachedConverter_after_find (d : QJsonSerializerPrivate)
    (facs : List QJsonTypeConverterFactory) (t : Nat) (vt : Option JsonType)
    (c : QJsonTypeConverter) (h : (findConverter d facs t vt).converter = some c)
    (hacc : acceptsKind c.jsonTypes vt = true) :
    cachedConverter (findConverter d facs t vt).state t vt = some c := by
  rcases findConverter_state d facs t vt with ⟨hs, hc⟩ | ⟨c', l, hc, -, hs⟩
  · rw [hs, ← hc, h]
  · rw [h] at hc
    cases hc
    rw [hs]
    exact cachedConverter_cacheConverter_self _ t vt c hacc

theorem mem_insertConverter (c c' : QJsonTypeConverter) (l : List QJsonTypeConverter) :
    c' ∈ insertConverter c l ↔ c' = c ∨ c' ∈ l := by
  induction l with
  | nil => simp [insertConverter]
  | cons x rest ih =>
    simp only [insertConverter]
    split
    · simp
    · simp only [List.mem_cons, ih]
      tauto

/-- The factory scan when no `createConverter` returns a null pointer: either no factory
matches and nothing is created, or the first matching factory is the only one called. -/
theorem findInFactories_created (d : QJsonSerializerPrivate) (t : Nat) (vt : Option JsonType)
    (facs : List QJsonTypeConverterFactory) (idx : Nat)
    (hfacs : ∀ f ∈ facs, ∃ c, f.createConverter = some c) :
    ((findInFactories d t vt facs idx).created = [] ∧
      (findInFactories d t vt facs idx).state = d) ∨
    ∃ i f c, idx ≤ i ∧ facs[i - idx]? = some f ∧ f.createConverter = some c ∧
      (acceptsKind f.jsonTypes vt && f.canConvert t) = true ∧
      (findInFactories d t vt facs idx).created = [i] ∧
      (findInFactories d t vt facs idx).state =
        cacheConverter { d with typeConverters := d.typeConverters ++ [c] } t vt c := by
  induction facs generalizing idx with
  | nil => exact Or.inl ⟨rfl, rfl⟩
  | cons f rest ih =>
    obtain ⟨c, hc⟩ := hfacs f (List.mem_cons_self _ _)
    simp only [findInFactories]
    by_cases hm : (acceptsKind f.jsonTypes vt && f.canConvert t) = true
    · simp only [hm, if_true, hc]
      exact Or.inr ⟨idx, f, c, le_refl _, by simp, hc, hm, rfl, rfl⟩
    · simp only [hm, if_false]
      rcases ih (idx + 1) (fun g hg => hfacs g (List.mem_cons_of_mem _ hg)) with
        h | ⟨i, g, c', hi, hg, hc', hm', h1, h2⟩
      · exact Or.inl h
      · refine Or.inr ⟨i, g, c', by omega, ?_, hc', hm', h1, h2⟩
        rw [show i - idx = (i - (idx + 1)) + 1 by omega, List.getElem?_cons_succ]
        exact hg

/-- In a sequential run in which no `createConverter` returns a null pointer and every factory
agrees with the converter it creates, no factory is asked twice for the same type. -/
theorem createLog_nodup (facs : List QJsonTypeConverterFactory)
    (hfacs : ∀ f ∈ facs, ∃ c, f.createConverter = some c ∧ c.canConvert = f.canConvert ∧
      c.jsonTypes = f.jsonTypes)
    (ops : List Operation) (d : QJsonSerializerPrivate) (seen : List (Nat × Nat))
    (hinv : ∀ i t, (i, t) ∈ seen → ∃ f c, facs[i]? = some f ∧ f.createConverter = some c ∧
      c ∈ d.typeConverters)
    (hseen : seen.Nodup) : (seen ++ createLog facs d ops).Nodup := by
  induction ops generalizing d seen with
  | nil => simpa [createLog] using hseen
  | cons op rest ih =>
    cases op with
    | add converter =>
      simp only [createLog]
      refine ih _ seen ?_ hseen
      intro i t hmem
      obtain ⟨f, c, hf, hc, hin⟩ := hinv i t hmem
      exact ⟨f, c, hf, hc, (mem_insertConverter _ _ _).mpr (Or.inr hin)⟩
    | find t vt =>
      simp only [createLog]
      rcases findConverter_cases d facs t vt with ⟨c, -, h⟩ | ⟨-, c, -, h⟩ | ⟨-, hnone, h⟩
      · rw [h]
        simpa using ih d seen hinv hseen
      · rw [h]
        simp only [List.map_nil, List.nil_append]
        refine ih _ seen ?_ hseen
        intro i t' hmem
        obtain ⟨f, c', hf, hc, hin⟩ := hinv i t' hmem
        refine ⟨f, c', hf, hc, ?_⟩
        cases vt <;> exact hin
      · rw [h]
        rcases findInFactories_created d t vt facs 0
            (fun f hf => (hfacs f hf).imp (fun _ hc => hc.1)) with
          ⟨h1, h2⟩ | ⟨i, f, c, -, hf, hc, hm, h1, h2⟩
        · rw [h1, h2]
          simpa using ih d seen hinv hseen
        · rw [h1, h2]
          simp only [List.map_cons, List.map_nil, List.singleton_append, Nat.sub_zero] at hf ⊢
          have hnew : (i, t) ∉ seen := by
            intro hmem
            obtain ⟨f', c', hf', hc', hin⟩ := hinv i t hmem
            rw [hf] at hf'
            cases hf'
            obtain ⟨c'', hc'', hcan, hjson⟩ := hfacs f (List.getElem?_mem hf)
            rw [hc'] at hc''
            cases hc''
            have := List.find?_eq_none.mp hnone c' hin
            rw [hcan, hjson] at this
            exact this hm
          have := ih (cacheConverter { d with typeConverters := d.typeConverters ++ [c] } t vt c)
            (seen ++ [(i, t)]) ?_ ?_
          · simpa using this
          · intro i' t' hmem
            rcases List.mem_append.mp hmem with hmem | hmem
            · obtain ⟨f', c', hf', hc', hin⟩ := hinv i' t' hmem
              refine ⟨f', c', hf', hc', ?_⟩
              cases vt <;> exact List.mem_append_left _ hin
            · simp only [List.mem_singleton, Prod.mk.injEq] at hmem
              obtain ⟨rfl, rfl⟩ := hmem
              refine ⟨f, c, hf, hc, ?_⟩
              cases vt <;> simp [cacheConverter]
          · exact List.Nodup.append hseen (List.nodup_singleton _)
              (by simpa [List.disjoint_singleton] using hnew)

/-! ## C2: priority in the serialize direction -/

/-- C2, the code at a failing input: the factory list holds `factoryF`, which creates the
converter `F` (priority 10, converts `typeT` and `typeU`).  After `addJsonTypeConverter(B)`
(priority 5, converts `typeT`) and a serialize-direction resolution of `typeU`, which appends `F`
behind `B`, the converter list is `[B, F]`; the serialize-direction resolution of `typeT` then
returns `B`, although `F` is in the list, can convert `typeT` and has the higher priority. -/
theorem serialize_priority_failing_input :
    (runOperations [factoryF] .initial [.add converterB, .find typeU none]).typeConverters
      = [converterB, converterF] ∧
    converterF.canConvert typeT = true ∧
    converterB.priority < converterF.priority ∧
    (findConverter (runOperations [factoryF] .initial [.add converterB, .find typeU none])
      [factoryF] typeT none).converter = some converterB :=
  ⟨rfl, rfl, by decide, rfl⟩

/-! ## The special case of C2: two converters registered with `addJsonTypeConverter` -/

/-- The place where `insertConverter` puts the new converter: every converter in front of it
has a higher priority. -/
theorem insertConverter_split (x : QJsonTypeConverter) (l : List QJsonTypeConverter) :
    ∃ l1 l2, insertConverter x l = l1 ++ x :: l2 ∧ l = l1 ++ l2 ∧
      ∀ c ∈ l1, x.priority < c.priority := by
  induction l with
  | nil => exact ⟨[], [], rfl, rfl, by simp⟩
  | cons y rest ih =>
    simp only [insertConverter]
    split
    · exact ⟨[], y :: rest, rfl, rfl, by simp⟩
    · rename_i hy
      obtain ⟨l1, l2, h1, h2, h3⟩ := ih
      refine ⟨y :: l1, l2, by simp [h1], by simp [h2], ?_⟩
      intro c hc
      rcases List.mem_cons.mp hc with rfl | hc
      · omega
      · exact h3 c hc

theorem insertConverter_append (x : QJsonTypeConverter) (l1 r : List QJsonTypeConverter) :
    (∃ c ∈ l1, c.priority ≤ x.priority) ∧
        (∃ l1', insertConverter x (l1 ++ r) = l1' ++ r ∧ ∀ c ∈ l1', c = x ∨ c ∈ l1) ∨
      insertConverter x (l1 ++ r) = l1 ++ insertConverter x r := by
  induction l1 with
  | nil => exact Or.inr rfl
  | cons y rest ih =>
    simp only [List.cons_append, insertConverter]
    split
    · rename_i hy
      refine Or.inl ⟨⟨y, List.mem_cons_self _ _, hy⟩, x :: y :: rest, rfl, ?_⟩
      intro c hc
      rcases List.mem_cons.mp hc with rfl | hc
      · exact Or.inl rfl
      · exact Or.inr hc
    · rcases ih with ⟨⟨c, hc, hle⟩, l1', h1, h2⟩ | h
      · refine Or.inl ⟨⟨c, List.mem_cons_of_mem _ hc, hle⟩, y :: l1', by simp [h1], ?_⟩
        intro c' hc'
        rcases List.mem_cons.mp hc' with rfl | hc'
        · exact Or.inr (List.mem_cons_self _ _)
        · exact (h2 c' hc').imp id (List.mem_cons_of_mem _)
      · exact Or.inr (congrArg (fun l => y :: l) h)

theorem findInFactories_converter_mem (d : QJsonSerializerPrivate) (t : Nat)
    (vt : Option JsonType) (facs : List QJsonTypeConverterFactory) (idx : Nat)
    (c : QJsonTypeConverter) (h : (findInFactories d t vt facs idx).converter = some c) :
    ∃ f ∈ facs, f.createConverter = some c := by
  induction facs generalizing idx with
  | nil => simp [findInFactories] at h
  | cons f rest ih =>
    simp only [findInFactories] at h
    split at h
    · cases hc : f.createConverter with
      | some c' =>
        simp only [hc, Option.some.injEq] at h
        exact ⟨f, List.mem_cons_self _ _, by rw [hc, h]⟩
      | none =>
        simp only [hc] at h
        obtain ⟨g, hg, hgc⟩ := ih (idx + 1) h
        exact ⟨g, List.mem_cons_of_mem _ hg, hgc⟩
    · obtain ⟨g, hg, hgc⟩ := ih (idx + 1) h
      exact ⟨g, List.mem_cons_of_mem _ hg, hgc⟩

theorem pairInvariant_add (a : QJsonTypeConverter) (t : Nat) (d : QJsonSerializerPrivate)
    (x : QJsonTypeConverter) (h : PairInvariant a t d) :
    PairInvariant a t (addJsonTypeConverter d x) := by
  intro hmem
  refine ⟨?_, by simp [addJsonTypeConverter]⟩
  simp only [addJsonTypeConverter] at hmem ⊢
  by_cases hxa : x = a
  · subst hxa
    obtain ⟨l1, l2, h1, -, h3⟩ := insertConverter_split x d.typeConverters
    exact ⟨l1, l2, h1, fun c hc => le_of_lt (h3 c hc)⟩
  · have hin : a ∈ d.typeConverters := by
      rcases (mem_insertConverter x a d.typeConverters).mp hmem with h' | h'
      · exact absurd h'.symm hxa
      · exact h'
    obtain ⟨⟨m1, m2, hm, hge⟩, -⟩ := h hin
    rw [hm]
    rcases insertConverter_append x m1 (a :: m2) with ⟨⟨c, hc, hle⟩, l1', h1, h2⟩ | h'
    · refine ⟨l1', m2, h1, ?_⟩
      intro c' hc'
      rcases h2 c' hc' with rfl | hc'
      · exact le_trans (hge c hc) hle
      · exact hge c' hc'
    · rw [h']
      simp only [insertConverter]
      split
      · rename_i hax
        refine ⟨m1 ++ [x], m2, by simp, ?_⟩
        intro c hc
        rcases List.mem_append.mp hc with hc | hc
        · exact hge c hc
        · simp only [List.mem_singleton] at hc
          subst hc
          exact hax
      · exact ⟨m1, insertConverter x m2, rfl, hge⟩

theorem pairInvariant_find (a : QJsonTypeConverter) (t : Nat) (d : QJsonSerializerPrivate)
    (facs : List QJsonTypeConverterFactory) (t' : Nat) (vt : Option JsonType)
    (ha : a.canConvert t = true) (hfac : ∀ f ∈ facs, f.createConverter ≠ some a)
    (h : PairInvariant a t d) :
    PairInvariant a t (findConverter d facs t' vt).state := by
  rcases findConverter_cases d facs t' vt with ⟨c, -, heq⟩ | ⟨-, c, hfind, heq⟩ | ⟨-, hnone, heq⟩
  · rw [heq]
    exact h
  · rw [heq]
    intro hmem
    have hmem' : a ∈ d.typeConverters := by cases vt <;> exact hmem
    obtain ⟨hg, hc⟩ := h hmem'
    cases vt with
    | some k => exact ⟨hg, hc⟩
    | none =>
      refine ⟨hg, ?_⟩
      intro c' hc'
      simp only [cacheConverter, cacheInsert] at hc' ⊢
      by_cases ht : t = t'
      · subst ht
        simp only [if_true, Option.some.injEq] at hc'
        subst hc'
        simpa [acceptsKind] using hfind
      · simp only [ht, if_false] at hc'
        exact hc c' hc'
  · rw [heq]
    rcases findInFactories_cases d t' vt facs 0 with ⟨-, hs⟩ | ⟨c, hconv, hs⟩
    · rw [hs]
      exact h
    · rw [hs]
      obtain ⟨f, hf, hfc⟩ := findInFactories_converter_mem d t' vt facs 0 c hconv
      have hca : c ≠ a := fun e => hfac f hf (by rw [hfc, e])
      intro hmem
      have hmem' : a ∈ d.typeConverters := by
        have : a ∈ d.typeConverters ++ [c] := by cases vt <;> exact hmem
        rcases List.mem_append.mp this with h' | h'
        · exact h'
        · simp only [List.mem_singleton] at h'
          exact absurd h'.symm hca
      obtain ⟨⟨l1, l2, hl, hge⟩, hc⟩ := h hmem'
      have hlist : (cacheConverter { d with typeConverters := d.typeConverters ++ [c] } t' vt c).typeConverters
          = d.typeConverters ++ [c] := by cases vt <;> rfl
      have hsome : ∀ x, d.typeConverters.find? (fun c => c.canConvert t) = some x →
          (d.typeConverters ++ [c]).find? (fun c => c.canConvert t) = some x := by
        intro x hx
        simp [List.find?_append, hx]
      refine ⟨⟨l1, l2 ++ [c], by rw [hlist, hl]; simp, hge⟩, ?_⟩
      intro c' hc'
      rw [hlist]
      apply hsome
      apply hc
      cases vt with
      | some k => exact hc'
      | none =>
        simp only [cacheConverter, cacheInsert] at hc'
        by_cases ht : t = t'
        · subst ht
          have := List.find?_eq_none.mp hnone a hmem'
          simp [acceptsKind, ha] at this
        · simpa [ht] using hc'

theorem pairInvariant_run (a : QJsonTypeConverter) (t : Nat)
    (facs : List QJsonTypeConverterFactory) (ha : a.canConvert t = true)
    (hfac : ∀ f ∈ facs, f.createConverter ≠ some a) (ops : List Operation)
    (d : QJsonSerializerPrivate) (h : PairInvariant a t d) :
    PairInvariant a t (runOperations facs d ops) := by
  induction ops generalizing d with
  | nil => exact h
  | cons op rest ih =>
    simp only [runOperations, List.foldl_cons]
    apply ih
    cases op with
    | add x => exact pairInvariant_add a t d x h
    | find t' vt => exact pairInvariant_find a t d facs t' vt ha hfac h

/-- The special case of C2 holds in the code: let `a` and `b` convert `t`, `b` having the lower
priority, let no factory create `a`, and let the state be reached from a fresh serializer by
registrations and resolutions in any order.  If `a` is in the converter list and every
converter of the list that converts `t` is `a` or `b`, the serialize-direction resolution of `t`
returns `a`. -/
theorem serialize_priority_pair (facs : List QJsonTypeConverterFactory)
    (a b : QJsonTypeConverter) (t : Nat) (ops : List Operation)
    (ha : a.canConvert t = true) (hprio : b.priority < a.priority)
    (hfac : ∀ f ∈ facs, f.createConverter ≠ some a)
    (hmem : a ∈ (runOperations facs .initial ops).typeConverters)
    (honly : ∀ c ∈ (runOperations facs .initial ops).typeConverters,
      c.canConvert t = true → c = a ∨ c = b) :
    (findConverter (runOperations facs .initial ops) facs t none).converter = some a := by
  have hinv : PairInvariant a t (runOperations facs .initial ops) :=
    pairInvariant_run a t facs ha hfac ops .initial (by
      intro h
      simp [QJsonSerializerPrivate.initial] at h)
  obtain ⟨⟨l1, l2, hl, hge⟩, hcache⟩ := hinv hmem
  have hfirst : (runOperations facs .initial ops).typeConverters.find?
      (fun c => c.canConvert t) = some a := by
    rw [hl, List.find?_append]
    cases hf : l1.find? (fun c => c.canConvert t) with
    | none => simp [ha]
    | some x =>
      have hx : x ∈ l1 := List.mem_of_find?_eq_some hf
      have hxt : x.canConvert t = true := by simpa using List.find?_some hf
      rcases honly x (by rw [hl]; exact List.mem_append_left _ hx) hxt with rfl | rfl
      · rfl
      · have := hge x hx
        omega
  rcases findConverter_cases (runOperations facs .initial ops) facs t none with
    ⟨c, hc, heq⟩ | ⟨-, c, hfind, heq⟩ | ⟨-, hnone, -⟩
  · rw [heq]
    simp only [cachedConverter] at hc
    rw [hcache c hc] at hfirst
    exact hfirst
  · rw [heq]
    simp only [acceptsKind, Bool.true_and] at hfind
    rw [hfirst] at hfind
    exact hfind.symm
  · simp only [acceptsKind, Bool.true_and] at hnone
    rw [hfirst] at hnone
    cases hnone

/-! ## C3: priority in the deserialize direction -/

/-- C3, the code at a failing input: `A` (priority 10, accepts objects) and `B` (priority 5,
accepts objects and strings) both convert `typeT` and are registered, the list being `[A, B]`.
The resolution of `typeT` for a JSON object returns `A`; but after a resolution of `typeT` for
a JSON string, which caches `B`, the resolution of `typeT` for a JSON object returns `B` from
the cache, although `A` accepts objects, converts `typeT` and has the higher priority. -/
theorem deserialize_priority_failing_input :
    (runOperations [] .initial [.add converterA, .add converterB]).typeConverters
      = [converterA, converterB] ∧
    (findConverter (runOperations [] .initial [.add converterA, .add converterB])
      [] typeT (some .Object)).converter = some converterA ∧
    (findConverter
      (runOperations [] .initial [.add converterA, .add converterB, .find typeT (some .String)])
      [] typeT (some .Object)).converter = some converterB ∧
    converterA.canConvert typeT = true ∧
    acceptsKind converterA.jsonTypes (some .Object) = true ∧
    converterB.priority < converterA.priority :=
  ⟨rfl, rfl, rfl, rfl, rfl, by decide⟩

/-! ## C4: cache correctness -/

/-- C4 as stated fails: `factoryNull` matches `typeU` and its `createConverter` returns a null
pointer, so it creates no converter it could disagree with; two resolutions of `typeU` in a row
call its `createConverter` twice. -/
theorem cache_correctness_counterexample :
    factoryNull.canConvert typeU = true ∧ factoryNull.createConverter = none ∧
    (findConverter .initial [factoryNull] typeU none).created = [0] ∧
    (findConverter (findConverter .initial [factoryNull] typeU none).state
      [factoryNull] typeU none).created = [0] ∧
    createLog [factoryNull] .initial [.find typeU none, .find typeU none]
      = [(0, typeU), (0, typeU)] :=
  ⟨rfl, rfl, rfl, rfl, rfl⟩

/-- C4, amended: once `findConverter` has resolved type `t` (in the serialize direction, or for
the JSON kind `k`) to a converter `c` that accepts `k`, then after any sequence of resolutions
that contains no registration and no resolution of `t` for a JSON kind other than `k`,
`findConverter` for `t` in the same direction and with the same kind returns `c`, calls no
`createConverter` and leaves the state unchanged.  And in a sequential run from any state, if
every factory's `createConverter` returns a converter that agrees with the factory on
`canConvert` and `jsonTypes`, each factory's `createConverter` is called at most once per
type: no pair of a factory index and a type occurs twice in the log of the calls. -/
theorem cache_correctness (facs : List QJsonTypeConverterFactory) :
    (∀ (d : QJsonSerializerPrivate) (t : Nat) (vt : Option JsonType) (c : QJsonTypeConverter)
      (ops : List Operation),
      (findConverter d facs t vt).converter = some c →
      acceptsKind c.jsonTypes vt = true →
      (∀ op ∈ ops, keepsResolution t vt op = true) →
      findConverter (runOperations facs (findConverter d facs t vt).state ops) facs t vt =
        { converter := some c
          state := runOperations facs (findConverter d facs t vt).state ops
          created := [] }) ∧
    ((∀ f ∈ facs, ∃ c, f.createConverter = some c ∧ c.canConvert = f.canConvert ∧
        c.jsonTypes = f.jsonTypes) →
      ∀ (d : QJsonSerializerPrivate) (ops : List Operation), (createLog facs d ops).Nodup) := by
  constructor
  · intro d t vt c ops hres hacc hops
    apply findConverter_of_cached
    exact cachedConverter_runOperations facs t vt c ops _
      (cachedConverter_after_find d facs t vt c hres hacc) hops
  · intro hfacs d ops
    have := createLog_nodup facs hfacs ops d [] (by simp) List.nodup_nil
    simpa only [List.nil_append] using this

/-- Witness for the amended C4: with the factory `factoryF`, the serialize-direction resolution
of `typeU` creates `F`; after a serialize-direction resolution of `typeT` and a resolution of
`typeU` for a JSON object, the serialize-direction resolution of `typeU` returns `F` again. -/
theorem cache_correctness_witness :
    findConverter
        (runOperations [factoryF] (findConverter .initial [factoryF] typeU none).state
          [.find typeT none, .find typeU (some .Object)]) [factoryF] typeU none =
      { converter := some converterF
        state := runOperations [factoryF] (findConverter .initial [factoryF] typeU none).state
          [.find typeT none, .find typeU (some .Object)]
        created := [] } ∧
    ∀ (d : QJsonSerializerPrivate) (ops : List Operation), (createLog [factoryF] d ops).Nodup :=
  ⟨(cache_correctness [factoryF]).1 .initial typeU none converterF
      [.find typeT none, .find typeU (some .Object)] rfl rfl (by decide),
    (cache_correctness [factoryF]).2 (by
      intro f hf
      simp only [List.mem_singleton] at hf
      subst hf
      exact ⟨converterF, rfl, rfl, rfl⟩)⟩

/-! ## Lemmas on 32-bit integers -/

theorem toUInt32_lt (x : Int) : toUInt32 x < 4294967296 := by
  unfold toUInt32
  omega

theorem toUInt32_lt_pow (x : Int) : toUInt32 x < 2 ^ 32 := toUInt32_lt x

theorem and_lt_32 (a b : Int) : toUInt32 a &&& toUInt32 b < 4294967296 :=
  Nat.and_lt_two_pow (n := 32) _ (toUInt32_lt_pow b)

theorem or_lt_32 (a b : Int) : toUInt32 a ||| toUInt32 b < 4294967296 :=
  Nat.or_lt_two_pow (n := 32) (toUInt32_lt_pow a) (toUInt32_lt_pow b)

theorem toUInt32_toInt32 (n : Nat) (h : n < 4294967296) : toUInt32 (toInt32 n) = n := by
  unfold toUInt32 toInt32
  split <;> omega

theorem toInt32_toUInt32 (x : Int) (h : isInt32 x) : toInt32 (toUInt32 x) = x := by
  unfold isInt32 at h
  unfold toUInt32 toInt32
  split <;> omega

theorem isInt32_toInt32 (n : Nat) (h : n < 4294967296) : isInt32 (toInt32 n) := by
  unfold isInt32 toInt32
  split <;> omega

theorem toUInt32_injective (x y : Int) (hx : isInt32 x) (hy : isInt32 y)
    (h : toUInt32 x = toUInt32 y) : x = y := by
  rw [← toInt32_toUInt32 x hx, ← toInt32_toUInt32 y hy, h]

theorem toUInt32_and32 (a b : Int) : toUInt32 (and32 a b) = toUInt32 a &&& toUInt32 b := by
  unfold and32
  apply toUInt32_toInt32
  exact and_lt_32 a b

theorem toUInt32_or32 (a b : Int) : toUInt32 (or32 a b) = toUInt32 a ||| toUInt32 b := by
  unfold or32
  apply toUInt32_toInt32
  exact or_lt_32 a b

theorem toUInt32_not32 (a : Int) : toUInt32 (not32 a) = 4294967295 ^^^ toUInt32 a := by
  unfold not32
  apply toUInt32_toInt32
  exact Nat.xor_lt_two_pow (n := 32) (by decide) (toUInt32_lt_pow a)

theorem isInt32_and32 (a b : Int) : isInt32 (and32 a b) :=
  isInt32_toInt32 _ (and_lt_32 a b)

theorem isInt32_or32 (a b : Int) : isInt32 (or32 a b) :=
  isInt32_toInt32 _ (or_lt_32 a b)

theorem testBit_toUInt32_of_le (x : Int) (i : Nat) (hi : 32 ≤ i) :
    (toUInt32 x).testBit i = false := by
  apply Nat.testBit_lt_two_pow
  calc toUInt32 x < 2 ^ 32 := toUInt32_lt x
    _ ≤ 2 ^ i := Nat.pow_le_pow_right (by decide) hi

theorem testBit_clear (w q i : Nat) (hi : i < 32) :
    (w &&& (4294967295 ^^^ q)).testBit i = (w.testBit i && !q.testBit i) := by
  have h : (4294967295 : Nat).testBit i = true := by
    have := Nat.testBit_two_pow_sub_one 32 i
    simpa [hi] using this
  simp [Nat.testBit_and, Nat.testBit_xor, h]

/-! ## Lemmas on the text of key lists -/

theorem joinKeys_cons (name : String) (ns : List String) (hns : ∀ n ∈ ns, n ≠ "") :
    (if (joinKeys ns).isEmpty then name else name ++ "|" ++ joinKeys ns) = joinKeys (name :: ns) := by
  cases ns with
  | nil =>
    have h : ("" : String).isEmpty = true := rfl
    simp [joinKeys, h]
  | cons m rest =>
    have hne : joinKeys (m :: rest) ≠ "" := by
      cases rest with
      | nil => simpa [joinKeys] using hns m (List.mem_cons_self _ _)
      | cons m' rest' =>
        intro h
        have := congrArg String.data h
        simp [joinKeys] at this
    have : (joinKeys (m :: rest)).isEmpty = false := by
      cases hb : (joinKeys (m :: rest)).isEmpty
      · rfl
      · exact absurd ((String.isEmpty_iff _).mp hb) hne
    simp [this, joinKeys]

theorem valueToKeysLoop_eq (value : Int) (l : List (String × Int)) (v : Int) (ns : List String)
    (hl : ∀ k ∈ l, k.1 ≠ "") (hns : ∀ n ∈ ns, n ≠ "") :
    QMetaEnum.valueToKeysLoop value l v (joinKeys ns) =
      joinKeys (((selectedKeys value l v).map Prod.fst).reverse ++ ns) := by
  induction l generalizing v ns with
  | nil => simp [QMetaEnum.valueToKeysLoop, selectedKeys]
  | cons x rest ih =>
    obtain ⟨name, k⟩ := x
    have hrest : ∀ k ∈ rest, k.1 ≠ "" := fun k hk => hl k (List.mem_cons_of_mem _ hk)
    simp only [QMetaEnum.valueToKeysLoop, selectedKeys]
    split
    · rw [joinKeys_cons name ns hns, ih _ (name :: ns) hrest]
      · simp
      · intro n hn
        rcases List.mem_cons.mp hn with rfl | hn
        · exact hl (n, k) (List.mem_cons_self _ _)
        · exact hns n hn
    · exact ih v ns hrest hns

theorem splitOn_no_sep (sep : Char) (a : List Char) (ha : ∀ c ∈ a, c ≠ sep) :
    splitOn sep a = [a] := by
  induction a with
  | nil => rfl
  | cons c rest ih =>
    have hc : c ≠ sep := ha c (List.mem_cons_self _ _)
    simp [splitOn, hc, ih (fun x hx => ha x (List.mem_cons_of_mem _ hx))]

theorem splitOn_append (sep : Char) (a b : List Char) (ha : ∀ c ∈ a, c ≠ sep) :
    splitOn sep (a ++ sep :: b) = a :: splitOn sep b := by
  induction a with
  | nil => simp [splitOn]
  | cons c rest ih =>
    have hc : c ≠ sep := ha c (List.mem_cons_self _ _)
    simp [splitOn, hc, ih (fun x hx => ha x (List.mem_cons_of_mem _ hx))]

theorem splitOn_joinKeys (ns : List String) (hne : ns ≠ [])
    (hns : ∀ n ∈ ns, ∀ c ∈ n.toList, c ≠ '|') :
    splitOn '|' (joinKeys ns).toList = ns.map String.toList := by
  induction ns with
  | nil => exact absurd rfl hne
  | cons n rest ih =>
    cases rest with
    | nil => simpa [joinKeys] using splitOn_no_sep '|' n.toList (hns n (List.mem_cons_self _ _))
    | cons m rest' =>
      have hsplit := splitOn_append '|' n.toList (joinKeys (m :: rest')).toList
        (hns n (List.mem_cons_self _ _))
      have htail := ih (by simp) (fun x hx => hns x (List.mem_cons_of_mem _ hx))
      simp only [joinKeys, String.toList, String.data_append] at hsplit htail ⊢
      simp only [List.map_cons] at htail ⊢
      rw [← htail]
      simpa using hsplit

theorem trimmed_eq_self (a : List Char) (ha : ∀ c ∈ a, isSpace c = false) : trimmed a = a := by
  have hdrop : ∀ l : List Char, (∀ c ∈ l, isSpace c = false) → l.dropWhile isSpace = l := by
    intro l hl
    cases l with
    | nil => rfl
    | cons c rest => simp [List.dropWhile, hl c (List.mem_cons_self _ _)]
  unfold trimmed
  rw [hdrop a ha, hdrop a.reverse (fun c hc => ha c (List.mem_reverse.mp hc)), List.reverse_reverse]

theorem isIdentifierChar_ne (c : Char) (h : isIdentifierChar c = true) :
    c ≠ '|' ∧ c ≠ ':' ∧ c ≠ '\x00' ∧ isSpace c = false := by
  refine ⟨?_, ?_, ?_, ?_⟩
  · rintro rfl
    exact absurd h (by decide)
  · rintro rfl
    exact absurd h (by decide)
  · rintro rfl
    exact absurd h (by decide)
  · cases hs : isSpace c with
    | false => rfl
    | true =>
      simp only [isSpace, Bool.or_eq_true, beq_iff_eq] at hs
      rcases hs with ((((rfl | rfl) | rfl) | rfl) | rfl) | rfl <;> exact absurd h (by decide)

/-- A text without NUL character is its own C string. -/
theorem qUtf8Printable_eq_self (text : String) (h : ∀ c ∈ text.toList, c ≠ '\x00') :
    qUtf8Printable text = text := by
  unfold qUtf8Printable
  have : text.toList.takeWhile (fun c => c != '\x00') = text.toList := by
    apply List.takeWhile_eq_self_iff.mpr
    intro c hc
    simpa using h c hc
  rw [this]
  rfl

theorem dropWhile_append_all (p : Char → Bool) (l1 l2 : List Char)
    (h : ∀ x ∈ l1, p x = true) : (l1 ++ l2).dropWhile p = l2.dropWhile p := by
  induction l1 with
  | nil => rfl
  | cons x rest ih =>
    simp only [List.cons_append, List.dropWhile_cons, h x (List.mem_cons_self _ _), if_true]
    exact ih (fun y hy => h y (List.mem_cons_of_mem _ hy))

theorem takeWhile_append_all (p : Char → Bool) (l1 l2 : List Char)
    (h : ∀ x ∈ l1, p x = true) : (l1 ++ l2).takeWhile p = l1 ++ l2.takeWhile p := by
  induction l1 with
  | nil => rfl
  | cons x rest ih =>
    simp only [List.cons_append, List.takeWhile_cons, h x (List.mem_cons_self _ _), if_true]
    rw [ih (fun y hy => h y (List.mem_cons_of_mem _ hy))]

theorem dropWhile_head (p : Char → Bool) (l : List Char) (x : Char) (r : List Char)
    (h : l.dropWhile p = x :: r) : p x = false := by
  induction l with
  | nil => simp at h
  | cons y rest ih =>
    simp only [List.dropWhile_cons] at h
    split at h
    · exact ih h
    · rename_i hy
      simp only [List.cons.injEq] at h
      rw [← h.1]
      simpa using hy

/-- A text without `:` has no scope. -/
theorem splitScope_plain (key : List Char) (h : ∀ c ∈ key, c ≠ ':') :
    splitScope key = ([], key) := by
  unfold splitScope
  have : key.reverse.dropWhile (fun c => c != ':') = [] := by
    rw [List.dropWhile_eq_nil_iff]
    intro c hc
    simpa using h c (List.mem_reverse.mp hc)
  rw [this]

/-- The scope and the key of a qualified text. -/
theorem splitScope_qualified (scope name : List Char) (h : ∀ c ∈ name, c ≠ ':') :
    splitScope (scope ++ ':' :: ':' :: name) = (scope, name) := by
  have hall : ∀ c ∈ name.reverse, (fun c => c != ':') c = true := by
    intro c hc
    simpa using h c (List.mem_reverse.mp hc)
  have hrev : (scope ++ ':' :: ':' :: name).reverse = name.reverse ++ ':' :: ':' :: scope.reverse := by
    simp
  unfold splitScope
  rw [hrev, dropWhile_append_all _ _ _ hall, takeWhile_append_all _ _ _ hall]
  simp

/-- What `splitScope` returns: no scope and the whole text, or the two sides of the last `::`,
the key side without `:`. -/
theorem splitScope_spec (key : List Char) :
    (splitScope key = ([], key)) ∨
      (key = (splitScope key).1 ++ ':' :: ':' :: (splitScope key).2 ∧
        ∀ c ∈ (splitScope key).2, c ≠ ':') := by
  unfold splitScope
  cases hd : key.reverse.dropWhile (fun c => c != ':') with
  | nil => exact Or.inl rfl
  | cons x rest =>
    cases rest with
    | nil => exact Or.inl rfl
    | cons b scope =>
      by_cases hb : b = ':'
      · right
        have hx : x = ':' := by simpa using dropWhile_head _ _ x _ hd
        have hsplit := List.takeWhile_append_dropWhile (fun c => c != ':') key.reverse
        rw [hd, hx, hb] at hsplit
        simp only [hb, if_true]
        constructor
        · have := congrArg List.reverse hsplit
          simp only [List.reverse_reverse, List.reverse_append, List.reverse_cons,
            List.append_assoc, List.singleton_append, List.nil_append] at this
          conv_lhs => rw [← this]
          simp
        · intro c hc
          have := List.mem_takeWhile_imp (List.mem_reverse.mp hc)
          simpa using this
      · simp [hb]

theorem eq_of_mem_of_nodup_fst (l : List (String × Int)) (hnd : (l.map Prod.fst).Nodup)
    (x y : String × Int) (hx : x ∈ l) (hy : y ∈ l) (h : x.1 = y.1) : x = y := by
  induction l with
  | nil => simp at hx
  | cons z rest ih =>
    simp only [List.map_cons, List.nodup_cons, List.mem_map, not_exists, not_and] at hnd
    rcases List.mem_cons.mp hx with rfl | hx' <;> rcases List.mem_cons.mp hy with rfl | hy'
    · rfl
    · exact absurd h.symm (hnd.1 y hy')
    · exact absurd h (hnd.1 x hx')
    · exact ih hnd.2 hx' hy'

theorem lookupName_of_mem (e : QMetaEnum) (hnd : (e.keys.map Prod.fst).Nodup) (x : String × Int)
    (hx : x ∈ e.keys) : e.lookupName x.1 = some x.2 := by
  unfold QMetaEnum.lookupName
  cases hf : e.keys.reverse.find? (fun k => k.1 == x.1) with
  | none =>
    have := List.find?_eq_none.mp hf x (List.mem_reverse.mpr hx)
    simp at this
  | some y =>
    have hy : y ∈ e.keys := List.mem_reverse.mp (List.mem_of_find?_eq_some hf)
    have hname : y.1 = x.1 := by simpa using List.find?_some hf
    rw [eq_of_mem_of_nodup_fst e.keys hnd y x hy hx hname]

theorem lookupName_some_mem (e : QMetaEnum) (name : String) (v : Int)
    (h : e.lookupName name = some v) : (name, v) ∈ e.keys := by
  unfold QMetaEnum.lookupName at h
  cases hf : e.keys.reverse.find? (fun k => k.1 == name) with
  | none => simp [hf] at h
  | some y =>
    simp only [hf, Option.some.injEq] at h
    have hy : y ∈ e.keys := List.mem_reverse.mp (List.mem_of_find?_eq_some hf)
    have hname : y.1 = name := by simpa using List.find?_some hf
    rw [← hname, ← h]
    exact hy

/-- The characters of a declared key name are no `:`. -/
theorem wellFormed_no_colon (e : QMetaEnum) (hwf : e.WellFormed) (k : String × Int)
    (hk : k ∈ e.keys) : ∀ c ∈ k.1.toList, c ≠ ':' :=
  fun c hc => (isIdentifierChar_ne c ((hwf.2 k hk).2.1 c hc)).2.1

/-- The key search finds a value exactly for the spellings of a declared key, and the value is
that of the key. -/
theorem findKey_iff (e : QMetaEnum) (hwf : e.WellFormed) (text : List Char) (v : Int) :
    e.findKey (String.mk text) = some v ↔ ∃ k ∈ e.keys, e.Spells text k.1 ∧ k.2 = v := by
  constructor
  · intro h
    unfold QMetaEnum.findKey at h
    simp only [String.toList] at h
    split at h
    · rename_i hcond
      have hmem := lookupName_some_mem e _ v h
      refine ⟨_, hmem, ?_, rfl⟩
      rcases splitScope_spec text with hplain | ⟨hq, -⟩
      · rw [hplain]
        exact Or.inl rfl
      · rcases hcond with hc | hc
        · right; left
          rw [hc] at hq
          simpa using hq
        · right; right
          rw [hc] at hq
          exact hq
    · cases h
  · rintro ⟨k, hk, hspell, rfl⟩
    have hcolon := wellFormed_no_colon e hwf k hk
    have hfind : e.lookupName (String.mk k.1.toList) = some k.2 :=
      lookupName_of_mem e hwf.1 k hk
    unfold QMetaEnum.findKey
    simp only [String.toList]
    rcases hspell with h | h | h
    · rw [h, splitScope_plain _ hcolon]
      simpa using hfind
    · have := splitScope_qualified [] k.1.toList hcolon
      simp only [List.nil_append] at this
      rw [h, this]
      simpa using hfind
    · rw [h, splitScope_qualified _ _ hcolon]
      simpa using hfind

theorem findKey_of_mem (e : QMetaEnum) (hwf : e.WellFormed) (x : String × Int)
    (hx : x ∈ e.keys) : e.findKey x.1 = some x.2 :=
  (findKey_iff e hwf x.1.toList x.2).mpr ⟨x, hx, Or.inl rfl, rfl⟩

theorem findKey_isSome_iff (e : QMetaEnum) (hwf : e.WellFormed) (text : List Char) :
    (e.findKey (String.mk text)).isSome = true ↔ e.IsKey text := by
  rw [Option.isSome_iff_exists]
  unfold QMetaEnum.IsKey
  constructor
  · rintro ⟨v, hv⟩
    obtain ⟨k, hk, hs, -⟩ := (findKey_iff e hwf text v).mp hv
    exact ⟨k, hk, hs⟩
  · rintro ⟨k, hk, hs⟩
    exact ⟨k.2, (findKey_iff e hwf text k.2).mpr ⟨k, hk, hs, rfl⟩⟩

theorem keysToValueLoop_of_mem (e : QMetaEnum) (hwf : e.WellFormed) (sel : List (String × Int))
    (hsel : ∀ x ∈ sel, x ∈ e.keys) (acc : Int) (ok : Bool) :
    e.keysToValueLoop (sel.map (fun x => x.1.toList)) (acc, ok) =
      (sel.foldl (fun a x => or32 a x.2) acc, ok) := by
  induction sel generalizing acc with
  | nil => rfl
  | cons x rest ih =>
    have hx := hsel x (List.mem_cons_self _ _)
    have htrim : trimmed x.1.toList = x.1.toList :=
      trimmed_eq_self _ (fun c hc => (isIdentifierChar_ne c ((hwf.2 x hx).2.1 c hc)).2.2.2)
    have hfind : e.findKey (String.mk (trimmed x.1.toList)) = some x.2 := by
      rw [htrim]
      exact findKey_of_mem e hwf x hx
    simp only [List.map_cons, QMetaEnum.keysToValueLoop, hfind, List.foldl_cons]
    exact ih (fun y hy => hsel y (List.mem_cons_of_mem _ hy)) _

/-! ## Lemmas on the key selection of `valueToKeys` -/

theorem and32_eq_iff (v k : Int) (hk : isInt32 k) :
    and32 v k = k ↔ toUInt32 v &&& toUInt32 k = toUInt32 k := by
  constructor
  · intro h
    have := congrArg toUInt32 h
    rwa [toUInt32_and32] at this
  · intro h
    unfold and32
    rw [h, toInt32_toUInt32 k hk]

theorem toUInt32_zero : toUInt32 0 = 0 := rfl

theorem testBit_foldl_or32 (sel : List (String × Int)) (acc : Int) (i : Nat) :
    (toUInt32 (sel.foldl (fun a x => or32 a x.2) acc)).testBit i =
      ((toUInt32 acc).testBit i || sel.any (fun x => (toUInt32 x.2).testBit i)) := by
  induction sel generalizing acc with
  | nil => simp
  | cons x rest ih =>
    simp only [List.foldl_cons, ih, toUInt32_or32, Nat.testBit_or, List.any_cons, Bool.or_assoc]

theorem isInt32_foldl_or32 (sel : List (String × Int)) (acc : Int) (hacc : isInt32 acc) :
    isInt32 (sel.foldl (fun a x => or32 a x.2) acc) := by
  induction sel generalizing acc with
  | nil => exact hacc
  | cons x rest ih => exact ih _ (isInt32_or32 _ _)

/-- Every selected key lies bitwise inside the value. -/
theorem selectedKeys_subset (value : Int) (l : List (String × Int))
    (hl : ∀ x ∈ l, isInt32 x.2) (v : Int)
    (hv : ∀ i, (toUInt32 v).testBit i = true → (toUInt32 value).testBit i = true) :
    ∀ x ∈ selectedKeys value l v, ∀ i, (toUInt32 x.2).testBit i = true →
      (toUInt32 value).testBit i = true := by
  induction l generalizing v with
  | nil => simp [selectedKeys]
  | cons y rest ih =>
    obtain ⟨name, k⟩ := y
    have hk : isInt32 k := hl (name, k) (List.mem_cons_self _ _)
    have hrest : ∀ x ∈ rest, isInt32 x.2 := fun x hx => hl x (List.mem_cons_of_mem _ hx)
    simp only [selectedKeys]
    split
    · rename_i hcond
      intro x hx i hbit
      rcases List.mem_cons.mp hx with rfl | hx
      · rcases hcond with ⟨-, hand⟩ | heq
        · have h := (and32_eq_iff v k hk).mp hand
          have : (toUInt32 v &&& toUInt32 k).testBit i = true := by rw [h]; exact hbit
          rw [Nat.testBit_and] at this
          exact hv i (by simp_all)
        · simp only at hbit
          rw [← heq]
          exact hbit
      · refine ih hrest (and32 v (not32 k)) ?_ x hx i hbit
        intro j hj
        rw [toUInt32_and32, toUInt32_not32, Nat.testBit_and] at hj
        exact hv j (by simp_all)
    · exact ih hrest v hv

/-- A single-bit key whose bit is still in what is left of the value gets that bit selected. -/
theorem selectedKeys_cover (value : Int) (l : List (String × Int))
    (hl : ∀ x ∈ l, isInt32 x.2) (v : Int) (s : String × Int) (hs : s ∈ l) (i : Nat)
    (hi : i < 32) (hbit : toUInt32 s.2 = 2 ^ i) (hv : (toUInt32 v).testBit i = true) :
    ∃ x ∈ selectedKeys value l v, (toUInt32 x.2).testBit i = true := by
  induction l generalizing v with
  | nil => simp at hs
  | cons y rest ih =>
    obtain ⟨name, k⟩ := y
    have hk : isInt32 k := hl (name, k) (List.mem_cons_self _ _)
    have hrest : ∀ x ∈ rest, isInt32 x.2 := fun x hx => hl x (List.mem_cons_of_mem _ hx)
    simp only [selectedKeys]
    split
    · by_cases hki : (toUInt32 k).testBit i = true
      · exact ⟨(name, k), List.mem_cons_self _ _, hki⟩
      · rcases List.mem_cons.mp hs with rfl | hs'
        · simp only at hbit
          rw [hbit, Nat.testBit_two_pow_self] at hki
          exact absurd rfl hki
        · have hv' : (toUInt32 (and32 v (not32 k))).testBit i = true := by
            rw [toUInt32_and32, toUInt32_not32, testBit_clear _ _ _ hi]
            simp_all
          obtain ⟨x, hx, hxi⟩ := ih hrest (and32 v (not32 k)) hs' hv'
          exact ⟨x, List.mem_cons_of_mem _ hx, hxi⟩
    · rename_i hcond
      rcases List.mem_cons.mp hs with rfl | hs'
      · exfalso
        apply hcond
        left
        simp only at hbit
        constructor
        · intro h0
          rw [h0, toUInt32_zero] at hbit
          have : 0 < 2 ^ i := Nat.two_pow_pos i
          omega
        · rw [and32_eq_iff v _ hk, hbit]
          apply Nat.eq_of_testBit_eq
          intro j
          rw [Nat.testBit_and, Nat.testBit_two_pow]
          by_cases hj : i = j
          · subst hj
            simp [hv]
          · simp [hj]
      · exact ih hrest v hs' hv

/-! ## Lemmas on `modf` and `toInt` -/

theorem modf_eq_zero_iff (d : Rat) : modf d = 0 ↔ d.den = 1 := by
  unfold modf
  constructor
  · intro h
    have hd : d = ((Int.tdiv d.num d.den : Int) : Rat) := sub_eq_zero.mp h
    rw [hd]
    exact Rat.intCast_den _
  · intro h
    rw [h]
    simp only [Nat.cast_one, Int.tdiv_one]
    rw [Rat.coe_int_num_of_den_eq_one h]
    exact sub_self d

theorem modf_eq_zero_iff_fract (d : Rat) : modf d = 0 ↔ Int.fract d = 0 := by
  rw [modf_eq_zero_iff, Rat.den_eq_one_iff]
  constructor
  · intro h
    rw [← h]
    exact Int.fract_intCast _
  · intro h
    have hz : d = ((⌊d⌋ : Int) : Rat) := by
      have := Int.self_sub_floor d
      rw [h] at this
      exact sub_eq_zero.mp this
    have hden : d.den = 1 := by
      rw [hz]
      exact Rat.intCast_den _
    exact Rat.coe_int_num_of_den_eq_one hden

theorem modf_intCast (v : Int) : modf (v : Rat) = 0 :=
  (modf_eq_zero_iff _).mpr (Rat.intCast_den v)

theorem toInt_intCast (v : Int) (hv : isInt32 v) : (QJsonValue.double (v : Rat)).toInt = v := by
  simp [QJsonValue.toInt, hv]

/-! ## Lemmas on enum round trips -/

theorem selectedKeys_mem (value : Int) (l : List (String × Int)) (v : Int) :
    ∀ x ∈ selectedKeys value l v, x ∈ l := by
  induction l generalizing v with
  | nil => simp [selectedKeys]
  | cons y rest ih =>
    obtain ⟨name, k⟩ := y
    simp only [selectedKeys]
    split
    · intro x hx
      rcases List.mem_cons.mp hx with rfl | hx
      · exact List.mem_cons_self _ _
      · exact List.mem_cons_of_mem _ (ih _ x hx)
    · intro x hx
      exact List.mem_cons_of_mem _ (ih _ x hx)

theorem findKey_empty (e : QMetaEnum) (hwf : e.WellFormed) : e.findKey "" = none := by
  cases h : e.findKey "" with
  | none => rfl
  | some v =>
    obtain ⟨k, hk, hs, -⟩ := (findKey_iff e hwf [] v).mp h
    have hne := (hwf.2 k hk).1
    rcases hs with hs | hs | hs
    · exact absurd (String.ext hs.symm) hne
    · cases hs
    · exact absurd hs (by simp)

theorem isInt32_of_represents (e : QMetaEnum) (hwf : e.WellFormed) (v : Int)
    (hrep : e.Represents v) : isInt32 v := by
  unfold QMetaEnum.Represents at hrep
  split at hrep
  · obtain ⟨S, -, rfl⟩ := hrep
    exact isInt32_foldl_or32 S 0 (by decide)
  · obtain ⟨k, hk, rfl⟩ := hrep
    exact (hwf.2 k hk).2.2

/-- For a flags enum and a union of single-bit keys, the text of `valueToKeys` is the names of
declared keys whose union is the value, joined by `|`; either no key is selected and the value is
`0`, or the text reads back as the value. -/
theorem keysToValue_valueToKeys (e : QMetaEnum) (hwf : e.WellFormed) (v : Int)
    (S : List (String × Int))
    (hS : ∀ s ∈ S, s ∈ e.keys ∧ ∃ i, i < 32 ∧ toUInt32 s.2 = 2 ^ i)
    (hv : v = S.foldl (fun acc s => or32 acc s.2) 0) :
    ∃ sel : List (String × Int), (∀ x ∈ sel, x ∈ e.keys) ∧
      e.valueToKeys v = joinKeys (sel.map Prod.fst) ∧
      sel.foldl (fun acc s => or32 acc s.2) 0 = v ∧
      ((sel = [] ∧ v = 0) ∨ e.keysToValue (e.valueToKeys v) = (v, true)) := by
  have hvr : isInt32 v := by rw [hv]; exact isInt32_foldl_or32 S 0 (by decide)
  have hkeys : ∀ x ∈ e.keys.reverse, isInt32 x.2 :=
    fun x hx => (hwf.2 x (List.mem_reverse.mp hx)).2.2
  have hmem : ∀ x ∈ selectedKeys v e.keys.reverse v, x ∈ e.keys :=
    fun x hx => List.mem_reverse.mp (selectedKeys_mem v _ v x hx)
  have htext : e.valueToKeys v =
      joinKeys ((selectedKeys v e.keys.reverse v).reverse.map Prod.fst) := by
    have := valueToKeysLoop_eq v e.keys.reverse v []
      (fun k hk => (hwf.2 k (List.mem_reverse.mp hk)).1) (by simp)
    simpa [QMetaEnum.valueToKeys, joinKeys, List.map_reverse] using this
  -- every bit of the value is a bit of a selected key
  have hcover : ∀ i, (toUInt32 v).testBit i = true →
      ∃ x ∈ selectedKeys v e.keys.reverse v, (toUInt32 x.2).testBit i = true := by
    intro i hi
    have hbits := testBit_foldl_or32 S 0 i
    rw [← hv, hi, toUInt32_zero, Nat.zero_testBit, Bool.false_or] at hbits
    obtain ⟨s, hs, hsi⟩ := List.any_eq_true.mp hbits.symm
    obtain ⟨hskeys, i', hi', hpow⟩ := hS s hs
    rw [hpow, Nat.testBit_two_pow] at hsi
    have hii : i' = i := by simpa using hsi
    subst hii
    exact selectedKeys_cover v e.keys.reverse hkeys v s (List.mem_reverse.mpr hskeys) i' hi' hpow hi
  -- the union of the selected keys is the value
  have hfold : (selectedKeys v e.keys.reverse v).reverse.foldl (fun acc s => or32 acc s.2) 0 =
      v := by
    apply toUInt32_injective _ v (isInt32_foldl_or32 _ 0 (by decide)) hvr
    apply Nat.eq_of_testBit_eq
    intro i
    rw [testBit_foldl_or32, toUInt32_zero, Nat.zero_testBit, Bool.false_or]
    cases hb : (toUInt32 v).testBit i
    · cases hany : ((selectedKeys v e.keys.reverse v).reverse).any
          (fun x => (toUInt32 x.2).testBit i)
      · rfl
      · obtain ⟨y, hy, hyi⟩ := List.any_eq_true.mp hany
        have := selectedKeys_subset v e.keys.reverse hkeys v (fun _ h => h) y
          (List.mem_reverse.mp hy) i hyi
        rw [hb] at this
        exact absurd this (by simp)
    · obtain ⟨y, hy, hyi⟩ := hcover i hb
      exact List.any_eq_true.mpr ⟨y, List.mem_reverse.mpr hy, hyi⟩
  refine ⟨(selectedKeys v e.keys.reverse v).reverse,
    fun x hx => hmem x (List.mem_reverse.mp hx), htext, hfold, ?_⟩
  cases hsel : selectedKeys v e.keys.reverse v with
  | nil =>
    left
    refine ⟨rfl, ?_⟩
    rw [hsel] at hfold
    exact hfold.symm
  | cons x rest =>
    right
    have hsplit : splitOn '|' (e.valueToKeys v).toList =
        ((selectedKeys v e.keys.reverse v).reverse).map (fun x => x.1.toList) := by
      rw [htext, splitOn_joinKeys]
      · simp
      · simp [hsel]
      · intro n hn c hc
        simp only [List.mem_map, List.mem_reverse] at hn
        obtain ⟨y, hy, rfl⟩ := hn
        exact (isIdentifierChar_ne c ((hwf.2 y (hmem y hy)).2.1 c hc)).1
    unfold QMetaEnum.keysToValue
    rw [hsplit, keysToValueLoop_of_mem e hwf _
      (fun y hy => hmem y (List.mem_reverse.mp hy)) 0 true, hfold]

/-! ## C7: enum round trip -/

theorem mem_joinKeys (ns : List String) (c : Char) (hc : c ∈ (joinKeys ns).toList) :
    c = '|' ∨ ∃ n ∈ ns, c ∈ n.toList := by
  induction ns with
  | nil => simp [joinKeys] at hc
  | cons n rest ih =>
    cases rest with
    | nil => exact Or.inr ⟨n, List.mem_cons_self _ _, by simpa [joinKeys] using hc⟩
    | cons m rest' =>
      simp only [joinKeys, String.toList, String.data_append, List.mem_append] at hc
      rcases hc with (hc | hc) | hc
      · exact Or.inr ⟨n, List.mem_cons_self _ _, hc⟩
      · left
        simpa using hc
      · rcases ih hc with h | ⟨x, hx, hcx⟩
        · exact Or.inl h
        · exact Or.inr ⟨x, List.mem_cons_of_mem _ hx, hcx⟩

/-- The text of declared key names joined by `|` has no NUL character: it is its own C
string. -/
theorem qUtf8Printable_joinKeys (e : QMetaEnum) (hwf : e.WellFormed) (sel : List (String × Int))
    (hsel : ∀ x ∈ sel, x ∈ e.keys) :
    qUtf8Printable (joinKeys (sel.map Prod.fst)) = joinKeys (sel.map Prod.fst) := by
  apply qUtf8Printable_eq_self
  intro c hc
  rcases mem_joinKeys _ c hc with rfl | ⟨n, hn, hcn⟩
  · decide
  · obtain ⟨x, hx, rfl⟩ := List.mem_map.mp hn
    exact (isIdentifierChar_ne c ((hwf.2 x (hsel x hx)).2.1 c hcn)).2.2.1

theorem or32_zero_left (k : Int) (hk : isInt32 k) : or32 0 k = k := by
  apply toUInt32_injective _ _ (isInt32_or32 0 k) hk
  rw [toUInt32_or32, toUInt32_zero, Nat.zero_or]

/-- C7: for every enum (key names pairwise distinct, not empty and made of identifier
characters; values in the range of `int`) and every `QVariant` whose integer value `v` the enum
can represent (a declared value for a non-flag enum; a bitwise union of declared single-bit key
values, `0` for the empty union, for a flags enum), `deserializeEnum` of `serializeEnum` of the
value is `v`, with `enumAsString` enabled or disabled; `deserializeEnum` does not read that
setting.  With `enumAsString` disabled the JSON is the number `v`; with `enumAsString` enabled
it is the string of the names of declared keys whose bitwise union is `v`, joined by `|`: one
name for an enum that is not a flags enum. -/
theorem enum_round_trip (metaEnum : QMetaEnum) (enumAsString : Bool) (value : QVariant)
    (hwf : metaEnum.WellFormed) (hrep : metaEnum.Represents value.toInt) :
    deserializeEnum metaEnum (serializeEnum enumAsString metaEnum value) =
      .ok (.num QMetaType.Int value.toInt) ∧
    serializeEnum false metaEnum value = .double value.toInt ∧
    ∃ sel : List (String × Int), (∀ k ∈ sel, k ∈ metaEnum.keys) ∧
      serializeEnum true metaEnum value = .string (joinKeys (sel.map Prod.fst)) ∧
      sel.foldl (fun acc k => or32 acc k.2) 0 = value.toInt ∧
      (metaEnum.isFlag = false → sel.length = 1) := by
  have hvr := isInt32_of_represents metaEnum hwf _ hrep
  -- the text written with `enumAsString` enabled, and how it reads back
  have htext : ∃ sel : List (String × Int), (∀ k ∈ sel, k ∈ metaEnum.keys) ∧
      serializeEnum true metaEnum value = .string (joinKeys (sel.map Prod.fst)) ∧
      sel.foldl (fun acc k => or32 acc k.2) 0 = value.toInt ∧
      (metaEnum.isFlag = false → sel.length = 1) ∧
      deserializeEnum metaEnum (.string (joinKeys (sel.map Prod.fst))) =
        .ok (.num QMetaType.Int value.toInt) := by
    cases hflag : metaEnum.isFlag with
    | true =>
      simp only [QMetaEnum.Represents, hflag, if_true] at hrep
      obtain ⟨S, hS, hv⟩ := hrep
      obtain ⟨sel, hsel, htxt, hfold, hread⟩ :=
        keysToValue_valueToKeys metaEnum hwf value.toInt S hS hv
      refine ⟨sel, hsel, by simp [serializeEnum, hflag, htxt], hfold, by simp, ?_⟩
      simp only [deserializeEnum, QJsonValue.isString, QJsonValue.toString, hflag, if_true,
        qUtf8Printable_joinKeys metaEnum hwf sel hsel]
      rcases hread with ⟨hnil, hzero⟩ | hok
      · have hempty : metaEnum.keysToValue "" = (or32 0 (-1), false) := by
          simp [QMetaEnum.keysToValue, splitOn, QMetaEnum.keysToValueLoop, trimmed,
            findKey_empty metaEnum hwf]
        have hisEmpty : ("" : String).isEmpty = true := rfl
        subst hnil
        simp only [List.map_nil, joinKeys, hempty, hzero]
        simp [hisEmpty]
      · rw [← htxt, hok]
        simp
    | false =>
      simp only [QMetaEnum.Represents, hflag, Bool.false_eq_true, if_false] at hrep
      obtain ⟨k, hk, hkv⟩ := hrep
      cases hf : metaEnum.keys.find? (fun k => k.2 == value.toInt) with
      | none =>
        have := List.find?_eq_none.mp hf k hk
        simp [hkv] at this
      | some y =>
        have hy : y ∈ metaEnum.keys := List.mem_of_find?_eq_some hf
        have hyv : y.2 = value.toInt := by simpa using List.find?_some hf
        have hsel : ∀ x ∈ [y], x ∈ metaEnum.keys := by
          intro x hx
          rw [List.mem_singleton.mp hx]
          exact hy
        have hcut := qUtf8Printable_joinKeys metaEnum hwf [y] hsel
        simp only [List.map_cons, List.map_nil, joinKeys] at hcut
        refine ⟨[y], hsel, ?_, ?_, fun _ => rfl, ?_⟩
        · simp [serializeEnum, hflag, QMetaEnum.valueToKey, hf, joinKeys]
        · simp only [List.foldl_cons, List.foldl_nil]
          rw [or32_zero_left _ (hwf.2 y hy).2.2, hyv]
        · simp [deserializeEnum, QJsonValue.isString, QJsonValue.toString, hflag, joinKeys, hcut,
            QMetaEnum.keyToValue, findKey_of_mem metaEnum hwf y hy, hyv]
  obtain ⟨sel, hsel, hser, hfold, hlen, hread⟩ := htext
  refine ⟨?_, by simp [serializeEnum], sel, hsel, hser, hfold, hlen⟩
  cases hs : enumAsString with
  | true => rw [hser, hread]
  | false =>
    have hkey : metaEnum.isFlag = false → (metaEnum.valueToKey value.toInt).isNone = false := by
      intro hflag
      simp only [QMetaEnum.Represents, hflag, Bool.false_eq_true, if_false] at hrep
      obtain ⟨k, hk, hkv⟩ := hrep
      unfold QMetaEnum.valueToKey
      cases hf : metaEnum.keys.find? (fun k => k.2 == value.toInt) with
      | some y => rfl
      | none =>
        have := List.find?_eq_none.mp hf k hk
        simp [hkv] at this
    simp only [serializeEnum, Bool.false_eq_true, if_false, deserializeEnum, QJsonValue.isString,
      QJsonValue.toDouble, modf_intCast, ne_eq, not_true_eq_false, toInt_intCast _ hvr]
    cases hflag : metaEnum.isFlag with
    | true => simp
    | false => simp [hkey hflag]

/-- Witness for C7: the flags enum `{Read = 1, Write = 2}` and the value 3 with `enumAsString`
enabled. -/
theorem enum_round_trip_witness :
    deserializeEnum accessFlags (serializeEnum true accessFlags (.num QMetaType.Int 3)) =
      .ok (.num QMetaType.Int (QVariant.num QMetaType.Int 3).toInt) ∧
    serializeEnum false accessFlags (.num QMetaType.Int 3) =
      .double (QVariant.num QMetaType.Int 3).toInt ∧
    ∃ sel : List (String × Int), (∀ k ∈ sel, k ∈ accessFlags.keys) ∧
      serializeEnum true accessFlags (.num QMetaType.Int 3) =
        .string (joinKeys (sel.map Prod.fst)) ∧
      sel.foldl (fun acc k => or32 acc k.2) 0 = (QVariant.num QMetaType.Int 3).toInt ∧
      (accessFlags.isFlag = false → sel.length = 1) :=
  enum_round_trip accessFlags true (.num QMetaType.Int 3) (by decide)
    (by
      show accessFlags.Represents 3
      unfold QMetaEnum.Represents
      simp only [accessFlags, if_true]
      refine ⟨[("Read", 1), ("Write", 2)], ?_, rfl⟩
      intro s hs
      simp only [List.mem_cons, List.mem_singleton, List.not_mem_nil, or_false] at hs
      rcases hs with rfl | rfl
      · exact ⟨by simp, 0, by decide, rfl⟩
      · exact ⟨by simp, 1, by decide, rfl⟩)

/-- The example of C7: for the flags enum `{Read = 1, Write = 2}` the value 3 serializes with
`enumAsString` to the text `Read|Write`, which deserializes to 3; without `enumAsString` it
serializes to the number 3; and the empty text deserializes to 0. -/
theorem enum_round_trip_examples :
    serializeEnum true accessFlags (.num QMetaType.Int 3) = .string "Read|Write" ∧
    deserializeEnum accessFlags (.string "Read|Write") = .ok (.num QMetaType.Int 3) ∧
    serializeEnum false accessFlags (.num QMetaType.Int 3) = .double 3 ∧
    deserializeEnum accessFlags (.string "") = .ok (.num QMetaType.Int 0) :=
  ⟨rfl, rfl, rfl, rfl⟩

/-! ## C8: failures of enum decoding -/

theorem keyToValue_ok_iff (e : QMetaEnum) (hwf : e.WellFormed) (t : String) :
    (e.keyToValue t).2 = true ↔ e.IsKey t.toList := by
  rw [← findKey_isSome_iff e hwf t.toList]
  have ht : String.mk t.toList = t := rfl
  rw [ht]
  unfold QMetaEnum.keyToValue
  cases e.findKey t <;> simp

theorem keyToValue_standsFor (e : QMetaEnum) (hwf : e.WellFormed) (t : String) (v : Int) :
    (∃ k ∈ e.keys, e.Spells t.toList k.1 ∧ v = k.2) ↔ e.keyToValue t = (v, true) := by
  have ht : String.mk t.toList = t := rfl
  have h := findKey_iff e hwf t.toList v
  rw [ht] at h
  unfold QMetaEnum.keyToValue
  constructor
  · rintro ⟨k, hk, hs, hv⟩
    rw [h.mpr ⟨k, hk, hs, hv.symm⟩]
  · intro hkv
    cases hf : e.findKey t with
    | none => simp [hf] at hkv
    | some w =>
      simp only [hf, Prod.mk.injEq, and_true] at hkv
      subst hkv
      obtain ⟨k, hk, hs, hv⟩ := h.mp hf
      exact ⟨k, hk, hs, hv.symm⟩

theorem keysToValueLoop_ok_iff (e : QMetaEnum) (hwf : e.WellFormed) (parts : List (List Char))
    (acc : Int) (ok : Bool) :
    (e.keysToValueLoop parts (acc, ok)).2 = true ↔
      ok = true ∧ ∀ part ∈ parts, e.IsKey (trimmed part) := by
  induction parts generalizing acc ok with
  | nil => simp [QMetaEnum.keysToValueLoop]
  | cons p rest ih =>
    have hk := findKey_isSome_iff e hwf (trimmed p)
    simp only [QMetaEnum.keysToValueLoop, List.mem_cons, forall_eq_or_imp]
    cases hf : e.findKey (String.mk (trimmed p)) with
    | some k =>
      rw [hf] at hk
      have hp : e.IsKey (trimmed p) := hk.mp rfl
      simp only [ih, hp, true_and]
    | none =>
      rw [hf] at hk
      have hp : ¬ e.IsKey (trimmed p) := fun h => by simpa using hk.mpr h
      simp only [ih, hp, false_and, and_false]
      simp

theorem keysToValueLoop_selection (e : QMetaEnum) (hwf : e.WellFormed)
    (parts : List (List Char)) (sel : List (String × Int)) (acc : Int) (ok : Bool)
    (h : List.Forall₂ (fun part k => k ∈ e.keys ∧ e.Spells (trimmed part) k.1) parts sel) :
    e.keysToValueLoop parts (acc, ok) = (sel.foldl (fun a k => or32 a k.2) acc, ok) := by
  induction h generalizing acc with
  | nil => rfl
  | @cons p k ps ks hpk _ ih =>
    have hf : e.findKey (String.mk (trimmed p)) = some k.2 :=
      (findKey_iff e hwf (trimmed p) k.2).mpr ⟨k, hpk.1, hpk.2, rfl⟩
    simp only [QMetaEnum.keysToValueLoop, hf, List.foldl_cons]
    exact ih _

theorem exists_selection (e : QMetaEnum) (parts : List (List Char))
    (h : ∀ part ∈ parts, e.IsKey (trimmed part)) :
    ∃ sel : List (String × Int),
      List.Forall₂ (fun part k => k ∈ e.keys ∧ e.Spells (trimmed part) k.1) parts sel := by
  induction parts with
  | nil => exact ⟨[], List.Forall₂.nil⟩
  | cons p rest ih =>
    obtain ⟨k, hk, hs⟩ := h p (List.mem_cons_self _ _)
    obtain ⟨sel, hsel⟩ := ih (fun q hq => h q (List.mem_cons_of_mem _ hq))
    exact ⟨k :: sel, List.Forall₂.cons ⟨hk, hs⟩ hsel⟩

/-- The flag `ok` of the lookup of `deserializeEnum` says that the text is recognized. -/
theorem lookup_ok_iff (e : QMetaEnum) (hwf : e.WellFormed) (t : String) :
    (if e.isFlag then e.keysToValue t else e.keyToValue t).2 = true ↔ e.Recognizes t := by
  unfold QMetaEnum.Recognizes
  cases hflag : e.isFlag with
  | true =>
    simp only [if_true]
    unfold QMetaEnum.keysToValue
    rw [keysToValueLoop_ok_iff e hwf]
    simp
  | false =>
    simp only [Bool.false_eq_true, if_false]
    exact keyToValue_ok_iff e hwf t

/-- The value of the lookup of `deserializeEnum` on a recognized text is the one value the text
stands for. -/
theorem lookup_standsFor (e : QMetaEnum) (hwf : e.WellFormed) (t : String)
    (hr : e.Recognizes t) :
    e.StandsFor t (if e.isFlag then e.keysToValue t else e.keyToValue t).1 ∧
    ∀ w, e.StandsFor t w → w = (if e.isFlag then e.keysToValue t else e.keyToValue t).1 := by
  unfold QMetaEnum.Recognizes at hr
  unfold QMetaEnum.StandsFor
  cases hflag : e.isFlag with
  | true =>
    simp only [hflag, if_true] at hr ⊢
    unfold QMetaEnum.keysToValue
    constructor
    · obtain ⟨sel, hsel⟩ := exists_selection e _ hr
      exact ⟨sel, hsel, by rw [keysToValueLoop_selection e hwf _ sel 0 true hsel]⟩
    · rintro w ⟨sel, hsel, hw⟩
      rw [keysToValueLoop_selection e hwf _ sel 0 true hsel, hw]
  | false =>
    simp only [hflag, Bool.false_eq_true, if_false] at hr ⊢
    constructor
    · obtain ⟨k, hk, hs⟩ := hr
      have := (keyToValue_standsFor e hwf t k.2).mp ⟨k, hk, hs, rfl⟩
      rw [this]
      exact ⟨k, hk, hs, rfl⟩
    · intro w hw
      rw [(keyToValue_standsFor e hwf t w).mp hw]

theorem deserializeEnum_string (metaEnum : QMetaEnum) (hwf : metaEnum.WellFormed) (s : String) :
    deserializeEnum metaEnum (.string s) =
      if metaEnum.Recognizes (qUtf8Printable s) then
        .ok (.num QMetaType.Int
          (if metaEnum.isFlag then metaEnum.keysToValue (qUtf8Printable s)
            else metaEnum.keyToValue (qUtf8Printable s)).1)
      else if metaEnum.isFlag = true ∧ s = "" then .ok (.num QMetaType.Int 0)
      else .error (.deserialization ("Invalid value for enum type found: " ++ s)) := by
  have hempty : s.isEmpty = true ↔ s = "" := String.isEmpty_iff s
  have hok := lookup_ok_iff metaEnum hwf (qUtf8Printable s)
  unfold deserializeEnum
  simp only [QJsonValue.isString, QJsonValue.toString, if_true]
  by_cases hr : metaEnum.Recognizes (qUtf8Printable s)
  · rw [if_pos hr]
    have h2 := hok.mpr hr
    generalize (if metaEnum.isFlag then metaEnum.keysToValue (qUtf8Printable s)
      else metaEnum.keyToValue (qUtf8Printable s)) = r at h2 ⊢
    obtain ⟨v, b⟩ := r
    simp only at h2
    subst h2
    rfl
  · rw [if_neg hr]
    have h2 : (if metaEnum.isFlag then metaEnum.keysToValue (qUtf8Printable s)
        else metaEnum.keyToValue (qUtf8Printable s)).2 = false := by
      cases hb : (if metaEnum.isFlag then metaEnum.keysToValue (qUtf8Printable s)
        else metaEnum.keyToValue (qUtf8Printable s)).2
      · rfl
      · exact absurd (hok.mp hb) hr
    generalize (if metaEnum.isFlag then metaEnum.keysToValue (qUtf8Printable s)
      else metaEnum.keyToValue (qUtf8Printable s)) = r at h2 ⊢
    obtain ⟨v, b⟩ := r
    simp only at h2
    subst h2
    cases hflag : metaEnum.isFlag <;> simp [hempty]

theorem deserializeEnum_not_string (metaEnum : QMetaEnum) (j : QJsonValue)
    (hj : j.isString = false) :
    deserializeEnum metaEnum j =
      if Int.fract j.toDouble ≠ 0 then
        .error (.deserialization ("Invalid value (double) for enum type found: " ++
          toString j.toDouble))
      else if metaEnum.isFlag = false ∧ ∀ k ∈ metaEnum.keys, k.2 ≠ j.toInt then
        .error (.deserialization ("Invalid integer value. Not a valid enum element: " ++
          toString j.toInt))
      else .ok (.num QMetaType.Int j.toInt) := by
  have hkey : (metaEnum.valueToKey j.toInt).isNone = true ↔
      ∀ k ∈ metaEnum.keys, k.2 ≠ j.toInt := by
    unfold QMetaEnum.valueToKey
    cases hf : metaEnum.keys.find? (fun k => k.2 == j.toInt) with
    | none =>
      have h := List.find?_eq_none.mp hf
      simp only [Option.isNone_none, true_iff]
      intro k hk hkv
      exact h k hk (by simpa using hkv)
    | some y =>
      have hy : y ∈ metaEnum.keys := List.mem_of_find?_eq_some hf
      have hyv : y.2 = j.toInt := by simpa using List.find?_some hf
      simp only [Option.isNone_some, Bool.false_eq_true, false_iff]
      exact fun h => h y hy hyv
  unfold deserializeEnum
  simp only [hj, Bool.false_eq_true, if_false]
  by_cases hm : modf j.toDouble = 0
  · have hf : Int.fract j.toDouble = 0 := (modf_eq_zero_iff_fract _).mp hm
    simp only [hm, hf, ne_eq, not_true_eq_false, if_false]
    by_cases hc : metaEnum.isFlag = false ∧ ∀ k ∈ metaEnum.keys, k.2 ≠ j.toInt
    · rw [if_pos hc]
      simp [hc.1, hkey.mpr hc.2]
    · rw [if_neg hc]
      cases hflag : metaEnum.isFlag
      · have : (metaEnum.valueToKey j.toInt).isNone = false := by
          cases hb : (metaEnum.valueToKey j.toInt).isNone
          · rfl
          · exact absurd ⟨hflag, hkey.mp hb⟩ hc
        simp [this]
      · simp
  · have hf : Int.fract j.toDouble ≠ 0 := fun h => hm ((modf_eq_zero_iff_fract _).mpr h)
    simp [hm, hf]

/-- C8: for every enum whose key names are pairwise distinct, not empty and made of identifier
characters and whose values are in the range of `int`, `deserializeEnum` fails, always with a
deserialization exception, exactly when (a) the JSON value is a string whose C string (the text
up to its first NUL character) is not recognized, and the string is not the empty string of a
flags enum, or (b) it is a number with a non-zero fractional part, or (c) the enum is not a flags
enum, the value is not a string and no declared key has the integer `toInt` reads from it.  A
text is recognized when it spells a declared key (`Key`, `::Key` or `Class::Key`), for a flags
enum when each of its parts between `|`, white space stripped, does.  Otherwise it succeeds:
with the one value the C string stands for when that is recognized (the value of the key, the
bitwise union of the values of the keys of the parts for a flags enum), with `0` for the empty
string of a flags enum, and with the integer `toInt` reads for every value that is not a string
(`0` when a number is outside the range of `int`). -/
theorem enum_decoding (metaEnum : QMetaEnum) (j : QJsonValue) (hwf : metaEnum.WellFormed) :
    ((∃ e, deserializeEnum metaEnum j = .error e) ↔
      (∃ s, j = .string s ∧ ¬ metaEnum.Recognizes (qUtf8Printable s) ∧
        ¬ (metaEnum.isFlag = true ∧ s = "")) ∨
      (∃ d, j = .double d ∧ Int.fract d ≠ 0) ∨
      (metaEnum.isFlag = false ∧ j.isString = false ∧
        ∀ k ∈ metaEnum.keys, k.2 ≠ j.toInt)) ∧
    (∀ e, deserializeEnum metaEnum j = .error e → e.isDeserialization = true) ∧
    (∀ s, j = .string s → metaEnum.Recognizes (qUtf8Printable s) →
      ∃ v, deserializeEnum metaEnum j = .ok (.num QMetaType.Int v) ∧
        metaEnum.StandsFor (qUtf8Printable s) v ∧
        ∀ w, metaEnum.StandsFor (qUtf8Printable s) w → w = v) ∧
    (metaEnum.isFlag = true → j = .string "" →
      deserializeEnum metaEnum j = .ok (.num QMetaType.Int 0)) ∧
    (j.isString = false → (∀ e, deserializeEnum metaEnum j ≠ .error e) →
      deserializeEnum metaEnum j = .ok (.num QMetaType.Int j.toInt)) := by
  refine ⟨?_, ?_, ?_, ?_, ?_⟩
  · cases hs : j.isString with
    | true =>
      obtain ⟨s, rfl⟩ : ∃ s, j = .string s := by
        cases j <;> simp_all [QJsonValue.isString]
      rw [deserializeEnum_string metaEnum hwf]
      constructor
      · rintro ⟨e, he⟩
        left
        refine ⟨s, rfl, ?_, ?_⟩
        · intro hr
          rw [if_pos hr] at he
          cases he
        · intro hfe
          split at he
          · cases he
          · cases he
      · rintro (⟨s', hs', hr, hne⟩ | ⟨d, hd, -⟩ | ⟨-, hns, -⟩)
        · cases hs'
          exact ⟨.deserialization ("Invalid value for enum type found: " ++ s),
            by rw [if_neg hr, if_neg hne]⟩
        · cases hd
        · simp [QJsonValue.isString] at hns
    | false =>
      rw [deserializeEnum_not_string metaEnum j hs]
      constructor
      · rintro ⟨e, he⟩
        by_cases hf : Int.fract j.toDouble = 0
        · right; right
          simp only [hf, ne_eq, not_true_eq_false, if_false] at he
          by_cases hc : metaEnum.isFlag = false ∧ ∀ k ∈ metaEnum.keys, k.2 ≠ j.toInt
          · exact ⟨hc.1, rfl, hc.2⟩
          · rw [if_neg hc] at he
            cases he
        · right; left
          cases j with
          | double d => exact ⟨d, rfl, hf⟩
          | _ => simp [QJsonValue.toDouble] at hf
      · rintro (⟨s', hs', -⟩ | ⟨d, hd, hf⟩ | ⟨hflag, -, hkey⟩)
        · rw [hs'] at hs
          simp [QJsonValue.isString] at hs
        · subst hd
          exact ⟨.deserialization ("Invalid value (double) for enum type found: " ++
            toString (QJsonValue.double d).toDouble), by simp [QJsonValue.toDouble, hf]⟩
        · by_cases hf : Int.fract j.toDouble = 0
          · exact ⟨.deserialization ("Invalid integer value. Not a valid enum element: " ++
              toString j.toInt), by
                rw [if_neg (by simp [hf]), if_pos ⟨hflag, hkey⟩]⟩
          · exact ⟨.deserialization ("Invalid value (double) for enum type found: " ++
              toString j.toDouble), by simp [hf]⟩
  · intro e he
    cases hs : j.isString with
    | true =>
      obtain ⟨s, rfl⟩ : ∃ s, j = .string s := by
        cases j <;> simp_all [QJsonValue.isString]
      rw [deserializeEnum_string metaEnum hwf] at he
      split at he
      · cases he
      · split at he
        · cases he
        · cases he
          rfl
    | false =>
      rw [deserializeEnum_not_string metaEnum j hs] at he
      split at he
      · cases he
        rfl
      · split at he
        · cases he
          rfl
        · cases he
  · intro s hs hr
    rw [hs, deserializeEnum_string metaEnum hwf, if_pos hr]
    exact ⟨_, rfl, lookup_standsFor metaEnum hwf _ hr⟩
  · intro hflag hs
    have hnot : ¬ metaEnum.Recognizes (qUtf8Printable "") := by
      have hq : qUtf8Printable "" = "" := rfl
      rw [hq]
      unfold QMetaEnum.Recognizes
      rw [if_pos hflag]
      intro h
      have hkey := h [] (by simp [splitOn])
      have : (metaEnum.findKey (String.mk [])).isSome = true :=
        (findKey_isSome_iff metaEnum hwf []).mpr hkey
      have hnone : metaEnum.findKey (String.mk []) = none := findKey_empty metaEnum hwf
      rw [hnone] at this
      cases this
    rw [hs, deserializeEnum_string metaEnum hwf, if_neg hnot, if_pos ⟨hflag, rfl⟩]
  · intro hs hok
    rw [deserializeEnum_not_string metaEnum j hs] at hok ⊢
    split
    · rename_i h
      exact absurd (if_pos h) (hok _)
    · split
      · rename_i h1 h2
        exact absurd ((if_neg h1).trans (if_pos h2)) (hok _)
      · rfl

/-- Counterexample for C8: the text `Blue`, a NUL character, `junk` is not a recognized key of
the enum `{Red = 0, Green = 1, Blue = 5}`, nor the name of a key, nor the empty string of a
flags enum; `deserializeEnum` reads its C string `Blue` and returns 5.  The qualified spellings
`Palette::Blue` and `::Blue`, which are not names of keys either, give 5 as well. -/
theorem enum_decoding_counterexample :
    ¬ colorEnum.Recognizes "Blue\x00junk" ∧
    "Blue\x00junk" ∉ colorEnum.keys.map Prod.fst ∧
    ¬ (colorEnum.isFlag = true ∧ "Blue\x00junk" = "") ∧
    deserializeEnum colorEnum (.string "Blue\x00junk") = .ok (.num QMetaType.Int 5) ∧
    "Palette::Blue" ∉ colorEnum.keys.map Prod.fst ∧
    deserializeEnum colorEnum (.string "Palette::Blue") = .ok (.num QMetaType.Int 5) ∧
    deserializeEnum colorEnum (.string "::Blue") = .ok (.num QMetaType.Int 5) :=
  ⟨by decide, by decide, by decide, rfl, by decide, rfl, rfl⟩

/-- Witness for C8: the number 4 has no key in the enum `{Red = 0, Green = 1, Blue = 5}`, which
is not a flags enum, so decoding it fails by case (c). -/
theorem enum_decoding_witness :
    colorEnum.WellFormed ∧ ∃ e, deserializeEnum colorEnum (.double 4) = .error e :=
  ⟨by decide, (enum_decoding colorEnum (.double 4) (by decide)).1.mpr
    (Or.inr (Or.inr ⟨rfl, rfl, by decide⟩))⟩

/-- Examples for C8 on the flags enum `{Read = 1, Write = 2}` of the class `File` and the enum
`{Red = 0, Green = 1, Blue = 5}` of the class `Palette`: an unknown key fails, a known key and a
key combination succeed, also qualified and with white space around the parts, a key qualified
by another class fails, the empty string gives `0` for the flags enum and fails for the other
one, and a text that starts with a NUL character fails for the flags enum. -/
theorem enum_decoding_examples :
    deserializeEnum accessFlags (.string "Foo")
      = .error (.deserialization "Invalid value for enum type found: Foo") ∧
    deserializeEnum accessFlags (.string "Write|Read") = .ok (.num QMetaType.Int 3) ∧
    deserializeEnum accessFlags (.string " Read | File::Write") = .ok (.num QMetaType.Int 3) ∧
    deserializeEnum colorEnum (.string "Blue") = .ok (.num QMetaType.Int 5) ∧
    deserializeEnum colorEnum (.string "Other::Blue")
      = .error (.deserialization "Invalid value for enum type found: Other::Blue") ∧
    deserializeEnum accessFlags (.string "") = .ok (.num QMetaType.Int 0) ∧
    deserializeEnum colorEnum (.string "")
      = .error (.deserialization "Invalid value for enum type found: ") ∧
    deserializeEnum accessFlags (.string "\x00")
      = .error (.deserialization "Invalid value for enum type found: \x00") :=
  ⟨rfl, rfl, rfl, rfl, rfl, rfl, rfl, rfl⟩

/-! ## Lemmas on the order of the converter list -/

/-- The insertion loop keeps a list sorted by descending priority sorted. -/
theorem insertConverter_sorted (x : QJsonTypeConverter) (l : List QJsonTypeConverter)
    (h : SortedByPriority l) : SortedByPriority (insertConverter x l) := by
  unfold SortedByPriority at *
  induction l with
  | nil => simp [insertConverter]
  | cons y rest ih =>
    simp only [insertConverter]
    obtain ⟨hy, hrest⟩ := List.pairwise_cons.mp h
    split
    · rename_i hle
      refine List.pairwise_cons.mpr ⟨?_, h⟩
      intro c hc
      rcases List.mem_cons.mp hc with rfl | hc
      · exact hle
      · exact le_trans (hy c hc) hle
    · rename_i hlt
      refine List.pairwise_cons.mpr ⟨?_, ih hrest⟩
      intro c hc
      rcases (mem_insertConverter x c rest).mp hc with rfl | hc
      · omega
      · exact hy c hc

/-- A resolution without factories leaves the converter list alone. -/
theorem findConverter_typeConverters_nil (d : QJsonSerializerPrivate) (t : Nat)
    (vt : Option JsonType) : (findConverter d [] t vt).state.typeConverters = d.typeConverters := by
  rcases findConverter_cases d [] t vt with ⟨c, -, h⟩ | ⟨-, c, -, h⟩ | ⟨-, -, h⟩
  · rw [h]
  · rw [h]; cases vt <;> rfl
  · rw [h]; rfl

/-- The factory scan over a longer factory list: a converter found in the list is still the
one found when a factory is appended. -/
theorem findInFactories_append_of_some (d : QJsonSerializerPrivate) (t : Nat)
    (vt : Option JsonType) (facs : List QJsonTypeConverterFactory)
    (f : QJsonTypeConverterFactory) (idx : Nat) (c : QJsonTypeConverter)
    (h : (findInFactories d t vt facs idx).converter = some c) :
    findInFactories d t vt (facs ++ [f]) idx = findInFactories d t vt facs idx := by
  induction facs generalizing idx with
  | nil => simp [findInFactories] at h
  | cons g rest ih =>
    simp only [List.cons_append, findInFactories] at h ⊢
    split
    · rename_i hg
      rw [if_pos hg] at h
      cases hc : g.createConverter with
      | some c' => rfl
      | none =>
        simp only [hc] at h ⊢
        have e : findInFactories d t vt (rest.append [f]) (idx + 1) =
            findInFactories d t vt rest (idx + 1) := ih (idx + 1) h
        rw [e]
    · rename_i hg
      rw [if_neg hg] at h
      exact ih (idx + 1) h

/-! ## C13: the ordering invariant -/

/-- C13 (ordering invariant of the converter list), evaluated on the failing run: from the empty
converter list, `addJsonTypeConverter(B)` with `B` of priority 5, then a serialize-direction
resolution of `typeU`, which instantiates `F` of priority 10 from its factory and appends it.  The
converter list reached is `[B, F]` with priorities `[5, 10]`: it is not sorted by descending
priority. -/
theorem ordering_invariant_failing_input :
    (runOperations [factoryF] QJsonSerializerPrivate.initial
        [.add converterB, .find typeU none]).typeConverters.map (fun c => (c.id, c.priority)) =
      [(2, 5), (3, 10)] ∧
    ¬ SortedByPriority (runOperations [factoryF] QJsonSerializerPrivate.initial
        [.add converterB, .find typeU none]).typeConverters :=
  ⟨rfl, by decide⟩

/-- The part of C13 that holds: in every state reached from the empty converter list by
`addJsonTypeConverter` calls and resolutions with no factory registered, the converter list is
sorted by descending priority. -/
theorem ordering_invariant_without_factories (ops : List Operation) :
    SortedByPriority (runOperations [] QJsonSerializerPrivate.initial ops).typeConverters := by
  have key : ∀ (ops : List Operation) (d : QJsonSerializerPrivate),
      SortedByPriority d.typeConverters →
      SortedByPriority (runOperations [] d ops).typeConverters := by
    intro ops
    induction ops with
    | nil => intro d h; exact h
    | cons op rest ih =>
      intro d h
      simp only [runOperations, List.foldl_cons]
      apply ih
      cases op with
      | add c => exact insertConverter_sorted c _ h
      | find t vt =>
        simp only [Operation.apply]
        rw [findConverter_typeConverters_nil]
        exact h
  exact key ops _ (by simp [SortedByPriority, QJsonSerializerPrivate.initial])

/-! ## C14: converters of equal priority -/

/-- C14 as stated fails: `A` and `F` have the same priority 10 and both convert `typeT`; after
`addJsonTypeConverter(A)` and then `addJsonTypeConverter(F)` on a fresh serializer the converter
list is `[F, A]`, the later-registered `F` in front, and the resolution of `typeT` returns `F`. -/
theorem stable_ties_counterexample :
    converterA.priority = converterF.priority ∧
    converterA.canConvert typeT = true ∧ converterF.canConvert typeT = true ∧
    (addJsonTypeConverter (addJsonTypeConverter QJsonSerializerPrivate.initial converterA)
        converterF).typeConverters.map (fun c => c.id) = [3, 1] ∧
    (findConverter
        (addJsonTypeConverter (addJsonTypeConverter QJsonSerializerPrivate.initial converterA)
          converterF) [] typeT none).converter.map (fun c => c.id) = some 3 :=
  ⟨rfl, rfl, rfl, rfl, rfl⟩

/-- C14, amended: when two converters `c1` and `c2` of equal priority are registered with
`addJsonTypeConverter`, `c1` before `c2` (so `c1` is in the converter list when `c2` is
registered), then `c2` precedes `c1` in the converter list: the list is `l1 ++ c2 :: l2` with `c1`
in `l2` and every converter of `l1` of strictly higher priority; and if `c2` can convert a type
`t` (and accepts the JSON kind, in the deserialize direction) while no converter of `l1` does, the
later-registered `c2` is the one resolution returns. -/
theorem stable_ties (d : QJsonSerializerPrivate) (facs : List QJsonTypeConverterFactory)
    (c1 c2 : QJsonTypeConverter) (t : Nat) (vt : Option JsonType)
    (hreg : c1 ∈ d.typeConverters) (hprio : c1.priority = c2.priority)
    (hconv : (acceptsKind c2.jsonTypes vt && c2.canConvert t) = true) :
    ∃ l1 l2,
      (addJsonTypeConverter d c2).typeConverters = l1 ++ c2 :: l2 ∧
      c1 ∈ l2 ∧ (∀ c ∈ l1, c2.priority < c.priority) ∧
      ((∀ c ∈ l1, (acceptsKind c.jsonTypes vt && c.canConvert t) = false) →
        (findConverter (addJsonTypeConverter d c2) facs t vt).converter = some c2) := by
  obtain ⟨l1, l2, h1, h2, h3⟩ := insertConverter_split c2 d.typeConverters
  have hmem : c1 ∈ l1 ++ l2 := by
    rw [← h2]
    exact hreg
  have hc1 : c1 ∈ l2 := by
    rcases List.mem_append.mp hmem with h | h
    · have := h3 c1 h
      omega
    · exact h
  refine ⟨l1, l2, h1, hc1, h3, ?_⟩
  intro hnone
  have hfind : (l1 ++ c2 :: l2).find?
      (fun c => acceptsKind c.jsonTypes vt && c.canConvert t) = some c2 := by
    rw [List.find?_append]
    have : l1.find? (fun c => acceptsKind c.jsonTypes vt && c.canConvert t) = none := by
      rw [List.find?_eq_none]
      intro c hc
      simp [hnone c hc]
    rw [this]
    simp [List.find?_cons, hconv]
  have hcache : cachedConverter (addJsonTypeConverter d c2) t vt = none := by
    cases vt <;> simp [cachedConverter, addJsonTypeConverter]
  unfold findConverter
  rw [hcache]
  simp only [addJsonTypeConverter] at h1 ⊢
  rw [h1, hfind]

/-- C14, amended, at the converters `A` and `F` of priority 10 and the type `typeT`, `A`
registered first on a fresh serializer. -/
theorem stable_ties_witness :
    ∃ l1 l2,
      (addJsonTypeConverter (addJsonTypeConverter QJsonSerializerPrivate.initial converterA)
        converterF).typeConverters = l1 ++ converterF :: l2 ∧
      converterA ∈ l2 ∧ (∀ c ∈ l1, converterF.priority < c.priority) ∧
      ((∀ c ∈ l1, (acceptsKind c.jsonTypes none && c.canConvert typeT) = false) →
        (findConverter
          (addJsonTypeConverter (addJsonTypeConverter QJsonSerializerPrivate.initial converterA)
            converterF) [] typeT none).converter = some converterF) :=
  stable_ties (addJsonTypeConverter QJsonSerializerPrivate.initial converterA) [] converterA
    converterF typeT none (List.mem_singleton.mpr rfl) rfl rfl

/-! ## C15: what registering a converter changes -/

/-- C15 (registering a converter invalidates the caches and loses nothing): after
`addJsonTypeConverter(c)` both caches are empty, and the converter list is the previous list
`l1 ++ l2` with `c` inserted at one position, `l1 ++ c :: l2`, so every converter registered
before is retained in its previous relative order; if the previous list was sorted by descending
priority, so is the new one. -/
theorem registration_frame (d : QJsonSerializerPrivate) (c : QJsonTypeConverter) :
    (∀ t, (addJsonTypeConverter d c).typeConverterSerCache t = none) ∧
    (∀ t, (addJsonTypeConverter d c).typeConverterDeserCache t = none) ∧
    (∃ l1 l2, d.typeConverters = l1 ++ l2 ∧
      (addJsonTypeConverter d c).typeConverters = l1 ++ c :: l2) ∧
    (SortedByPriority d.typeConverters →
      SortedByPriority (addJsonTypeConverter d c).typeConverters) := by
  refine ⟨fun _ => rfl, fun _ => rfl, ?_, insertConverter_sorted c d.typeConverters⟩
  obtain ⟨l1, l2, h1, h2, -⟩ := insertConverter_split c d.typeConverters
  exact ⟨l1, l2, h2, h1⟩

/-- C15 at the serializer that holds `A` and has `A` cached for `typeT`, registering `B`: the
cache entry is gone, `A` is kept, and the list `[A, B]` is sorted. -/
theorem registration_frame_witness :
    resolvedSerializer.d.typeConverterSerCache typeT = some converterA ∧
    (addJsonTypeConverter resolvedSerializer.d converterB).typeConverterSerCache typeT = none ∧
    (∃ l1 l2, resolvedSerializer.d.typeConverters = l1 ++ l2 ∧
      (addJsonTypeConverter resolvedSerializer.d converterB).typeConverters =
        l1 ++ converterB :: l2) ∧
    SortedByPriority (addJsonTypeConverter resolvedSerializer.d converterB).typeConverters :=
  ⟨rfl, (registration_frame resolvedSerializer.d converterB).1 typeT,
    (registration_frame resolvedSerializer.d converterB).2.2.1,
    (registration_frame resolvedSerializer.d converterB).2.2.2 (by decide)⟩

/-! ## C16: what registering a factory changes -/

/-- C16 as stated fails: a serializer whose serialize-direction cache holds `A` for `typeT`
still holds that entry after `addJsonTypeConverterFactory` has registered a factory. -/
theorem factory_registration_counterexample :
    ((resolvedSerializer.addJsonTypeConverterFactory factoryNull).d.typeConverterSerCache
        typeT).map (fun c => c.id) = some 1 ∧
    (resolvedSerializer.addJsonTypeConverterFactory factoryNull).typeConverterFactories.length = 1 :=
  ⟨rfl, rfl⟩

/-- C16, amended: registering a factory leaves the caches as they are.  After
`addJsonTypeConverterFactory` the factory is at the end of the factory list, the converter list
and both resolution caches are unchanged, and every resolution that returned a converter before
the registration returns the same converter, and leaves the same state, after it. -/
theorem factory_registration (s : QJsonSerializer) (factory : QJsonTypeConverterFactory) :
    (s.addJsonTypeConverterFactory factory).typeConverterFactories =
      s.typeConverterFactories ++ [factory] ∧
    (s.addJsonTypeConverterFactory factory).d = s.d ∧
    ∀ t vt c, (findConverter s.d s.typeConverterFactories t vt).converter = some c →
      findConverter (s.addJsonTypeConverterFactory factory).d
          (s.addJsonTypeConverterFactory factory).typeConverterFactories t vt =
        findConverter s.d s.typeConverterFactories t vt := by
  refine ⟨rfl, rfl, ?_⟩
  intro t vt c h
  show findConverter s.d (s.typeConverterFactories ++ [factory]) t vt = _
  rcases findConverter_cases s.d s.typeConverterFactories t vt with
    ⟨c', hc, h'⟩ | ⟨hc, c', hf, h'⟩ | ⟨hc, hf, h'⟩
  · rw [h', findConverter_of_cached _ _ _ _ _ hc]
  · rw [h']
    simp [findConverter, hc, hf]
  · rw [h'] at h ⊢
    simp only [findConverter, hc, hf]
    exact findInFactories_append_of_some _ _ _ _ _ _ c h

/-- C16, amended, at the serializer that has `A` cached for `typeT`: the resolution of `typeT`
returns `A` before and after a factory is registered. -/
theorem factory_registration_witness :
    (findConverter resolvedSerializer.d resolvedSerializer.typeConverterFactories typeT
        none).converter = some converterA ∧
    findConverter (resolvedSerializer.addJsonTypeConverterFactory factoryF).d
        (resolvedSerializer.addJsonTypeConverterFactory factoryF).typeConverterFactories typeT none =
      findConverter resolvedSerializer.d resolvedSerializer.typeConverterFactories typeT none :=
  ⟨rfl, (factory_registration resolvedSerializer factoryF).2.2 typeT none converterA rfl⟩

/-! ## C12: narrow integers -/

/-- C12 (narrow-integer fallback): when no converter resolves for the type, `serializeVariant`
of a value whose runtime type is `qint8`, `quint8`, `qint16` or `quint16` returns the JSON number
equal to the integer's value, and so never a JSON string. -/
theorem narrow_integer_fallback (s : QJsonSerializer) (t typeId : Nat) (n : Int)
    (hnone : (findConverter s.d s.typeConverterFactories t none).converter = none)
    (hnarrow : isNarrowInteger typeId) :
    (QVariant.num typeId n).isValid = true ∧
    s.serializeVariant t (.num typeId n) = .ok (.double n) ∧
    ∀ str, s.serializeVariant t (.num typeId n) ≠ .ok (.string str) := by
  have hvalid : (QVariant.num typeId n).isValid = true := by
    rcases hnarrow with h | h | h | h <;> subst h <;> rfl
  have h : s.serializeVariant t (.num typeId n) = .ok (.double n) := by
    unfold QJsonSerializer.serializeVariant
    rw [hnone]
    rcases hnarrow with h | h | h | h <;> subst h <;> rfl
  refine ⟨hvalid, h, ?_⟩
  intro str hstr
  rw [h] at hstr
  cases hstr

/-- C12 at the example of the claim: the 8-bit signed value 4 serializes to the number 4. -/
theorem narrow_integer_fallback_witness :
    (QVariant.num QMetaType.SChar 4).isValid = true ∧
    exampleSerializer.serializeVariant QMetaType.SChar (.num QMetaType.SChar 4) =
      .ok (.double 4) ∧
    ∀ str, exampleSerializer.serializeVariant QMetaType.SChar (.num QMetaType.SChar 4) ≠
      .ok (.string str) :=
  narrow_integer_fallback exampleSerializer QMetaType.SChar QMetaType.SChar 4 rfl (Or.inl rfl)

/-! ## C17: the fallback for dates and times -/

/-- C17 (date/time empty-string fallback), evaluated on failing inputs: for a date target and
the JSON number 5 `deserializeValue` returns the empty date, not the direct conversion of the
number; likewise for a time target and `true`, and for a datetime target and an array. -/
theorem date_fallback_failing_input :
    QJsonSerializer.deserializeValue QMetaType.QDate (.double 5) = .other QMetaType.QDate 0 ∧
    (QJsonValue.double 5).toVariant = .double 5 ∧
    QJsonSerializer.deserializeValue QMetaType.QTime (.bool true) = .other QMetaType.QTime 0 ∧
    (QJsonValue.bool true).toVariant = .bool true ∧
    QJsonSerializer.deserializeValue QMetaType.QDateTime (.array [.string "x"]) =
      .other QMetaType.QDateTime 0 ∧
    (QJsonValue.array [.string "x"]).toVariant = .list [.str "x"] :=
  ⟨rfl, rfl, rfl, rfl, rfl, rfl⟩

/-- What `deserializeValue` does for a date, time or datetime target: for the empty string it
returns the type's empty value and for every other string the direct conversion, as C17 says; for
every JSON value that is not a string it returns the type's empty value, where C17 asks for the
direct conversion. -/
theorem date_fallback_behaviour (t : Nat)
    (ht : t = QMetaType.QDate ∨ t = QMetaType.QTime ∨ t = QMetaType.QDateTime) :
    QJsonSerializer.deserializeValue t (.string "") = .other t 0 ∧
    (∀ str, str ≠ "" →
      QJsonSerializer.deserializeValue t (.string str) = (QJsonValue.string str).toVariant) ∧
    (∀ j, j.isString = false → QJsonSerializer.deserializeValue t j = .other t 0) := by
  have hempty : ∀ str : String, str ≠ "" → str.isEmpty = false := by
    intro str h
    cases hs : str.isEmpty with
    | false => rfl
    | true => exact absurd ((String.isEmpty_iff _).mp hs) h
  refine ⟨?_, ?_, ?_⟩
  · rcases ht with h | h | h <;> subst h <;> rfl
  · intro str hstr
    have := hempty str hstr
    rcases ht with h | h | h <;> subst h <;>
      simp [QJsonSerializer.deserializeValue, QJsonValue.toString, this, QMetaType.QDate,
        QMetaType.QTime, QMetaType.QDateTime]
  · intro j hj
    have : j.toString = "" := by cases j <;> simp_all [QJsonValue.toString, QJsonValue.isString]
    have hisEmpty : ("" : String).isEmpty = true := rfl
    rcases ht with h | h | h <;> subst h <;>
      simp [QJsonSerializer.deserializeValue, this, hisEmpty, QMetaType.QDate,
        QMetaType.QTime, QMetaType.QDateTime]

/-! ## C18: the fallback of the serialize direction -/

/-- C18 as stated fails on the values `serializeValue` treats before the natural conversion.  A
valid value of type `QJsonValue` that holds JSON null has the natural conversion null and a type
without entry in `nullTypes`, yet it is returned as JSON null, not refused; and the `qint8` value
4, whose natural conversion is a string, is returned as the number 4. -/
theorem serialize_value_fallback_counterexample :
    (QVariant.json .null).isValid = true ∧
    exampleSerializer.fromVariant (.json .null) = .null ∧
    nullTypes QMetaType.UnknownType = none ∧
    nullTypes (QVariant.json .null).userType = none ∧
    exampleSerializer.serializeValue QMetaType.UnknownType (.json .null) = .ok .null ∧
    exampleSerializer.fromVariant (.num QMetaType.SChar 4) = .string "\x04" ∧
    exampleSerializer.serializeValue QMetaType.UnknownType (.num QMetaType.SChar 4) =
      .ok (.double 4) :=
  ⟨rfl, rfl, rfl, rfl, rfl, rfl, rfl⟩

/-- C18, amended: `serializeValue(t, v)` returns null for an invalid `v`; a valid `v` of type
`QJsonValue` is returned as the JSON value it holds, and a valid `v` of a narrow integer type as
the number of its value; for every other valid `v` whose natural JSON conversion is not null it
returns that conversion unchanged; for every other valid `v` whose natural conversion is null it
returns the empty string if `t` (or, when `t` has no mapping, the type of `v`) is date, time,
datetime or URL, null if that type is the null-pointer type, and fails with a serialization
exception for every other type. -/
theorem serialize_value_fallback (s : QJsonSerializer) (t : Nat) (v : QVariant) :
    (v.isValid = false → s.serializeValue t v = .ok .null) ∧
    (v.isValid = true → v.userType = QMetaType.QJsonValue →
      s.serializeValue t v = .ok v.toJsonValue) ∧
    (v.isValid = true → v.userType ≠ QMetaType.QJsonValue → isNarrowInteger v.type →
      s.serializeValue t v = .ok (.double v.toInt)) ∧
    (v.isValid = true → v.userType ≠ QMetaType.QJsonValue → ¬ isNarrowInteger v.type →
      ((s.fromVariant v).isNull = false → s.serializeValue t v = .ok (s.fromVariant v)) ∧
      ((s.fromVariant v).isNull = true →
        ((nullTypeOf t v = QMetaType.QDate ∨ nullTypeOf t v = QMetaType.QTime ∨
            nullTypeOf t v = QMetaType.QDateTime ∨ nullTypeOf t v = QMetaType.QUrl) →
          s.serializeValue t v = .ok (.string "")) ∧
        (nullTypeOf t v = QMetaType.Nullptr → s.serializeValue t v = .ok .null) ∧
        (nullTypeOf t v ≠ QMetaType.QDate → nullTypeOf t v ≠ QMetaType.QTime →
          nullTypeOf t v ≠ QMetaType.QDateTime → nullTypeOf t v ≠ QMetaType.QUrl →
          nullTypeOf t v ≠ QMetaType.Nullptr →
          ∃ what, s.serializeValue t v = .error (.serialization what)))) := by
  refine ⟨?_, ?_, ?_, ?_⟩
  · intro h
    simp [QJsonSerializer.serializeValue, h]
  · intro h1 h2
    simp [QJsonSerializer.serializeValue, h1, h2]
  · intro h1 h2 h3
    unfold isNarrowInteger at h3
    simp [QJsonSerializer.serializeValue, h1, h2, h3]
  · intro h1 h2 h3
    unfold isNarrowInteger at h3
    refine ⟨?_, ?_⟩
    · intro h4
      simp [QJsonSerializer.serializeValue, h1, h2, h3, h4]
    · intro h4
      have key : s.serializeValue t v =
          (match (match nullTypes t with
              | some mapping => some mapping
              | none => nullTypes v.userType) with
            | some .Null => .ok .null
            | some .Bool => .ok (.bool false)
            | some .Double => .ok (.double 0)
            | some .String => .ok (.string "")
            | some .Array => .ok (.array [])
            | some .Object => .ok (.object [])
            | none => .error (.serialization ("Failed to convert type " ++
                (v.typeName s.metaTypes).getD "" ++ " to a JSON representation"))) := by
        simp [QJsonSerializer.serializeValue, h1, h2, h3, h4]
      rw [key]
      have hmap : (match nullTypes t with
              | some mapping => some mapping
              | none => nullTypes v.userType) = nullTypes (nullTypeOf t v) := by
        unfold nullTypeOf
        cases h : nullTypes t <;> simp [h]
      rw [hmap]
      refine ⟨?_, ?_, ?_⟩
      · intro h
        rcases h with h | h | h | h <;> rw [h] <;> rfl
      · intro h
        rw [h]
        rfl
      · intro n1 n2 n3 n4 n5
        simp [nullTypes, n1, n2, n3, n4, n5]

/-- C18, amended, on the example serializer with no property type given: a null date gives the
empty string, a null pointer gives null, a gadget has no JSON form and is refused, and a string is
returned as its natural conversion. -/
theorem serialize_value_fallback_witness :
    exampleSerializer.serializeValue QMetaType.UnknownType (.other QMetaType.QDate 0) =
      .ok (.string "") ∧
    exampleSerializer.serializeValue QMetaType.UnknownType (.other QMetaType.Nullptr 0) =
      .ok .null ∧
    (∃ what, exampleSerializer.serializeValue QMetaType.UnknownType (.gadget 1000 []) =
      .error (.serialization what)) ∧
    exampleSerializer.serializeValue QMetaType.UnknownType (.str "x") = .ok (.string "x") :=
  ⟨(((serialize_value_fallback exampleSerializer QMetaType.UnknownType
        (.other QMetaType.QDate 0)).2.2.2 rfl (by decide) (by decide)).2 rfl).1 (Or.inl rfl),
    (((serialize_value_fallback exampleSerializer QMetaType.UnknownType
        (.other QMetaType.Nullptr 0)).2.2.2 rfl (by decide) (by decide)).2 rfl).2.1 rfl,
    (((serialize_value_fallback exampleSerializer QMetaType.UnknownType
        (.gadget 1000 [])).2.2.2 rfl (by decide) (by decide)).2 rfl).2.2
      (by decide) (by decide) (by decide) (by decide) (by decide),
    ((serialize_value_fallback exampleSerializer QMetaType.UnknownType
        (.str "x")).2.2.2 rfl (by decide) (by decide)).1 rfl⟩

/-! ## C11: the final type conversion of `deserializeVariant` -/

/-- C11 as stated fails for the string target type and JSON null: with no converter the value
obtained is the `nullptr` value of `toVariant`, which Qt converts to the null string, yet
`deserializeVariant` does not return the converted value; with `allowDefaultNull` disabled it
fails. -/
theorem final_conversion_counterexample :
    nullToStringSerializer.deserializedVariant QMetaType.QString .null =
      .ok (.other QMetaType.Nullptr 0) ∧
    (QVariant.other QMetaType.Nullptr 0).convert nullToStringSerializer.metaTypes
      QMetaType.QString = some (.str "") ∧
    nullToStringSerializer.allowNull = false ∧
    nullToStringSerializer.deserializeVariant QMetaType.QString .null =
      .error (.deserialization (nullToStringSerializer.convertMessage
        ((QVariant.other QMetaType.Nullptr 0).typeName nullToStringSerializer.metaTypes)
        QMetaType.QString)) :=
  ⟨rfl, rfl, rfl, rfl⟩

/-- C11, amended: for every concrete target type `t` and JSON value `j`, except the string
target type with `j` null: if the value obtained from the resolved converter or the primitive
fallback is convertible to `t`, `deserializeVariant` returns it converted to `t`; otherwise, if
`allowDefaultNull` is enabled and `j` is null, it returns the default instance of `t`; otherwise
it fails with a deserialization exception. -/
theorem final_conversion (s : QJsonSerializer) (t : Nat) (j : QJsonValue) (v : QVariant)
    (ht : t ≠ QMetaType.UnknownType)
    (hexcept : ¬ (t = QMetaType.QString ∧ j.isNull = true))
    (hv : s.deserializedVariant t j = .ok v) :
    (∀ converted, v.convert s.metaTypes t = some converted →
      s.deserializeVariant t j = .ok converted) ∧
    (v.convert s.metaTypes t = none → s.allowNull = true → j.isNull = true →
      s.deserializeVariant t j = .ok (QVariant.ofType s.metaTypes t)) ∧
    (v.convert s.metaTypes t = none → ¬ (s.allowNull = true ∧ j.isNull = true) →
      s.deserializeVariant t j =
        .error (.deserialization (s.convertMessage (v.typeName s.metaTypes) t))) := by
  have hallow : (!(t == QMetaType.QString && j.isNull)) = true := by
    cases hj : j.isNull
    · simp
    · have : t ≠ QMetaType.QString := fun h => hexcept ⟨h, hj⟩
      simp [this]
  refine ⟨?_, ?_, ?_⟩
  · intro converted hc
    simp [QJsonSerializer.deserializeVariant, hv, ht, hallow, hc]
  · intro hc hnull hj
    simp [QJsonSerializer.deserializeVariant, hv, ht, hallow, hc, hnull, hj]
  · intro hc hnot
    have hcond : (s.allowNull && j.isNull) = false := by
      cases h1 : s.allowNull <;> cases h2 : j.isNull <;> simp_all
    simp [QJsonSerializer.deserializeVariant, hv, ht, hallow, hc, hcond]

/-- C11, amended, on the example serializer: the JSON string `"x"` for the string target is
returned as the string it is, and the JSON number 3 for the target `int`, which the example
registry cannot convert, is refused. -/
theorem final_conversion_witness :
    exampleSerializer.deserializeVariant QMetaType.QString (.string "x") = .ok (.str "x") ∧
    exampleSerializer.deserializeVariant QMetaType.Int (.double 3) =
      .error (.deserialization (exampleSerializer.convertMessage
        ((QVariant.double 3).typeName exampleSerializer.metaTypes) QMetaType.Int)) :=
  ⟨(final_conversion exampleSerializer QMetaType.QString (.string "x") (.str "x")
      (by decide) (by decide) rfl).1 (.str "x") rfl,
    (final_conversion exampleSerializer QMetaType.Int (.double 3) (.double 3)
      (by decide) (by decide) rfl).2.2 rfl (by decide)⟩

/-! ## Lemmas on the members of a JSON object -/

theorem jsonObject_value_insert (o : QJsonObject) (key : String) (value : QJsonValue)
    (k : String) :
    (o.insert key value).value k = if k = key then some value else o.value k := by
  induction o with
  | nil =>
    by_cases h : k = key
    · subst h; simp [QJsonObject.insert, QJsonObject.value]
    · have h' : ¬ key = k := fun e => h e.symm
      simp [QJsonObject.insert, QJsonObject.value, h, h']
  | cons m rest ih =>
    obtain ⟨k0, v0⟩ := m
    simp only [QJsonObject.insert]
    by_cases h1 : k0 = key
    · subst h1
      by_cases h : k = k0
      · subst h; simp [QJsonObject.value]
      · have h' : ¬ k0 = k := fun e => h e.symm
        simp [QJsonObject.value, List.find?_cons, h, h']
    · simp only [h1, if_false]
      by_cases h2 : key.toList < k0.toList
      · simp only [h2, if_true]
        by_cases h : k = key
        · subst h; simp [QJsonObject.value]
        · have h' : ¬ key = k := fun e => h e.symm
          simp [QJsonObject.value, List.find?_cons, h, h']
      · simp only [h2, if_false]
        by_cases h3 : k0 = k
        · subst h3
          simp [QJsonObject.value, List.find?_cons, h1]
        · have e : ∀ o' : QJsonObject, QJsonObject.value ((k0, v0) :: o') k = o'.value k := by
            intro o'
            simp [QJsonObject.value, List.find?_cons, h3]
          rw [e, e, ih]

theorem jsonObject_contains_iff (o : QJsonObject) (key : String) :
    o.contains key = true ↔ key ∈ o.keys := by
  simp [QJsonObject.contains, QJsonObject.keys]

/-- Assigning to a key that is absent keeps every member and adds one. -/
theorem jsonObject_insert_fresh (o : QJsonObject) (key : String) (value : QJsonValue)
    (h : key ∉ o.keys) :
    (∀ m, m ∈ o → m ∈ o.insert key value) ∧ (key, value) ∈ o.insert key value ∧
      (o.insert key value).length = o.length + 1 := by
  induction o with
  | nil => simp [QJsonObject.insert]
  | cons m rest ih =>
    obtain ⟨k0, v0⟩ := m
    have h1 : ¬ k0 = key := by
      intro e
      exact h (by simp [QJsonObject.keys, e])
    have hrest : key ∉ QJsonObject.keys rest := by
      intro e
      exact h (by simp only [QJsonObject.keys, List.map_cons, List.mem_cons] at e ⊢; exact Or.inr e)
    obtain ⟨ih1, ih2, ih3⟩ := ih hrest
    simp only [QJsonObject.insert, h1, if_false]
    by_cases h2 : key.toList < k0.toList
    · simp only [h2, if_true]
      refine ⟨fun m hm => List.mem_cons_of_mem _ hm, List.mem_cons_self _ _, by simp⟩
    · simp only [h2, if_false]
      refine ⟨?_, List.mem_cons_of_mem _ ih2, by simp [ih3]⟩
      intro m hm
      rcases List.mem_cons.mp hm with rfl | hm
      · exact List.mem_cons_self _ _
      · exact List.mem_cons_of_mem _ (ih1 m hm)

/-- The property loop of `serialize` when every stored property serializes to a value other than
`Undefined`: it ends normally, the keys of the object are the old keys and the names of the stored properties, and the value of
a key is the serialized value of the last stored property of that name, or the old value when no
stored property has that name. -/
theorem serializeProperties_stored (helper : SerializationHelper) (fields : List QVariant)
    (props : List QMetaProperty) (i : Nat) (obj : QJsonObject)
    (h : ∀ m p, props[m]? = some p → p.isStored = true →
      ∃ j, helper.serializeSubtype p (readOnGadget (i + m) fields) = .ok j ∧ j ≠ .undefined) :
    ∃ obj', QJsonGadgetConverter.serializeProperties helper fields props i obj = .ok obj' ∧
      (∀ k, k ∈ obj'.keys ↔ k ∈ obj.keys ∨ ∃ p ∈ props, p.isStored = true ∧ p.name = k) ∧
      (∀ k j, obj'.value k = some j ↔
        (∃ m p, props[m]? = some p ∧ p.isStored = true ∧ p.name = k ∧
          (∀ m' p', m < m' → props[m']? = some p' → p'.isStored = true → p'.name ≠ k) ∧
          helper.serializeSubtype p (readOnGadget (i + m) fields) = .ok j) ∨
        ((∀ p ∈ props, p.isStored = true → p.name ≠ k) ∧ obj.value k = some j)) := by
  induction props generalizing i obj with
  | nil =>
    refine ⟨obj, rfl, by simp, ?_⟩
    intro k j
    simp
  | cons q rest ih =>
    have hrest : ∀ m p, rest[m]? = some p → p.isStored = true →
        ∃ j, helper.serializeSubtype p (readOnGadget (i + 1 + m) fields) = .ok j ∧
          j ≠ .undefined := by
      intro m p hp hs
      have := h (m + 1) p (by simpa using hp) hs
      rwa [show i + (m + 1) = i + 1 + m by omega] at this
    -- the properties of `rest` seen from the longer list
    have shift : ∀ (k : String) (j : QJsonValue),
        (∃ m p, rest[m]? = some p ∧ p.isStored = true ∧ p.name = k ∧
          (∀ m' p', m < m' → rest[m']? = some p' → p'.isStored = true → p'.name ≠ k) ∧
          helper.serializeSubtype p (readOnGadget (i + 1 + m) fields) = .ok j) ↔
        (∃ m p, (q :: rest)[m + 1]? = some p ∧ p.isStored = true ∧ p.name = k ∧
          (∀ m' p', m + 1 < m' → (q :: rest)[m']? = some p' → p'.isStored = true → p'.name ≠ k) ∧
          helper.serializeSubtype p (readOnGadget (i + (m + 1)) fields) = .ok j) := by
      intro k j
      constructor
      · rintro ⟨m, p, hp, hs, hn, hmax, hj⟩
        refine ⟨m, p, by simpa using hp, hs, hn, ?_, ?_⟩
        · intro m' p' hm' hp' hs'
          obtain ⟨m'', rfl⟩ : ∃ m'', m' = m'' + 1 := ⟨m' - 1, by omega⟩
          exact hmax m'' p' (by omega) (by simpa using hp') hs'
        · rwa [show i + (m + 1) = i + 1 + m by omega]
      · rintro ⟨m, p, hp, hs, hn, hmax, hj⟩
        refine ⟨m, p, by simpa using hp, hs, hn, ?_, ?_⟩
        · intro m' p' hm' hp' hs'
          exact hmax (m' + 1) p' (by omega) (by simpa using hp') hs'
        · rwa [show i + (m + 1) = i + 1 + m by omega] at hj
    have noneLater : ∀ k : String,
        (∀ m' p', 0 < m' → (q :: rest)[m']? = some p' → p'.isStored = true → p'.name ≠ k) ↔
        (∀ p ∈ rest, p.isStored = true → p.name ≠ k) := by
      intro k
      constructor
      · intro hmax p hp hs
        obtain ⟨m, hm⟩ := List.getElem?_of_mem hp
        exact hmax (m + 1) p (by omega) (by simpa using hm) hs
      · intro hall m' p' hm' hp' hs'
        obtain ⟨m'', rfl⟩ : ∃ m'', m' = m'' + 1 := ⟨m' - 1, by omega⟩
        exact hall p' (List.getElem?_mem (by simpa using hp')) hs'
    by_cases hs : q.isStored = true
    · obtain ⟨j0, hj0, hdef⟩ := h 0 q (List.getElem?_cons_zero ..) hs
      simp only [Nat.add_zero] at hj0
      obtain ⟨obj', heq, hkeys, hval⟩ := ih (i + 1) (obj.insert q.name j0) hrest
      refine ⟨obj', ?_, ?_, ?_⟩
      · simp only [QJsonGadgetConverter.serializeProperties, hs, if_true]
        rw [hj0]
        simp only []
        rw [jsonObject_assign obj q.name j0 hdef]
        exact heq
      · intro k
        rw [hkeys, jsonObject_mem_keys_insert]
        simp only [List.mem_cons, exists_eq_or_imp]
        constructor
        · rintro ((h1 | h1) | h1)
          · exact Or.inr (Or.inl ⟨hs, h1.symm⟩)
          · exact Or.inl h1
          · exact Or.inr (Or.inr h1)
        · rintro (h1 | ⟨-, h1⟩ | h1)
          · exact Or.inl (Or.inr h1)
          · exact Or.inl (Or.inl h1.symm)
          · exact Or.inr h1
      · intro k j
        rw [hval, shift, jsonObject_value_insert]
        constructor
        · rintro (⟨m, p, hm⟩ | ⟨hall, hv⟩)
          · exact Or.inl ⟨m + 1, p, hm⟩
          · by_cases hk : k = q.name
            · rw [if_pos hk] at hv
              have hjj : j0 = j := by simpa using hv
              subst hjj
              exact Or.inl ⟨0, q, List.getElem?_cons_zero .., hs, hk.symm,
                (noneLater k).mpr hall, by simpa using hj0⟩
            · rw [if_neg hk] at hv
              refine Or.inr ⟨?_, hv⟩
              intro p hp hps
              rcases List.mem_cons.mp hp with rfl | hp
              · exact fun e => hk e.symm
              · exact hall p hp hps
        · rintro (⟨m, p, hp, hps, hn, hmax, hj⟩ | ⟨hall, hv⟩)
          · cases m with
            | zero =>
              have hpq : q = p := by simpa using hp
              subst hpq
              refine Or.inr ⟨(noneLater k).mp hmax, ?_⟩
              rw [if_pos hn.symm]
              simp only [Nat.add_zero] at hj
              rw [hj0] at hj
              simpa using hj
            | succ m => exact Or.inl ⟨m, p, hp, hps, hn, hmax, hj⟩
          · have hk : ¬ k = q.name := fun e => hall q (List.mem_cons_self _ _) hs e.symm
            rw [if_neg hk]
            exact Or.inr ⟨fun p hp => hall p (List.mem_cons_of_mem _ hp), hv⟩
    · obtain ⟨obj', heq, hkeys, hval⟩ := ih (i + 1) obj hrest
      refine ⟨obj', ?_, ?_, ?_⟩
      · simp only [QJsonGadgetConverter.serializeProperties, hs, if_false]
        exact heq
      · intro k
        rw [hkeys]
        simp only [List.mem_cons, exists_eq_or_imp]
        constructor
        · rintro (h1 | h1)
          · exact Or.inl h1
          · exact Or.inr (Or.inr h1)
        · rintro (h1 | ⟨h1, -⟩ | h1)
          · exact Or.inl h1
          · exact absurd h1 hs
          · exact Or.inr h1
      · intro k j
        rw [hval, shift]
        constructor
        · rintro (⟨m, p, hm⟩ | ⟨hall, hv⟩)
          · exact Or.inl ⟨m + 1, p, hm⟩
          · refine Or.inr ⟨?_, hv⟩
            intro p hp hps
            rcases List.mem_cons.mp hp with rfl | hp
            · exact absurd hps hs
            · exact hall p hp hps
        · rintro (⟨m, p, hp, hps, hn, hmax, hj⟩ | ⟨hall, hv⟩)
          · cases m with
            | zero =>
              have hpq : q = p := by simpa using hp
              subst hpq
              exact absurd hps hs
            | succ m => exact Or.inl ⟨m, p, hp, hps, hn, hmax, hj⟩
          · exact Or.inr ⟨fun p hp => hall p (List.mem_cons_of_mem _ hp), hv⟩

/-- The method `serialize` on a record that is not null: the body from line 50 on. -/
theorem serialize_wrap (mt : QMetaType) (helper : SerializationHelper) (t : Nat)
    (mo : QMetaObject) (gadget : List QVariant) (hmeta : mt.metaObjectForType t = some mo) :
    QJsonGadgetConverter.serialize mt helper t (QJsonGadgetConverter.wrap mt t gadget) =
      QJsonGadgetConverter.serializeGadget mt helper t mo gadget := by
  unfold QJsonGadgetConverter.serialize QJsonGadgetConverter.wrap
  cases hp : mt.isPointerToGadget t <;>
    simp [hmeta, QVariant.convert, QVariant.userType]

/-! ## C19: the members `serialize` emits -/

/-- C19 as stated fails.  The record of class `Holder` has one stored field, of a type without
converter and without JSON form: `serializeSubtype` fails for it, and `serialize` fails with it
instead of returning an object.  The record of class `Shadow` has two stored fields of the same
name `a`, with the values 1 and 2: the object has one member `a`, with the value of the second
field, and nothing of the first.  The record of class `Carrier` has the stored fields `a`, with
the value 1, and `payload`, of type `QJsonValue` and holding `Undefined`: `serializeSubtype`
returns `Undefined` for it, the assignment of line 55 inserts nothing, and the object has no
member `payload`. -/
theorem stored_fields_emitted_counterexample :
    QJsonGadgetConverter.serialize recordTypes exampleSerializer.helper 1003
        (QJsonGadgetConverter.wrap recordTypes 1003 [.other 3000 1]) =
      .error (.serialization "Failed to convert type  to a JSON representation") ∧
    exampleSerializer.helper.serializeClassInfo = false ∧
    QJsonGadgetConverter.serialize recordTypes exampleSerializer.helper 1004
        (QJsonGadgetConverter.wrap recordTypes 1004 [.num QMetaType.Int 1, .num QMetaType.Int 2]) =
      .ok (.object [("a", .double 2)]) ∧
    exampleSerializer.helper.serializeSubtype (intProperty "a") (.num QMetaType.Int 1) =
      .ok (.double 1) ∧
    carrierMeta.properties.map (fun p => (p.name, p.isStored)) =
      [("a", true), ("payload", true)] ∧
    carrierMeta.properties[1]?.map
        (fun p => exampleSerializer.helper.serializeSubtype p (.json .undefined)) =
      some (.ok .undefined) ∧
    QJsonGadgetConverter.serialize carrierTypes exampleSerializer.helper 1008
        (QJsonGadgetConverter.wrap carrierTypes 1008 [.num QMetaType.Int 1, .json .undefined]) =
      .ok (.object [("a", .double 1)]) :=
  ⟨rfl, rfl, rfl, rfl, rfl, rfl, rfl⟩

/-- C19, amended: for every non-null record value whose stored fields all serialize, each to a
JSON value other than `Undefined`, with class-info serialization disabled, `serialize` returns a
JSON object whose key set is exactly the set of names of the fields with `isStored` true, each
key mapped to the `serializeSubtype` result for the current value of the last stored field of
that name; so a name that only fields with `isStored` false bear is not in the output.  The
`serializeSubtype` of the facade gives the enum encoding for an enum-typed field. -/
theorem stored_fields_emitted (mt : QMetaType) (helper : SerializationHelper) (t : Nat)
    (mo : QMetaObject) (gadget : List QVariant)
    (hmeta : mt.metaObjectForType t = some mo)
    (hclass : helper.serializeClassInfo = false)
    (hser : ∀ m p, mo.properties[m]? = some p → p.isStored = true →
      ∃ j, helper.serializeSubtype p (readOnGadget m gadget) = .ok j ∧ j ≠ .undefined) :
    (∃ obj : QJsonObject,
      QJsonGadgetConverter.serialize mt helper t (QJsonGadgetConverter.wrap mt t gadget) =
        .ok (.object obj) ∧
      (∀ k, k ∈ obj.keys ↔ ∃ p ∈ mo.properties, p.isStored = true ∧ p.name = k) ∧
      (∀ k j, obj.value k = some j ↔
        ∃ m p, mo.properties[m]? = some p ∧ p.isStored = true ∧ p.name = k ∧
          (∀ m' p', m < m' → mo.properties[m']? = some p' → p'.isStored = true → p'.name ≠ k) ∧
          helper.serializeSubtype p (readOnGadget m gadget) = .ok j)) ∧
    (∀ (s : QJsonSerializer) (p : QMetaProperty) (v : QVariant), p.isEnumType = true →
      s.helper.serializeSubtype p v = .ok (serializeEnum s.enumAsString p.enumerator v)) := by
  refine ⟨?_, ?_⟩
  · obtain ⟨obj, heq, hkeys, hval⟩ :=
      serializeProperties_stored helper gadget mo.properties 0 [] (by simpa using hser)
    refine ⟨obj, ?_, ?_, ?_⟩
    · rw [serialize_wrap mt helper t mo gadget hmeta]
      simp [QJsonGadgetConverter.serializeGadget, heq, hclass]
    · intro k
      rw [hkeys]
      simp [QJsonObject.keys]
    · intro k j
      rw [hval]
      simp [QJsonObject.value]
  · intro s p v hp
    simp [QJsonSerializer.helper, QJsonSerializer.serializeSubtype, hp]

/-- C19, amended, at the record of class `Point` with `a = 1` and `b = 2` and the facade as
helper: the object is `{"a": 1, "b": 2}`. -/
theorem stored_fields_emitted_witness :
    ∃ obj : QJsonObject,
      QJsonGadgetConverter.serialize exampleTypes exampleSerializer.helper 1000
          (QJsonGadgetConverter.wrap exampleTypes 1000 [.num QMetaType.Int 1, .num QMetaType.Int 2]) =
        .ok (.object obj) ∧
      (∀ k, k ∈ obj.keys ↔ ∃ p ∈ pointMeta.properties, p.isStored = true ∧ p.name = k) ∧
      (∀ k j, obj.value k = some j ↔
        ∃ m p, pointMeta.properties[m]? = some p ∧ p.isStored = true ∧ p.name = k ∧
          (∀ m' p', m < m' → pointMeta.properties[m']? = some p' → p'.isStored = true →
            p'.name ≠ k) ∧
          exampleSerializer.helper.serializeSubtype p
            (readOnGadget m [.num QMetaType.Int 1, .num QMetaType.Int 2]) = .ok j) :=
  (stored_fields_emitted exampleTypes exampleSerializer.helper 1000 pointMeta
    [.num QMetaType.Int 1, .num QMetaType.Int 2] rfl rfl (by
      intro m p hp _
      match m, hp with
      | 0, hp => exact ⟨.double 1, by cases hp; rfl, by simp⟩
      | 1, hp => exact ⟨.double 2, by cases hp; rfl, by simp⟩
      | m + 2, hp => simp [pointMeta] at hp)).1

/-! ## Lemmas on the class-info loop of `serialize` -/

/-- The property loop reads nothing of the helper but `serializeSubtype`. -/
theorem serializeProperties_congr (helper helper' : SerializationHelper)
    (hsub : helper'.serializeSubtype = helper.serializeSubtype) (fields : List QVariant)
    (props : List QMetaProperty) (i : Nat) (obj : QJsonObject) :
    QJsonGadgetConverter.serializeProperties helper' fields props i obj =
      QJsonGadgetConverter.serializeProperties helper fields props i obj := by
  induction props generalizing i obj with
  | nil => rfl
  | cons q rest ih =>
    simp only [QJsonGadgetConverter.serializeProperties, hsub, ih]

/-- The class-info loop either meets a collision, a derived key that is a key of the object or
an earlier derived key, and throws; or it meets none and adds one member per class info, keeping
every member the object had. -/
theorem serializeClassInfos_cases (keyPrefix keySuffix typeName : String)
    (cis : List QMetaClassInfo) (obj : QJsonObject) :
    (((∃ ci ∈ cis, QJsonGadgetConverter.classInfoKey keyPrefix keySuffix ci ∈ obj.keys) ∨
        ¬ (cis.map (QJsonGadgetConverter.classInfoKey keyPrefix keySuffix)).Nodup) ∧
      ∃ what, QJsonGadgetConverter.serializeClassInfos keyPrefix keySuffix typeName cis obj =
        .error (.serialization what)) ∨
    ((∀ ci ∈ cis, QJsonGadgetConverter.classInfoKey keyPrefix keySuffix ci ∉ obj.keys) ∧
      (cis.map (QJsonGadgetConverter.classInfoKey keyPrefix keySuffix)).Nodup ∧
      ∃ obj' : QJsonObject,
        QJsonGadgetConverter.serializeClassInfos keyPrefix keySuffix typeName cis obj = .ok obj' ∧
        (∀ m ∈ obj, m ∈ obj') ∧ obj'.length = obj.length + cis.length ∧
        ∀ ci ∈ cis,
          (QJsonGadgetConverter.classInfoKey keyPrefix keySuffix ci, .string ci.value) ∈ obj') := by
  induction cis generalizing obj with
  | nil => exact Or.inr ⟨by simp, by simp, obj, rfl, fun m hm => hm, by simp, by simp⟩
  | cons ci rest ih =>
    simp only [QJsonGadgetConverter.serializeClassInfos]
    have hkey : keyPrefix ++ ci.name ++ keySuffix =
        QJsonGadgetConverter.classInfoKey keyPrefix keySuffix ci := rfl
    rw [hkey]
    by_cases hc : obj.contains (QJsonGadgetConverter.classInfoKey keyPrefix keySuffix ci) = true
    · rw [if_pos hc]
      exact Or.inl ⟨Or.inl ⟨ci, List.mem_cons_self _ _, (jsonObject_contains_iff _ _).mp hc⟩,
        _, rfl⟩
    · rw [if_neg hc]
      have hfresh : QJsonGadgetConverter.classInfoKey keyPrefix keySuffix ci ∉ obj.keys :=
        fun h => hc ((jsonObject_contains_iff _ _).mpr h)
      obtain ⟨hin, hnew, hlen⟩ := jsonObject_insert_fresh obj _ (.string ci.value) hfresh
      rcases ih (obj.insert (QJsonGadgetConverter.classInfoKey keyPrefix keySuffix ci)
          (.string ci.value)) with ⟨hcol, herr⟩ | ⟨hno, hnodup, obj', heq, hmem, hl, hall⟩
      · refine Or.inl ⟨?_, herr⟩
        rcases hcol with ⟨ci', hci', hk⟩ | hdup
        · rcases (jsonObject_mem_keys_insert _ _ _ _).mp hk with hk | hk
          · right
            intro hnd
            rw [List.map_cons] at hnd
            have := (List.nodup_cons.mp hnd).1
            exact this (by rw [← hk]; exact List.mem_map_of_mem _ hci')
          · exact Or.inl ⟨ci', List.mem_cons_of_mem _ hci', hk⟩
        · right
          intro hnd
          rw [List.map_cons] at hnd
          exact hdup (List.nodup_cons.mp hnd).2
      · refine Or.inr ⟨?_, ?_, obj', heq, fun m hm => hmem m (hin m hm), ?_, ?_⟩
        · intro ci' hci'
          rcases List.mem_cons.mp hci' with rfl | hci'
          · exact hfresh
          · intro hk
            exact hno ci' hci' ((jsonObject_mem_keys_insert _ _ _ _).mpr (Or.inr hk))
        · simp only [List.map_cons]
          refine List.nodup_cons.mpr ⟨?_, hnodup⟩
          intro hk
          obtain ⟨ci', hci', he⟩ := List.mem_map.mp hk
          exact hno ci' hci' ((jsonObject_mem_keys_insert _ _ _ _).mpr (Or.inl he))
        · rw [hl, hlen]
          simp only [List.length_cons]
          omega
        · intro ci' hci'
          rcases List.mem_cons.mp hci' with rfl | hci'
          · exact hmem _ hnew
          · exact hall ci' hci'

/-- The body of `serialize` with class-info serialization enabled: the class-info loop runs on
the object of the property loop. -/
theorem serializeGadget_classInfo (mt : QMetaType) (helper : SerializationHelper) (t : Nat)
    (mo : QMetaObject) (gadget : List QVariant) (obj0 : QJsonObject)
    (hclass : helper.serializeClassInfo = true)
    (h0 : QJsonGadgetConverter.serializeProperties helper gadget mo.properties 0 [] = .ok obj0) :
    QJsonGadgetConverter.serializeGadget mt helper t mo gadget =
      match QJsonGadgetConverter.serializeClassInfos helper.classInfoKeyPrefix
          helper.classInfoKeySuffix (mt.typeName t) mo.classInfos obj0 with
      | .error e => .error e
      | .ok withInfo => .ok (.object withInfo) := by
  simp only [QJsonGadgetConverter.serializeGadget, h0, hclass]
  cases hci : mo.classInfos with
  | nil => simp [QJsonGadgetConverter.serializeClassInfos]
  | cons ci rest => simp

/-! ## C20: collisions of class-info keys -/

/-- C20 (a derived-key collision is always an error): let class-info serialization be enabled,
and let `obj0` be the object `serialize` returns for a non-null record with class-info
serialization disabled.  If a derived key (prefix, class-info name, suffix) is a key of `obj0` or
equals an earlier derived key, `serialize` fails with a serialization exception; otherwise it
succeeds; and whenever it succeeds, the result is an object that has every member of `obj0` with
its value, one member per class info, and no other member. -/
theorem class_info_collision (mt : QMetaType) (helper : SerializationHelper) (t : Nat)
    (mo : QMetaObject) (gadget : List QVariant) (obj0 : QJsonObject)
    (hmeta : mt.metaObjectForType t = some mo)
    (hclass : helper.serializeClassInfo = true)
    (h0 : QJsonGadgetConverter.serialize mt { helper with serializeClassInfo := false } t
      (QJsonGadgetConverter.wrap mt t gadget) = .ok (.object obj0)) :
    (((∃ ci ∈ mo.classInfos,
          QJsonGadgetConverter.classInfoKey helper.classInfoKeyPrefix helper.classInfoKeySuffix ci ∈
            obj0.keys) ∨
        ¬ (mo.classInfos.map (QJsonGadgetConverter.classInfoKey helper.classInfoKeyPrefix
            helper.classInfoKeySuffix)).Nodup) →
      ∃ what, QJsonGadgetConverter.serialize mt helper t (QJsonGadgetConverter.wrap mt t gadget) =
        .error (.serialization what)) ∧
    (¬ ((∃ ci ∈ mo.classInfos,
          QJsonGadgetConverter.classInfoKey helper.classInfoKeyPrefix helper.classInfoKeySuffix ci ∈
            obj0.keys) ∨
        ¬ (mo.classInfos.map (QJsonGadgetConverter.classInfoKey helper.classInfoKeyPrefix
            helper.classInfoKeySuffix)).Nodup) →
      ∃ obj : QJsonObject,
        QJsonGadgetConverter.serialize mt helper t (QJsonGadgetConverter.wrap mt t gadget) =
          .ok (.object obj)) ∧
    (∀ j, QJsonGadgetConverter.serialize mt helper t (QJsonGadgetConverter.wrap mt t gadget) =
        .ok j →
      ∃ obj : QJsonObject, j = .object obj ∧ (∀ m ∈ obj0, m ∈ obj) ∧
        obj.length = obj0.length + mo.classInfos.length ∧
        ∀ ci ∈ mo.classInfos,
          (QJsonGadgetConverter.classInfoKey helper.classInfoKeyPrefix helper.classInfoKeySuffix ci,
            .string ci.value) ∈ obj) := by
  -- the object of the property loop
  have hprops : QJsonGadgetConverter.serializeProperties helper gadget mo.properties 0 [] =
      .ok obj0 := by
    rw [serialize_wrap mt _ t mo gadget hmeta] at h0
    rw [← serializeProperties_congr helper { helper with serializeClassInfo := false } rfl]
    simp only [QJsonGadgetConverter.serializeGadget, Bool.false_and, Bool.false_eq_true,
      if_false] at h0
    cases hp : QJsonGadgetConverter.serializeProperties { helper with serializeClassInfo := false }
        gadget mo.properties 0 [] with
    | error e => rw [hp] at h0; cases h0
    | ok o =>
      rw [hp] at h0
      simp only [Except.ok.injEq, QJsonValue.object.injEq] at h0
      rw [h0]
  rw [serialize_wrap mt helper t mo gadget hmeta,
    serializeGadget_classInfo mt helper t mo gadget obj0 hclass hprops]
  rcases serializeClassInfos_cases helper.classInfoKeyPrefix helper.classInfoKeySuffix
      (mt.typeName t) mo.classInfos obj0 with
    ⟨hcol, what, herr⟩ | ⟨hno, hnodup, obj, heq, hmem, hlen, hall⟩
  · rw [herr]
    refine ⟨fun _ => ⟨what, rfl⟩, fun h => absurd hcol h, ?_⟩
    intro j hj
    cases hj
  · rw [heq]
    refine ⟨?_, fun _ => ⟨obj, rfl⟩, ?_⟩
    · rintro (⟨ci, hci, hk⟩ | hdup)
      · exact absurd hk (hno ci hci)
      · exact absurd hnodup hdup
    · intro j hj
      simp only [Except.ok.injEq] at hj
      exact ⟨obj, hj.symm, hmem, hlen, hall⟩

/-- C20 at the record of class `Tagged`, which has the stored field `a` and the class infos
`version` and `a`.  With an empty prefix and suffix the derived key `a` is the name of the field:
`serialize` fails.  With the prefix `@` no derived key collides: `serialize` succeeds with
`{"@a": "x", "@version": "1", "a": 5}`, the field entry being the one of the object
`{"a": 5}` that class-info serialization disabled gives. -/
theorem class_info_collision_witness :
    (∃ what,
      QJsonGadgetConverter.serialize recordTypes (classInfoSerializer "").helper 1005
          (QJsonGadgetConverter.wrap recordTypes 1005 [.num QMetaType.Int 5]) =
        .error (.serialization what)) ∧
    QJsonGadgetConverter.serialize recordTypes (classInfoSerializer "@").helper 1005
        (QJsonGadgetConverter.wrap recordTypes 1005 [.num QMetaType.Int 5]) =
      .ok (.object [("@a", .string "x"), ("@version", .string "1"), ("a", .double 5)]) ∧
    (∃ obj : QJsonObject,
      QJsonValue.object [("@a", .string "x"), ("@version", .string "1"), ("a", .double 5)] =
        .object obj ∧
      (∀ m ∈ ([("a", .double 5)] : QJsonObject), m ∈ obj) ∧
      obj.length = ([("a", .double 5)] : QJsonObject).length + taggedMeta.classInfos.length ∧
      ∀ ci ∈ taggedMeta.classInfos,
        (QJsonGadgetConverter.classInfoKey "@" "" ci, .string ci.value) ∈ obj) :=
  ⟨(class_info_collision recordTypes (classInfoSerializer "").helper 1005 taggedMeta
      [.num QMetaType.Int 5] [("a", .double 5)] rfl rfl rfl).1
      (Or.inl ⟨{ name := "a", value := "x" }, by simp [taggedMeta], by decide⟩),
    rfl,
    (class_info_collision recordTypes (classInfoSerializer "@").helper 1005 taggedMeta
      [.num QMetaType.Int 5] [("a", .double 5)] rfl rfl rfl).2.2 _ rfl⟩

/-! ## C22: JSON null and the string target -/

/-- C22 (JSON null never converts into a string target): for the string target type and JSON
null, whatever intermediate value `v` the resolved converter or the primitive fallback gives, and
also when `v` is convertible to a string, `deserializeVariant` does not return the converted
value: with `allowDefaultNull` disabled it fails with a deserialization exception, with
`allowDefaultNull` enabled it returns the default (null) string. -/
theorem null_to_string (s : QJsonSerializer) (v : QVariant)
    (hv : s.deserializedVariant QMetaType.QString .null = .ok v) :
    (s.allowNull = false →
      s.deserializeVariant QMetaType.QString .null =
        .error (.deserialization (s.convertMessage (v.typeName s.metaTypes) QMetaType.QString))) ∧
    (s.allowNull = true → s.deserializeVariant QMetaType.QString .null = .ok (.str "")) := by
  refine ⟨?_, ?_⟩
  · intro h
    unfold QJsonSerializer.deserializeVariant
    rw [hv]
    simp [h, QJsonValue.isNull, QMetaType.QString, QMetaType.UnknownType]
  · intro h
    unfold QJsonSerializer.deserializeVariant
    rw [hv]
    simp [h, QJsonValue.isNull, QMetaType.QString, QMetaType.UnknownType, QVariant.ofType]

/-- C22 on the example serializers, whose intermediate value for JSON null is the `nullptr`
value, which the registry converts to the null string: with `allowDefaultNull` disabled the call
fails, with `allowDefaultNull` enabled it returns the null string. -/
theorem null_to_string_witness :
    (QVariant.other QMetaType.Nullptr 0).convert nullToStringSerializer.metaTypes
      QMetaType.QString = some (.str "") ∧
    nullToStringSerializer.deserializeVariant QMetaType.QString .null =
      .error (.deserialization (nullToStringSerializer.convertMessage
        ((QVariant.other QMetaType.Nullptr 0).typeName nullToStringSerializer.metaTypes)
        QMetaType.QString)) ∧
    allowNullSerializer.deserializeVariant QMetaType.QString .null = .ok (.str "") :=
  ⟨rfl,
    (null_to_string nullToStringSerializer (.other QMetaType.Nullptr 0) rfl).1 rfl,
    (null_to_string allowNullSerializer (.other QMetaType.Nullptr 0) rfl).2 rfl⟩

/-! ## C21: the lock upgrade of `findConverter` -/

/-- The method with its lock calls returns what `findConverter` returns. -/
theorem findInFactoriesWithLocks_result (d : QJsonSerializerPrivate) (t : Nat)
    (vt : Option JsonType) (facs : List QJsonTypeConverterFactory) (idx : Nat) :
    (findInFactoriesWithLocks d t vt facs idx).1 = findInFactories d t vt facs idx := by
  induction facs generalizing idx with
  | nil => rfl
  | cons f rest ih =>
    simp only [findInFactoriesWithLocks, findInFactories]
    split
    · cases hc : f.createConverter with
      | some c => rfl
      | none => simp only [ih]
    · exact ih (idx + 1)

theorem findConverterWithLocks_result (d : QJsonSerializerPrivate)
    (facs : List QJsonTypeConverterFactory) (t : Nat) (vt : Option JsonType) :
    (findConverterWithLocks d facs t vt).1 = findConverter d facs t vt := by
  unfold findConverterWithLocks findConverter
  cases cachedConverter d t vt with
  | some c => rfl
  | none =>
    simp only
    cases d.typeConverters.find? (fun c => acceptsKind c.jsonTypes vt && c.canConvert t) with
    | some c => rfl
    | none => exact findInFactoriesWithLocks_result d t vt facs 0

/-- The lock calls of the third step: those of a created converter or those of the return at
the end. -/
theorem findInFactoriesWithLocks_events (d : QJsonSerializerPrivate) (t : Nat)
    (vt : Option JsonType) (facs : List QJsonTypeConverterFactory) (idx : Nat) :
    (findInFactoriesWithLocks d t vt facs idx).2 =
        [.unlock .factoryLock, .unlock .typeConverterLock, .lockForWrite .typeConverterLock,
          .unlock .typeConverterLock] ∨
      (findInFactoriesWithLocks d t vt facs idx).2 =
        [.unlock .factoryLock, .unlock .typeConverterLock] := by
  induction facs generalizing idx with
  | nil => exact Or.inr rfl
  | cons f rest ih =>
    simp only [findInFactoriesWithLocks]
    split
    · cases hc : f.createConverter with
      | some c => exact Or.inl rfl
      | none => exact ih (idx + 1)
    · exact ih (idx + 1)

/-- The four sequences of lock calls of `findConverter`. -/
theorem findConverterWithLocks_events (d : QJsonSerializerPrivate)
    (facs : List QJsonTypeConverterFactory) (t : Nat) (vt : Option JsonType) :
    (findConverterWithLocks d facs t vt).2 =
        [.lockForRead .typeConverterLock, .unlock .typeConverterLock] ∨
      (findConverterWithLocks d facs t vt).2 =
        [.lockForRead .typeConverterLock, .unlock .typeConverterLock,
          .lockForWrite .typeConverterLock, .unlock .typeConverterLock] ∨
      (findConverterWithLocks d facs t vt).2 =
        [.lockForRead .typeConverterLock, .lockForRead .factoryLock, .unlock .factoryLock,
          .unlock .typeConverterLock, .lockForWrite .typeConverterLock,
          .unlock .typeConverterLock] ∨
      (findConverterWithLocks d facs t vt).2 =
        [.lockForRead .typeConverterLock, .lockForRead .factoryLock, .unlock .factoryLock,
          .unlock .typeConverterLock] := by
  unfold findConverterWithLocks
  cases cachedConverter d t vt with
  | some c => exact Or.inl rfl
  | none =>
    simp only
    cases d.typeConverters.find? (fun c => acceptsKind c.jsonTypes vt && c.canConvert t) with
    | some c => exact Or.inr (Or.inl rfl)
    | none =>
      simp only
      rcases findInFactoriesWithLocks_events d t vt facs 0 with h | h
      · exact Or.inr (Or.inr (Or.inl (by rw [h])))
      · exact Or.inr (Or.inr (Or.inr (by rw [h])))

/-- What the check `upgradesAfterRelease` says of a sequence of lock calls. -/
theorem upgradesAfterRelease_spec (held : HeldLocks) (events : List LockEvent)
    (h : upgradesAfterRelease held events = true) (pre : List LockEvent) (lock : Lock)
    (post : List LockEvent) (hsplit : events = pre ++ LockEvent.lockForWrite lock :: post) :
    lock = .typeConverterLock ∧ (pre.foldl HeldLocks.step held).reads = [] := by
  induction pre generalizing held events with
  | nil =>
    subst hsplit
    simp only [List.nil_append, upgradesAfterRelease, Bool.and_eq_true, decide_eq_true_eq,
      List.isEmpty_iff] at h
    exact ⟨h.1.1, h.1.2⟩
  | cons e rest ih =>
    subst hsplit
    simp only [List.cons_append, upgradesAfterRelease, Bool.and_eq_true] at h
    exact ih (held.step e) _ h.2 rfl

/-- C21 (lock upgrade discipline): on every execution path of `findConverter`, whenever the
call requests a write lock, it is the write lock of the instance, and the lock calls made before
the request have released every read lock the call took, the read lock of the instance and the
read lock of the factory list: no lock is held for reading at the request. -/
theorem lock_upgrade_discipline (d : QJsonSerializerPrivate)
    (facs : List QJsonTypeConverterFactory) (t : Nat) (vt : Option JsonType)
    (pre : List LockEvent) (lock : Lock) (post : List LockEvent)
    (hsplit : (findConverterWithLocks d facs t vt).2 =
      pre ++ LockEvent.lockForWrite lock :: post) :
    lock = .typeConverterLock ∧ (heldAfter pre).reads = [] := by
  rcases findConverterWithLocks_events d facs t vt with h | h | h | h <;>
    exact upgradesAfterRelease_spec _ _ (by rw [h]; rfl) pre lock post hsplit

/-- C21 on the path through a factory: the resolution of `typeU` on a fresh serializer takes the
read lock of the instance and the read lock of the factory list, releases both, and then
requests the write lock of the instance. -/
theorem lock_upgrade_discipline_witness :
    (findConverterWithLocks QJsonSerializerPrivate.initial [factoryF] typeU none).2 =
      [.lockForRead .typeConverterLock, .lockForRead .factoryLock, .unlock .factoryLock,
        .unlock .typeConverterLock] ++
        LockEvent.lockForWrite .typeConverterLock :: [.unlock .typeConverterLock] ∧
    (heldAfter [.lockForRead .typeConverterLock, .lockForRead .factoryLock]).reads =
      [.factoryLock, .typeConverterLock] ∧
    (heldAfter [.lockForRead .typeConverterLock, .lockForRead .factoryLock, .unlock .factoryLock,
      .unlock .typeConverterLock]).reads = [] :=
  ⟨rfl, rfl,
    (lock_upgrade_discipline QJsonSerializerPrivate.initial [factoryF] typeU none
      [.lockForRead .typeConverterLock, .lockForRead .factoryLock, .unlock .factoryLock,
        .unlock .typeConverterLock] .typeConverterLock [.unlock .typeConverterLock] rfl).2⟩

/-! ## Lemmas on the slots the member loop of `deserialize` writes -/

theorem writeOnGadget_getElem?_ne (p : QMetaProperty) (i0 i : Nat) (g : List QVariant)
    (v : QVariant) (hne : i0 ≠ i) : (writeOnGadget p i0 g v)[i]? = g[i]? := by
  unfold writeOnGadget
  cases p.write v with
  | none => rfl
  | some stored => exact List.getElem?_set_ne hne

theorem writeOnGadget_length (p : QMetaProperty) (i : Nat) (g : List QVariant) (v : QVariant) :
    (writeOnGadget p i g v).length = g.length := by
  unfold writeOnGadget
  cases p.write v <;> simp

/-- The member loop leaves a slot alone that the C string of no key of the object names. -/
theorem deserializeProperties_untouched (helper : SerializationHelper) (mo : QMetaObject)
    (o : QJsonObject) (g : List QVariant) (req : List String) (g' : List QVariant)
    (req' : List String) (i : Nat)
    (heq : QJsonGadgetConverter.deserializeProperties helper mo o g req = .ok (g', req'))
    (hother : ∀ k j, (k, j) ∈ o → ∀ i' p',
      mo.indexOfProperty (qUtf8Printable k) = some (i', p') → i' ≠ i) :
    g'[i]? = g[i]? := by
  induction o generalizing g req with
  | nil =>
    simp only [QJsonGadgetConverter.deserializeProperties, Except.ok.injEq, Prod.mk.injEq] at heq
    rw [heq.1]
  | cons mem rest ih =>
    obtain ⟨key, value⟩ := mem
    have hother' : ∀ k j, (k, j) ∈ rest → ∀ i' p',
        mo.indexOfProperty (qUtf8Printable k) = some (i', p') → i' ≠ i :=
      fun k j hm => hother k j (List.mem_cons_of_mem _ hm)
    cases hidx : mo.indexOfProperty (qUtf8Printable key) with
    | some found =>
      obtain ⟨i0, p0⟩ := found
      simp only [QJsonGadgetConverter.deserializeProperties, hidx] at heq
      cases hv : helper.deserializeSubtype p0 value with
      | error e => rw [hv] at heq; cases heq
      | ok v =>
        rw [hv] at heq
        rw [ih _ _ heq hother']
        exact writeOnGadget_getElem?_ne p0 i0 i g v
          (hother key value (List.mem_cons_self _ _) i0 p0 hidx)
    | none =>
      simp only [QJsonGadgetConverter.deserializeProperties, hidx] at heq
      cases hflag : helper.validationFlags.noExtraProperties with
      | true => simp [hflag] at heq
      | false =>
        simp only [hflag, Bool.false_eq_true, if_false] at heq
        exact ih _ _ heq hother'

/-- The member loop passes the deserialized value of a member to `writeOnGadget` for the slot
the C string of its key names: the slot holds what the property stores, or what it held when the
property stores nothing; the C strings of the keys of the object are distinct. -/
theorem deserializeProperties_written (helper : SerializationHelper) (mo : QMetaObject)
    (o : QJsonObject) (g : List QVariant) (req : List String) (g' : List QVariant)
    (req' : List String) (k : String) (j : QJsonValue) (i : Nat) (p : QMetaProperty)
    (heq : QJsonGadgetConverter.deserializeProperties helper mo o g req = .ok (g', req'))
    (hunique : (o.keys.map qUtf8Printable).Nodup) (hmem : (k, j) ∈ o)
    (hidx : mo.indexOfProperty (qUtf8Printable k) = some (i, p)) :
    ∃ v, helper.deserializeSubtype p j = .ok v ∧ g'[i]? = (writeOnGadget p i g v)[i]? := by
  -- a member of the rest whose C string names the same slot has the same C string
  have same : ∀ (k' : String) (i' : Nat) (p' : QMetaProperty),
      mo.indexOfProperty (qUtf8Printable k') = some (i', p') → i' = i →
      qUtf8Printable k' = qUtf8Printable k := by
    intro k' i' p' hidx' hii
    subst hii
    have h1 := indexOfProperty_name mo _ i' p hidx
    have h2 := indexOfProperty_name mo _ i' p' hidx'
    rw [h1.2] at h2
    have hpp : p = p' := by simpa using h2.2
    subst hpp
    rw [← h2.1, ← h1.1]
  induction o generalizing g req with
  | nil => simp at hmem
  | cons mem rest ih =>
    obtain ⟨key, value⟩ := mem
    have hnd : qUtf8Printable key ∉ (QJsonObject.keys rest).map qUtf8Printable ∧
        ((QJsonObject.keys rest).map qUtf8Printable).Nodup := by
      simpa [QJsonObject.keys] using hunique
    rcases List.mem_cons.mp hmem with hhead | htail
    · simp only [Prod.mk.injEq] at hhead
      obtain ⟨rfl, rfl⟩ := hhead
      simp only [QJsonGadgetConverter.deserializeProperties, hidx] at heq
      cases hv : helper.deserializeSubtype p j with
      | error e => rw [hv] at heq; cases heq
      | ok v =>
        rw [hv] at heq
        refine ⟨v, rfl, ?_⟩
        apply deserializeProperties_untouched helper mo rest _ _ g' req' i heq
        intro k' j' hm' i' p' hidx' hii
        apply hnd.1
        rw [← same k' i' p' hidx' hii]
        exact List.mem_map_of_mem _ (List.mem_map_of_mem Prod.fst hm')
    · have hkrest : qUtf8Printable k ∈ (QJsonObject.keys rest).map qUtf8Printable :=
        List.mem_map_of_mem _ (List.mem_map_of_mem Prod.fst htail)
      cases hidx0 : mo.indexOfProperty (qUtf8Printable key) with
      | some found =>
        obtain ⟨i0, p0⟩ := found
        simp only [QJsonGadgetConverter.deserializeProperties, hidx0] at heq
        cases hv : helper.deserializeSubtype p0 value with
        | error e => rw [hv] at heq; cases heq
        | ok v0 =>
          rw [hv] at heq
          have hne : i0 ≠ i := by
            intro hii
            apply hnd.1
            rw [same key i0 p0 hidx0 hii]
            exact hkrest
          obtain ⟨v, hv1, hv2⟩ := ih _ _ heq hnd.2 htail
          refine ⟨v, hv1, ?_⟩
          rw [hv2]
          unfold writeOnGadget
          cases p.write v with
          | none => exact writeOnGadget_getElem?_ne p0 i0 i g v0 hne
          | some stored =>
            have hlen := writeOnGadget_length p0 i0 g v0
            unfold writeOnGadget at hlen
            simp only [List.getElem?_set, hlen]
            simp
      | none =>
        simp only [QJsonGadgetConverter.deserializeProperties, hidx0] at heq
        cases hflag : helper.validationFlags.noExtraProperties with
        | true => simp [hflag] at heq
        | false =>
          simp only [hflag, Bool.false_eq_true, if_false] at heq
          exact ih _ _ heq hnd.2 htail

/-! ## C23: fields that are not stored -/

/-- C23 as stated fails.  The record class `Computed` has the stored field `a` and the field `c`
with `isStored` false, declared without `WRITE`: `writeOnGadget` stores nothing for it.  The key
`c` of the object `{"a": 1, "c": 7}` names that field and its value deserializes to 7, but the
record returned holds the default 0 in the slot of `c`: the value is not written to the
record. -/
theorem non_stored_fields_counterexample :
    computedMeta.properties.map (fun p => (p.name, p.isStored)) = [("a", true), ("c", false)] ∧
    (computedMeta.indexOfProperty "c").map Prod.fst = some 1 ∧
    (computedMeta.indexOfProperty "c").map
        (fun f => (exampleHelper fullValidation).deserializeSubtype f.2 (.double 7)) =
      some (.ok (.num QMetaType.Int 7)) ∧
    QJsonGadgetConverter.deserialize computedTypes (exampleHelper fullValidation) 1009
        (.object [("a", .double 1), ("c", .double 7)]) =
      .ok (.gadget 1009 [.num QMetaType.Int 1, .num QMetaType.Int 0]) :=
  ⟨rfl, rfl, rfl, rfl⟩

/-- C23, amended (a key naming a field that is not stored is known, its value is handed to
`writeOnGadget`, and the field is never required): let `deserialize` be able to construct an
instance of the record type `t`, and let `o` be a JSON object whose keys have distinct C strings
(a key counts up to its first NUL character) and in which the value of every key that names a
field, stored or not, deserializes, with `NoExtraProperties` unset or every key of `o` the name
of a field, stored or not, and with `AllProperties` unset or the name of every stored field a key
of `o`.  Then `deserialize` succeeds: a key that names a field with `isStored` false raises no
extra-property error, and the absence of the name of such a field raises no missing-properties
error.  And in the record returned the slot of the field a key names, also when the field has
`isStored` false, holds what `writeOnGadget` stores of the deserialized value of the key when
the field is writable, and what the constructed instance held when it is not. -/
theorem non_stored_fields (mt : QMetaType) (helper : SerializationHelper) (t : Nat)
    (mo : QMetaObject) (o : QJsonObject) (g0 : List QVariant)
    (hmo : mt.metaObjectForType t = some mo)
    (hcons : QJsonGadgetConverter.construct mt t mo = some g0)
    (hunique : (o.keys.map qUtf8Printable).Nodup)
    (hknown : ∀ k j, (k, j) ∈ o → ∀ i p, mo.indexOfProperty (qUtf8Printable k) = some (i, p) →
      ∃ v, helper.deserializeSubtype p j = .ok v)
    (hextra : helper.validationFlags.noExtraProperties = false ∨
      ∀ k j, (k, j) ∈ o → mo.indexOfProperty (qUtf8Printable k) ≠ none)
    (hstored : helper.validationFlags.allProperties = false ∨
      ∀ p ∈ mo.properties, p.isStored = true → p.name ∈ o.keys.map qUtf8Printable) :
    ∃ g, QJsonGadgetConverter.deserialize mt helper t (.object o) =
        .ok (QJsonGadgetConverter.wrap mt t g) ∧
      ∀ k j i p, (k, j) ∈ o → mo.indexOfProperty (qUtf8Printable k) = some (i, p) →
        p.isStored = false → i < g0.length →
        ∃ v, helper.deserializeSubtype p j = .ok v ∧
          (∀ stored, p.write v = some stored → g[i]? = some stored) ∧
          (p.write v = none → g[i]? = g0[i]?) := by
  obtain ⟨g, req, heq, -, -, hreq⟩ := deserializeProperties_ok helper mo o g0
    (if helper.validationFlags.allProperties then
      QJsonGadgetConverter.collectRequired mo.properties [] else []) hknown hextra
  have hempty : helper.validationFlags.allProperties = true → req = [] := by
    intro hall
    rcases hstored with h | h
    · rw [h] at hall
      cases hall
    · apply List.eq_nil_iff_forall_not_mem.mpr
      intro n hn
      obtain ⟨hn1, hn2⟩ := (hreq n).mp hn
      simp only [hall, if_true] at hn1
      rcases (mem_collectRequired _ _ _).mp hn1 with h1 | ⟨p, hp, hs, rfl⟩
      · simp at h1
      · exact hn2 ⟨h p hp hs, stored_name_known mo p hp⟩
  refine ⟨g, ?_, ?_⟩
  · rw [deserialize_of_construct mt helper t mo (.object o) g0 hmo rfl hcons]
    have hbody : QJsonGadgetConverter.deserializeGadget helper mo (.object o) g0 = .ok g := by
      simp only [QJsonGadgetConverter.deserializeGadget, QJsonValue.toObject, heq]
      cases hall : helper.validationFlags.allProperties with
      | false => simp
      | true => simp [hempty hall]
    rw [hbody]
  · intro k j i p hm hidx _ hi
    obtain ⟨v, hv1, hv2⟩ :=
      deserializeProperties_written helper mo o g0 _ g req k j i p heq hunique hm hidx
    refine ⟨v, hv1, ?_, ?_⟩
    · intro stored hw
      rw [hv2]
      simp [writeOnGadget, hw, List.getElem?_set, hi]
    · intro hw
      rw [hv2]
      simp [writeOnGadget, hw]

/-- C23, amended, on the record class `Mixed`, field `a` stored and field `c` not, with both
validation flags set: the object `{"a": 1, "c": 7}` deserializes, and the slot 1 of `c` holds
what `writeOnGadget` stores of the deserialized 7. -/
theorem non_stored_fields_witness :
    ∃ g, QJsonGadgetConverter.deserialize mixedTypes (exampleHelper fullValidation) 1006
          (.object [("a", .double 1), ("c", .double 7)]) =
        .ok (QJsonGadgetConverter.wrap mixedTypes 1006 g) ∧
      ∀ k j i p, (k, j) ∈ ([("a", .double 1), ("c", .double 7)] : QJsonObject) →
        mixedMeta.indexOfProperty (qUtf8Printable k) = some (i, p) → p.isStored = false →
        i < [QVariant.num QMetaType.Int 0, QVariant.num QMetaType.Int 0].length →
        ∃ v, (exampleHelper fullValidation).deserializeSubtype p j = .ok v ∧
          (∀ stored, p.write v = some stored → g[i]? = some stored) ∧
          (p.write v = none → g[i]? =
            [QVariant.num QMetaType.Int 0, QVariant.num QMetaType.Int 0][i]?) :=
  non_stored_fields mixedTypes (exampleHelper fullValidation) 1006 mixedMeta
    [("a", .double 1), ("c", .double 7)] [.num QMetaType.Int 0, .num QMetaType.Int 0] rfl rfl
    (by decide)
    (by
      intro k j hm i p _
      simp only [List.mem_cons, Prod.mk.injEq, List.mem_nil_iff, or_false] at hm
      rcases hm with ⟨-, rfl⟩ | ⟨-, rfl⟩
      · exact ⟨.num QMetaType.Int 1, rfl⟩
      · exact ⟨.num QMetaType.Int 7, rfl⟩)
    (Or.inr (by
      intro k j hm
      simp only [List.mem_cons, Prod.mk.injEq, List.mem_nil_iff, or_false] at hm
      rcases hm with ⟨rfl, -⟩ | ⟨rfl, -⟩
      · exact stored_name_known mixedMeta (intProperty "a") (by simp [mixedMeta])
      · exact stored_name_known mixedMeta
          { name := "c", isStored := false, isEnumType := false, enumerator := noEnum,
            userType := QMetaType.Int, write := writeInt } (by simp [mixedMeta])))
    (Or.inr (by
      intro p hp hs
      simp only [mixedMeta, List.mem_cons, List.mem_nil_iff, or_false] at hp
      rcases hp with rfl | rfl
      · decide
      · cases hs))

/-- The examples of C23 evaluated, with both validation flags set: with the key `c` the value
7 is written to the slot of the writable non-stored field; without it the call succeeds all the
same and the slot keeps its default; a key that names no field is refused; a key that names the
field up to its first NUL character is known. -/
theorem non_stored_fields_examples :
    QJsonGadgetConverter.deserialize mixedTypes (exampleHelper fullValidation) 1006
        (.object [("a", .double 1), ("c", .double 7)]) =
      .ok (.gadget 1006 [.num QMetaType.Int 1, .num QMetaType.Int 7]) ∧
    QJsonGadgetConverter.deserialize mixedTypes (exampleHelper fullValidation) 1006
        (.object [("a", .double 1)]) =
      .ok (.gadget 1006 [.num QMetaType.Int 1, .num QMetaType.Int 0]) ∧
    QJsonGadgetConverter.deserialize mixedTypes (exampleHelper fullValidation) 1006
        (.object [("a", .double 1), ("z", .double 7)]) =
      .error (.deserialization "Found extra property z but extra properties are not allowed") ∧
    QJsonGadgetConverter.deserialize mixedTypes (exampleHelper fullValidation) 1006
        (.object [("c", .double 7)]) =
      .error (.deserialization (QJsonGadgetConverter.missingMessage mixedMeta ["a"])) ∧
    QJsonGadgetConverter.deserialize mixedTypes (exampleHelper fullValidation) 1006
        (.object [("a", .double 1), ("c\x00x", .double 7)]) =
      .ok (.gadget 1006 [.num QMetaType.Int 1, .num QMetaType.Int 7]) :=
  ⟨rfl, rfl, rfl, rfl, rfl⟩

end QtJsonSerializer
